import Mathlib

/-!
# PD rolling-upgrade orchestration (`pkg/manager/member/pd_upgrader.go`)

A shallow embedding of `pdUpgrader.Upgrade` and of the leadership handoff
target selection, followed by theorems about them.

Conventions of the embedding:

* Go maps (`map[string]T`) are association lists; `mapGet` is the map read
  (first binding of a key), and the order of the list is the order in which a
  `range` over the map happens to visit the entries.
* Pointers that the code dereferences are `Option`s; dereferencing `none`
  is the outcome `Ret.panic`.
* `int32` ordinals are `Int`; the code only compares them.
* Everything the upgrader reaches through `u.deps`, through packages whose
  source is not part of `pkg/manager/member/pd_upgrader.go`, or through the
  wall clock is a field of `Deps`. Calls that leave the process (pod lister,
  PD client) are recorded, in order, in the `trace` of the result.
-/

namespace PDUpgrader

/-! ## Data model -/

/-- Read of a Go map: the value bound to `k`, if any. -/
def mapGet {β : Type} : List (String × β) → String → Option β
  | [], _ => none
  | (k', v) :: rest, k => if k' = k then some v else mapGet rest k

/-- Phase of a member type: `v1alpha1.MemberPhase`. -/
inductive MemberPhase where
  | NormalPhase
  | UpgradePhase
  | ScalePhase
  deriving DecidableEq, Repr

/-- One PD member as recorded in the cluster status: `v1alpha1.PDMember`. -/
structure PDMember where
  Name : String
  ID : String
  ClientURL : String
  Health : Bool
  deriving DecidableEq, Repr

/-- The zero value of `PDMember`, which a Go map read yields for a missing key. -/
def PDMember.zero : PDMember := ⟨"", "", "", false⟩

/-- The part of `apps.StatefulSetStatus` the upgrader reads. -/
structure StatefulSetStatus where
  Replicas : Int
  UpdateRevision : String
  deriving DecidableEq, Repr

/-- The PD part of the cluster status: `tc.Status.PD`. -/
structure PDStatus where
  Synced : Bool
  Phase : MemberPhase
  StatefulSet : Option StatefulSetStatus
  Members : List (String × PDMember)
  PeerMembers : List (String × PDMember)
  Leader : PDMember
  deriving DecidableEq, Repr

/-- The fields of `v1alpha1.TidbCluster` the upgrader reads or writes. -/
structure TidbCluster where
  Name : String
  Namespace : String
  ClusterDomain : String
  AcrossK8s : Bool
  Annotations : List (String × String)
  PD : PDStatus
  deriving DecidableEq, Repr

/-- Stand-in for `corev1.PodSpec`, which the upgrader only copies. -/
structure PodSpec where
  content : String
  deriving DecidableEq, Repr

/-- Update strategy type: `apps.StatefulSetUpdateStrategyType`. -/
inductive StrategyType where
  | RollingUpdateStatefulSetStrategyType
  | OnDeleteStatefulSetStrategyType
  deriving DecidableEq, Repr

/-- Rolling update parameters: `apps.RollingUpdateStatefulSetStrategy`. -/
structure RollingUpdateStrategy where
  Partition : Option Int
  deriving DecidableEq, Repr

/-- Update strategy: `apps.StatefulSetUpdateStrategy`. -/
structure UpdateStrategy where
  /-- The field `Type` of the Go structure. -/
  Type_ : StrategyType
  RollingUpdate : Option RollingUpdateStrategy
  deriving DecidableEq, Repr

/-- The fields of `apps.StatefulSet` the upgrader reads or writes;
`Template` is `Spec.Template.Spec`. -/
structure StatefulSet where
  Name : String
  Annotations : List (String × String)
  Replicas : Option Int
  Template : PodSpec
  UpdateStrategy : UpdateStrategy
  deriving DecidableEq, Repr

/-- The partition of a StatefulSet, when its rolling-update parameters and
their partition are both set. -/
def StatefulSet.partition (s : StatefulSet) : Option Int :=
  match s.UpdateStrategy.RollingUpdate with
  | none => none
  | some ru => ru.Partition

/-- The part of `corev1.Pod` the upgrader reads itself; `Payload` stands for
what only the availability check looks at. -/
structure Pod where
  Name : String
  Labels : List (String × String)
  Payload : String
  deriving DecidableEq, Repr

/-- The two kinds of error built in this file: `fmt.Errorf` and
`controller.RequeueErrorf`. Errors handed back by collaborators are of either
kind. -/
inductive Err where
  | errorf (msg : String)
  | requeue (msg : String)
  deriving DecidableEq, Repr

/-- The text of an error: `err.Error()`. -/
def Err.msg : Err → String
  | .errorf m => m
  | .requeue m => m

/-- Whether an error is a requeue error: `controller.IsRequeueError`. -/
def Err.isRequeue : Err → Bool
  | .errorf _ => false
  | .requeue _ => true

/-- A call that leaves the process. -/
inductive Event where
  | podGet (ns : String) (name : String)
  | getReady (member : PDMember)
  | isPDStable
  | transferPDLeader (target : String)
  deriving DecidableEq, Repr

/-- How a call ends: `nil`, an error, or a nil-pointer dereference. -/
inductive Ret where
  | nil
  | error (e : Err)
  | panic
  deriving DecidableEq, Repr

/-- What a call of the upgrader leaves behind: its return value, the cluster
object and the desired StatefulSet as mutated, and the calls it made. -/
structure Result where
  ret : Ret
  tc : TidbCluster
  newSet : StatefulSet
  trace : List Event
  deriving DecidableEq, Repr

/-- Put the events of the steps already run in front of a later result. -/
def Result.after (evs : List Event) (r : Result) : Result :=
  { r with trace := evs ++ r.trace }

/-- Collaborators of the upgrader: naming helpers, StatefulSet helpers, the
pod lister and the PD client. -/
structure Deps where
  /-- Go `PdName(tcName, ordinal, namespace, clusterDomain, acrossK8s)`. -/
  PdName : String → Int → String → String → Bool → String
  /-- Go `PdPodName(tcName, ordinal)`. -/
  PdPodName : String → Int → String
  /-- Go `templateEqual(new, old)`. -/
  templateEqual : StatefulSet → StatefulSet → Bool
  /-- Go `GetLastAppliedConfig(set)`, reduced to the pod spec it returns. -/
  GetLastAppliedConfig : StatefulSet → Except Err PodSpec
  /-- Go `helper.GetPodOrdinals(replicas, set).List()`. -/
  GetPodOrdinals : Int → StatefulSet → List Int
  /-- Go `strconv.Atoi`. -/
  Atoi : String → Option Int
  /-- Go `u.deps.PodLister.Pods(ns).Get(name)`. -/
  PodGet : String → String → Except String Pod
  /-- Go `k8s.IsPodAvailable(pod, minReadySeconds, metav1.Now())`. -/
  IsPodAvailable : Pod → Int → Bool
  /-- Whether `k8s.GetPodReadyCondition` finds a ready condition that is true. -/
  PodReadyConditionTrue : Pod → Bool
  /-- Whether `controller.GetPDClientForMember` returns a client. -/
  HasPDClientForMember : PDMember → Bool
  /-- Go `pdClient.GetReady()` of the client of a member. -/
  GetReady : PDMember → Except String Bool
  /-- Go `pdapi.IsPDStable(controller.GetPDClient(...))`. -/
  IsPDStable : String
  /-- Go `controller.GetPDClient(...).TransferPDLeader(target)`; `none` is `nil`. -/
  TransferPDLeader : String → Option Err

/-! ## Constants -/

/-- Annotation that opts in to the peer check. -/
def annoKeyPDPeersCheck : String := "tidb.pingcap.com/pd-check-quorum-before-upgrade"

/-- Annotation that overrides the minimum ready seconds. -/
def annoKeyPDMinReadySeconds : String := "tidb.pingcap.com/pd-min-ready-seconds"

/-- Label holding the revision of a pod: `apps.ControllerRevisionHashLabelKey`. -/
def ControllerRevisionHashLabelKey : String := "controller-revision-hash"

/-! ## Helpers of the upgrader -/

/-- Go `tc.PDScaling()`: the PD phase is `ScalePhase`. -/
def TidbCluster.PDScaling (tc : TidbCluster) : Bool :=
  decide (tc.PD.Phase = MemberPhase.ScalePhase)

/-- Go `tc.PDStsActualReplicas()`: the replicas of the StatefulSet status, 0 when
the status is nil. -/
def TidbCluster.PDStsActualReplicas (tc : TidbCluster) : Int :=
  match tc.PD.StatefulSet with
  | none => 0
  | some st => st.Replicas

/-- Modelled from the spec: `mngerutils.SetUpgradePartition`, whose source is
missing; the produced mutation "set partition" of the desired StatefulSet. -/
def SetUpgradePartition (set : StatefulSet) (upgradeOrdinal : Int) : StatefulSet :=
  { set with UpdateStrategy :=
      { set.UpdateStrategy with RollingUpdate := some ⟨some upgradeOrdinal⟩ } }

/-- Go `helper.GetMaxPodOrdinal(replicas, set)`: the largest pod ordinal, `-1`
for an empty set. -/
def GetMaxPodOrdinal (d : Deps) (replicas : Int) (set : StatefulSet) : Int :=
  (d.GetPodOrdinals replicas set).foldl (fun m k => if k > m then k else m) (-1)

/-- Conversion `int32(x)` of a Go `int`: wrap into the 32-bit signed range. -/
def toInt32 (x : Int) : Int :=
  (x + 2147483648) % 4294967296 - 2147483648

/-! ## Leadership handoff target selection -/

/-- The closure `genPDName` of `choosePDToTransferFromMembers`: the member name
of an ordinal if the status has a member of that name, the pod name otherwise. -/
def genPDName (d : Deps) (tc : TidbCluster) (targetOrdinal : Int) : String :=
  let pdName := d.PdName tc.Name targetOrdinal tc.Namespace tc.ClusterDomain tc.AcrossK8s
  match mapGet tc.PD.Members pdName with
  | some _ => pdName
  | none => d.PdPodName tc.Name targetOrdinal

/-- The closure `pred` of `choosePDToTransferFromMembers`: the health of the
member of that name, false (the zero value) when there is none. -/
def pred (tc : TidbCluster) (pdName : String) : Bool :=
  match mapGet tc.PD.Members pdName with
  | some m => m.Health
  | none => PDMember.zero.Health

/-- First loop of `choosePDToTransferFromMembers`, over the ordinals from the
last index down, while they are larger than `ordinal`. -/
def findMaxLarger (d : Deps) (tc : TidbCluster) (ordinal : Int) : List Int → String
  | [] => ""
  | o :: rest =>
    if o > ordinal then
      let curName := genPDName d tc o
      if pred tc curName then curName else findMaxLarger d tc ordinal rest
    else ""

/-- Second loop of `choosePDToTransferFromMembers`, over the ordinals from
index 0 up, while they are less than `ordinal`. -/
def findMinLess (d : Deps) (tc : TidbCluster) (ordinal : Int) : List Int → String
  | [] => ""
  | o :: rest =>
    if o < ordinal then
      let curName := genPDName d tc o
      if pred tc curName then curName else findMinLess d tc ordinal rest
    else ""

/-- Go `choosePDToTransferFromMembers(tc, newSet, ordinal)`; `none` is the
dereference of a nil `newSet.Spec.Replicas`. -/
def choosePDToTransferFromMembers (d : Deps) (tc : TidbCluster) (newSet : StatefulSet)
    (ordinal : Int) : Option String :=
  match newSet.Replicas with
  | none => none
  | some replicas =>
    let list := d.GetPodOrdinals replicas newSet
    let ordinal := if decide (ordinal ∈ list) then ordinal
      else GetMaxPodOrdinal d replicas newSet
    let targetName := findMaxLarger d tc ordinal list.reverse
    some (if targetName = "" then findMinLess d tc ordinal list else targetName)

/-- The loop of `choosePDToTransferFromPeerMembers`: the name of the first peer
member met, in the order of the range over the map, that is healthy and not
named `upgradePdName`. -/
def peerLoop (upgradePdName : String) : List (String × PDMember) → String
  | [] => ""
  | (_, member) :: rest =>
    if member.Name ≠ upgradePdName ∧ member.Health = true then member.Name
    else peerLoop upgradePdName rest

/-- Go `choosePDToTransferFromPeerMembers(tc, upgradePdName)`. -/
def choosePDToTransferFromPeerMembers (tc : TidbCluster) (upgradePdName : String) : String :=
  peerLoop upgradePdName tc.PD.PeerMembers

/-! ## The upgrader -/

/-- Go `u.isPDPeersStable(tc)`: the reason reported by the stability query when
the annotation is "true", with the calls made. -/
def isPDPeersStable (d : Deps) (tc : TidbCluster) : String × List Event :=
  match mapGet tc.Annotations annoKeyPDPeersCheck with
  | some check => if check = "true" then (d.IsPDStable, [Event.isPDStable]) else ("", [])
  | none => ("", [])

/-- Go `u.isPDMemberReady(tc, member)` for a non-nil member, with the calls made. -/
def isPDMemberReady (d : Deps) (_tc : TidbCluster) (member : PDMember) :
    Except Err Bool × List Event :=
  if d.HasPDClientForMember member then
    match d.GetReady member with
    | .error err =>
      (.error (.errorf ("pd upgrader: failed to check if pd member " ++ member.Name
        ++ " is ready: " ++ err)), [Event.getReady member])
    | .ok ready => (.ok ready, [Event.getReady member])
  else
    (.error (.errorf ("pd upgrader: failed to get pd client for member " ++ member.Name)), [])

/-- Go `u.upgradePDPod(tc, ordinal, newSet)`. -/
def upgradePDPod (d : Deps) (tc : TidbCluster) (ordinal : Int) (newSet : StatefulSet) :
    Result :=
  let upgradePdName := d.PdName tc.Name ordinal tc.Namespace tc.ClusterDomain tc.AcrossK8s
  let upgradePodName := d.PdPodName tc.Name ordinal
  if tc.PD.Leader.Name = upgradePdName ∨ tc.PD.Leader.Name = upgradePodName then
    match (if tc.PDStsActualReplicas > 1 then choosePDToTransferFromMembers d tc newSet ordinal
        else some "") with
    | none => ⟨.panic, tc, newSet, []⟩
    | some fromMembers =>
      let targetName := if fromMembers = "" then
          choosePDToTransferFromPeerMembers tc upgradePdName
        else fromMembers
      if targetName ≠ "" then
        match d.TransferPDLeader targetName with
        | some err => ⟨.error err, tc, newSet, [Event.transferPDLeader targetName]⟩
        | none =>
          ⟨.error (.requeue ("tidbcluster: pd member: [" ++ upgradePdName
            ++ "] is transferring leader to pd member: [" ++ targetName ++ "]")),
            tc, newSet, [Event.transferPDLeader targetName]⟩
      else ⟨.nil, tc, SetUpgradePartition newSet ordinal, []⟩
  else ⟨.nil, tc, SetUpgradePartition newSet ordinal, []⟩

/-- The minimum ready seconds read from the annotation: 0 when it is absent
or is not an integer. -/
def minReadySeconds (d : Deps) (tc : TidbCluster) : Int :=
  match mapGet tc.Annotations annoKeyPDMinReadySeconds with
  | some s =>
    match d.Atoi s with
    | none => 0
    | some i => i
  | none => 0

/-- The loop of `gracefulUpgrade` over the pod ordinals, given from the last
index down. -/
def upgradeLoop (d : Deps) (tc : TidbCluster) (minReady : Int) (newSet : StatefulSet) :
    List Int → Result
  | [] => ⟨.nil, tc, newSet, []⟩
  | i :: rest =>
    let podName := d.PdPodName tc.Name i
    match d.PodGet tc.Namespace podName with
    | .error err =>
      ⟨.error (.errorf ("gracefulUpgrade: failed to get pods " ++ podName ++ ", error: " ++ err)),
        tc, newSet, [Event.podGet tc.Namespace podName]⟩
    | .ok pod =>
      match mapGet pod.Labels ControllerRevisionHashLabelKey with
      | none =>
        ⟨.error (.requeue ("tidbcluster: pd pod: [" ++ podName ++ "] has no label")),
          tc, newSet, [Event.podGet tc.Namespace podName]⟩
      | some revision =>
        match tc.PD.StatefulSet with
        | none => ⟨.panic, tc, newSet, [Event.podGet tc.Namespace podName]⟩
        | some sts =>
          if revision = sts.UpdateRevision then
            if !d.IsPodAvailable pod (toInt32 minReady) then
              if !d.PodReadyConditionTrue pod then
                ⟨.error (.requeue ("tidbcluster: upgraded pd pod: [" ++ podName
                  ++ "] is not ready")), tc, newSet, [Event.podGet tc.Namespace podName]⟩
              else
                ⟨.error (.requeue ("tidbcluster: upgraded pd pod: [" ++ podName
                  ++ "] is not available")), tc, newSet, [Event.podGet tc.Namespace podName]⟩
            else
              match mapGet tc.PD.Members
                  (d.PdName tc.Name i tc.Namespace tc.ClusterDomain tc.AcrossK8s) with
              | none =>
                ⟨.error (.requeue ("tidbcluster: pd upgraded pod: [" ++ podName
                  ++ "] is not health")), tc, newSet, [Event.podGet tc.Namespace podName]⟩
              | some member =>
                if !member.Health then
                  ⟨.error (.requeue ("tidbcluster: pd upgraded pod: [" ++ podName
                    ++ "] is not health")), tc, newSet, [Event.podGet tc.Namespace podName]⟩
                else
                  match isPDMemberReady d tc member with
                  | (.error err, evs) =>
                    ⟨.error (.requeue ("tidbcluster: pd member: [" ++ podName
                      ++ "] is not ready, error: " ++ err.msg)), tc, newSet,
                      Event.podGet tc.Namespace podName :: evs⟩
                  | (.ok ready, evs) =>
                    if !ready then
                      ⟨.error (.requeue ("tidbcluster: pd member: [" ++ podName
                        ++ "] is not ready")), tc, newSet,
                        Event.podGet tc.Namespace podName :: evs⟩
                    else
                      (upgradeLoop d tc minReady newSet rest).after
                        (Event.podGet tc.Namespace podName :: evs)
          else
            match isPDPeersStable d tc with
            | (unstableReason, evs) =>
              if unstableReason ≠ "" then
                ⟨.error (.requeue ("Peer PDs is unstable: " ++ unstableReason)), tc, newSet,
                  Event.podGet tc.Namespace podName :: evs⟩
              else
                (upgradePDPod d tc i newSet).after (Event.podGet tc.Namespace podName :: evs)

/-- The assignment `tc.Status.PD.Phase = v1alpha1.UpgradePhase`. -/
def TidbCluster.withUpgradePhase (tc : TidbCluster) : TidbCluster :=
  { tc with PD := { tc.PD with Phase := MemberPhase.UpgradePhase } }

/-- Go `u.gracefulUpgrade(tc, oldSet, newSet)`. -/
def gracefulUpgrade (d : Deps) (tc : TidbCluster) (oldSet newSet : StatefulSet) : Result :=
  if !tc.PD.Synced then
    ⟨.error (.errorf ("tidbcluster: [" ++ tc.Namespace ++ "/" ++ tc.Name
      ++ "]'s pd status sync failed, can not to be upgraded")), tc, newSet, []⟩
  else if tc.PDScaling then
    match d.GetLastAppliedConfig oldSet with
    | .error err => ⟨.error err, tc, newSet, []⟩
    | .ok podSpec => ⟨.nil, tc, { newSet with Template := podSpec }, []⟩
  else
    let tc := tc.withUpgradePhase
    if !d.templateEqual newSet oldSet then ⟨.nil, tc, newSet, []⟩
    else if oldSet.UpdateStrategy.Type_ = StrategyType.OnDeleteStatefulSetStrategyType
        ∨ oldSet.UpdateStrategy.RollingUpdate = none then
      ⟨.nil, tc, { newSet with UpdateStrategy := oldSet.UpdateStrategy }, []⟩
    else
      let minReady := minReadySeconds d tc
      match oldSet.partition with
      | none => ⟨.panic, tc, newSet, []⟩
      | some partition =>
        let newSet := SetUpgradePartition newSet partition
        match oldSet.Replicas with
        | none => ⟨.panic, tc, newSet, []⟩
        | some replicas =>
          upgradeLoop d tc minReady newSet (d.GetPodOrdinals replicas oldSet).reverse

/-- Go `u.Upgrade(tc, oldSet, newSet)`. -/
def Upgrade (d : Deps) (tc : TidbCluster) (oldSet newSet : StatefulSet) : Result :=
  gracefulUpgrade d tc oldSet newSet

/-! ## Vocabulary of the statements -/

/-- The member name of ordinal `i`. -/
def memberName (d : Deps) (tc : TidbCluster) (i : Int) : String :=
  d.PdName tc.Name i tc.Namespace tc.ClusterDomain tc.AcrossK8s

/-- The pod name of ordinal `i`. -/
def podName (d : Deps) (tc : TidbCluster) (i : Int) : String :=
  d.PdPodName tc.Name i

/-- The pod of ordinal `i` is found, the status has a target revision, and
the revision label of the pod is that revision. -/
def onTargetRevision (d : Deps) (tc : TidbCluster) (i : Int) : Bool :=
  match d.PodGet tc.Namespace (podName d tc i), tc.PD.StatefulSet with
  | .ok pod, some sts =>
    decide (mapGet pod.Labels ControllerRevisionHashLabelKey = some sts.UpdateRevision)
  | _, _ => false

/-- The pod of ordinal `i` is found, has a revision label, the status has a
target revision, and the two differ. -/
def staleRevision (d : Deps) (tc : TidbCluster) (i : Int) : Bool :=
  match d.PodGet tc.Namespace (podName d tc i), tc.PD.StatefulSet with
  | .ok pod, some sts =>
    match mapGet pod.Labels ControllerRevisionHashLabelKey with
    | some revision => decide (revision ≠ sts.UpdateRevision)
    | none => false
  | _, _ => false

/-- The pod of ordinal `i` is found and is available for the minimum ready
seconds of the cluster. -/
def podAvailable (d : Deps) (tc : TidbCluster) (i : Int) : Bool :=
  match d.PodGet tc.Namespace (podName d tc i) with
  | .ok pod => d.IsPodAvailable pod (toInt32 (minReadySeconds d tc))
  | .error _ => false

/-- The member of ordinal `i` is present in the PD status, marked healthy, and
the readiness query to it answers ready. -/
def memberHealthyReady (d : Deps) (tc : TidbCluster) (i : Int) : Bool :=
  match mapGet tc.PD.Members (memberName d tc i) with
  | some member =>
    member.Health && d.HasPDClientForMember member &&
      (match d.GetReady member with
       | .ok ready => ready
       | .error _ => false)
  | none => false

/-- Ordinal `i` is confirmed: on the target revision, available, and its
member present, healthy and ready. -/
def confirmed (d : Deps) (tc : TidbCluster) (i : Int) : Bool :=
  onTargetRevision d tc i && podAvailable d tc i && memberHealthyReady d tc i

/-- The member of ordinal `i` is the current PD leader: the leader is named by
the member name or by the pod name of the ordinal. -/
def isLeader (d : Deps) (tc : TidbCluster) (i : Int) : Bool :=
  decide (tc.PD.Leader.Name = memberName d tc i) || decide (tc.PD.Leader.Name = podName d tc i)

/-- The member that handoff selection looks at for ordinal `i` is healthy. -/
def healthyOrdinal (d : Deps) (tc : TidbCluster) (i : Int) : Bool :=
  pred tc (genPDName d tc i)

/-- The pod names fetched by a call, in order. -/
def podsFetched : List Event → List String
  | [] => []
  | Event.podGet _ name :: rest => name :: podsFetched rest
  | _ :: rest => podsFetched rest

/-- The leadership transfers issued by a call, in order. -/
def transfersIssued : List Event → List String
  | [] => []
  | Event.transferPDLeader target :: rest => target :: transfersIssued rest
  | _ :: rest => transfersIssued rest

/-- The checks before the loop of `gracefulUpgrade` are passed: the status is
synced, no scaling is in flight, `templateEqual` holds, the observed strategy
is a rolling update with a partition, and the observed replicas are set. -/
def PastEarlyExits (d : Deps) (tc : TidbCluster) (oldSet newSet : StatefulSet)
    (partition replicas : Int) : Prop :=
  tc.PD.Synced = true ∧ tc.PD.Phase ≠ MemberPhase.ScalePhase ∧
  d.templateEqual newSet oldSet = true ∧
  oldSet.UpdateStrategy.Type_ ≠ StrategyType.OnDeleteStatefulSetStrategyType ∧
  oldSet.partition = some partition ∧ oldSet.Replicas = some replicas

/-! ## A three-member cluster used to evaluate the definitions -/

/-- Pod name of the sample cluster. -/
def samplePodName (i : Int) : String :=
  if i = 0 then "pd-0" else if i = 1 then "pd-1" else if i = 2 then "pd-2" else "pd-n"

/-- A sample pod with a revision label. -/
def samplePod (name revision : String) : Pod :=
  ⟨name, [(ControllerRevisionHashLabelKey, revision)], ""⟩

/-- A sample healthy member. -/
def sampleMember (name : String) : PDMember := ⟨name, name, name, true⟩

/-- Sample collaborators: ordinals 0, 1, 2; pods of revisions `r0`, `r1`, `r2`;
every pod available, every member ready, peers stable; `templateEqual` answers
`eq` and a leadership transfer answers `transfer`. -/
def sampleDeps (r0 r1 r2 : String) (eq : Bool) (transfer : Option Err) : Deps where
  PdName := fun _ i _ _ _ => samplePodName i
  PdPodName := fun _ i => samplePodName i
  templateEqual := fun _ _ => eq
  GetLastAppliedConfig := fun s => .ok s.Template
  GetPodOrdinals := fun _ _ => [0, 1, 2]
  Atoi := fun _ => none
  PodGet := fun _ name =>
    if name = "pd-0" then .ok (samplePod name r0)
    else if name = "pd-1" then .ok (samplePod name r1)
    else if name = "pd-2" then .ok (samplePod name r2)
    else .error "not found"
  IsPodAvailable := fun _ _ => true
  PodReadyConditionTrue := fun _ => true
  HasPDClientForMember := fun _ => true
  GetReady := fun _ => .ok true
  IsPDStable := ""
  TransferPDLeader := fun _ => transfer

/-- Sample cluster: three healthy members, target revision "v2", the leader
named `leader`, the phase `phase`, and the synced flag `synced`. -/
def sampleTc (synced : Bool) (phase : MemberPhase) (leader : String) : TidbCluster where
  Name := "db"
  Namespace := "ns"
  ClusterDomain := ""
  AcrossK8s := false
  Annotations := []
  PD :=
    { Synced := synced
      Phase := phase
      StatefulSet := some ⟨3, "v2"⟩
      Members := [("pd-0", sampleMember "pd-0"), ("pd-1", sampleMember "pd-1"),
        ("pd-2", sampleMember "pd-2")]
      PeerMembers := []
      Leader := sampleMember leader }

/-- Sample cluster whose status has no member for ordinal 2. -/
def sampleTcMissing2 : TidbCluster :=
  { sampleTc true MemberPhase.NormalPhase "pd-0" with
    PD := { (sampleTc true MemberPhase.NormalPhase "pd-0").PD with
      Members := [("pd-0", sampleMember "pd-0"), ("pd-1", sampleMember "pd-1")] } }

/-- Sample cluster with a single managed member, pd-0, which is the leader,
and the given peer members. -/
def sampleTcLonely (peers : List (String × PDMember)) : TidbCluster where
  Name := "db"
  Namespace := "ns"
  ClusterDomain := ""
  AcrossK8s := false
  Annotations := []
  PD :=
    { Synced := true
      Phase := MemberPhase.NormalPhase
      StatefulSet := some ⟨1, "v2"⟩
      Members := [("pd-0", sampleMember "pd-0")]
      PeerMembers := peers
      Leader := sampleMember "pd-0" }

/-- Sample StatefulSet with three replicas and the given partition. -/
def sampleSet (partition : Int) : StatefulSet where
  Name := "db-pd"
  Annotations := []
  Replicas := some 3
  Template := ⟨"spec"⟩
  UpdateStrategy := ⟨StrategyType.RollingUpdateStatefulSetStrategyType, some ⟨some partition⟩⟩

/-- Sample cluster with three healthy members, the given leader and the given
annotations. -/
def sampleTcAnnotated (leader : String) (annotations : List (String × String)) :
    TidbCluster :=
  { sampleTc true MemberPhase.NormalPhase leader with Annotations := annotations }

/-- Sample collaborators for which the last applied config of a StatefulSet
cannot be read. -/
def sampleDepsNoConfig : Deps :=
  { sampleDeps "v1" "v1" "v1" true none with
    GetLastAppliedConfig := fun _ => .error (.errorf "last applied config not found") }

/-- Sample collaborators whose stability query reports an unhealthy peer; pod 2
is upgraded, pods 0 and 1 are stale. -/
def sampleDepsUnstable : Deps :=
  { sampleDeps "v1" "v1" "v2" true none with IsPDStable := "pd-9 is unhealthy" }

/-- Sample collaborators with every pod upgraded and ready since the time of
the call, so that a pod is available only for a minimum of 0 seconds or less;
`Atoi` parses "4294967296". -/
def sampleDepsJustReady : Deps :=
  { sampleDeps "v2" "v2" "v2" true none with
    Atoi := fun s => if s = "4294967296" then some 4294967296 else none
    IsPodAvailable := fun _ minReadySeconds => decide (minReadySeconds ≤ 0) }

/-- Sample StatefulSet with rolling-update parameters and no partition. -/
def sampleSetNoPartition : StatefulSet :=
  { sampleSet 3 with
    UpdateStrategy := ⟨StrategyType.RollingUpdateStatefulSetStrategyType, some ⟨none⟩⟩ }

/-- Sample StatefulSet whose update strategy was set to OnDelete. -/
def sampleSetOnDelete : StatefulSet :=
  { sampleSet 3 with
    UpdateStrategy := ⟨StrategyType.OnDeleteStatefulSetStrategyType, none⟩ }

/-- Sample peer member. -/
def samplePeer (name : String) : String × PDMember := (name, sampleMember name)

/-- Sample collaborators for which no pod can be fetched. -/
def sampleDepsNoPods : Deps :=
  { sampleDeps "v1" "v1" "v1" true none with PodGet := fun _ _ => .error "not found" }

end PDUpgrader

/-! # TiProxy scaling (`pkg/manager/member/tiproxy_scaler.go`)

`Scale`, `ScaleOut` and `ScaleIn` are embedded from the source. The helpers
`scaleOne`, `resetReplicas` and `setReplicasAndDeleteSlots`, whose source is
not part of the file, are the fields of `Helpers`; every call of a helper and
every request sent to the cluster is recorded, in order, in the `trace` of the
result. -/

namespace TiProxyScaler

open PDUpgrader (Err)

/-- The TiProxy part of the cluster status: `tc.Status.TiProxy`. -/
structure TiProxyStatus where
  Synced : Bool
  deriving DecidableEq, Repr

/-- The fields of `v1alpha1.TidbCluster` the scaler reads. -/
structure TidbCluster where
  Name : String
  Namespace : String
  TiProxy : TiProxyStatus
  deriving DecidableEq, Repr

/-- The argument `meta metav1.Object` of the scaler: a `*v1alpha1.TidbCluster`
or an object of another type. -/
inductive MetaObject where
  | tidbCluster (tc : TidbCluster)
  | other (name : String)
  deriving DecidableEq, Repr

/-- The fields of `apps.StatefulSet` the scaler reads or writes: the replica
count and the delete-slots set held in its annotation. -/
structure StatefulSet where
  Name : String
  Namespace : String
  Replicas : Int
  DeleteSlots : List Int
  deriving DecidableEq, Repr

/-- The four values returned by `scaleOne`. -/
structure ScaleOne where
  scaling : Int
  ordinal : Int
  replicas : Int
  deleteSlots : List Int
  deriving DecidableEq, Repr

/-- What a scaler call does besides returning: calls of the helpers, and
requests sent to the cluster. -/
inductive ScaleEvent where
  | scaleOne
  | resetReplicas
  | setReplicasAndDeleteSlots (replicas : Int) (deleteSlots : List Int)
  | clusterRequest (request : String)
  deriving DecidableEq, Repr

/-- What a scaler call leaves behind: its return value (`none` is `nil`), the
desired StatefulSet as mutated, and what it did, in order. -/
structure ScaleResult where
  ret : Option Err
  newSet : StatefulSet
  trace : List ScaleEvent
  deriving DecidableEq, Repr

/-- Put the events of the steps already run in front of a later result. -/
def ScaleResult.after (evs : List ScaleEvent) (r : ScaleResult) : ScaleResult :=
  { r with trace := evs ++ r.trace }

/-- Helpers of the scaler whose source is missing. -/
structure Helpers where
  /-- Go `scaleOne(actual, desired)`. -/
  scaleOne : StatefulSet → StatefulSet → ScaleOne
  /-- Go `resetReplicas(newSet, oldSet)`: the desired StatefulSet after the call. -/
  resetReplicas : StatefulSet → StatefulSet → StatefulSet
  /-- Go `setReplicasAndDeleteSlots(newSet, replicas, deleteSlots)`: the desired
  StatefulSet after the call. -/
  setReplicasAndDeleteSlots : StatefulSet → Int → List Int → StatefulSet

/-- Go `s.ScaleOut(meta, oldSet, newSet)`. -/
def ScaleOut (h : Helpers) (object : MetaObject) (oldSet newSet : StatefulSet) : ScaleResult :=
  match object with
  | .other _ => ⟨none, newSet, []⟩
  | .tidbCluster tc =>
    if !tc.TiProxy.Synced then
      ⟨some (.errorf ("TidbCluster: " ++ tc.Namespace ++ "/" ++ tc.Name
        ++ " tiproxy status sync failed, can not scale out now")), newSet, []⟩
    else
      let one := h.scaleOne oldSet newSet
      let newSet := h.resetReplicas newSet oldSet
      ⟨none, h.setReplicasAndDeleteSlots newSet one.replicas one.deleteSlots,
        [.scaleOne, .resetReplicas, .setReplicasAndDeleteSlots one.replicas one.deleteSlots]⟩

/-- Go `s.ScaleIn(meta, oldSet, newSet)`. -/
def ScaleIn (h : Helpers) (object : MetaObject) (oldSet newSet : StatefulSet) : ScaleResult :=
  match object with
  | .other _ => ⟨none, newSet, []⟩
  | .tidbCluster tc =>
    let one := h.scaleOne oldSet newSet
    let newSet := h.resetReplicas newSet oldSet
    if !tc.TiProxy.Synced then
      ⟨some (.errorf ("TidbCluster: " ++ tc.Namespace ++ "/" ++ tc.Name
        ++ " tiproxy status sync failed, can not scale in now")), newSet,
        [.scaleOne, .resetReplicas]⟩
    else
      ⟨none, h.setReplicasAndDeleteSlots newSet one.replicas one.deleteSlots,
        [.scaleOne, .resetReplicas, .setReplicasAndDeleteSlots one.replicas one.deleteSlots]⟩

/-- Go `s.Scale(meta, oldSet, newSet)`. -/
def Scale (h : Helpers) (object : MetaObject) (oldSet newSet : StatefulSet) : ScaleResult :=
  let scaling := (h.scaleOne oldSet newSet).scaling
  if scaling > 0 then (ScaleOut h object oldSet newSet).after [.scaleOne]
  else if scaling < 0 then (ScaleIn h object oldSet newSet).after [.scaleOne]
  else ⟨none, newSet, [.scaleOne]⟩

/-- The requests a scaler call sent to the cluster, in order. -/
def clusterRequests : List ScaleEvent → List String
  | [] => []
  | .clusterRequest request :: rest => request :: clusterRequests rest
  | _ :: rest => clusterRequests rest

/-- The replica counts and delete-slots sets a scaler call wrote with
`setReplicasAndDeleteSlots`, in order. -/
def replicaWrites : List ScaleEvent → List (Int × List Int)
  | [] => []
  | .setReplicasAndDeleteSlots replicas deleteSlots :: rest =>
    (replicas, deleteSlots) :: replicaWrites rest
  | _ :: rest => replicaWrites rest

/-! ## The helpers, from the spec -/

/-- The live ordinals of a replica set with `replicas` replicas and the given
delete slots: the first `replicas` ordinals from 0 up that are not delete
slots. -/
def liveOrdinals (replicas : Int) (deleteSlots : List Int) : List Int :=
  (((List.range (replicas.toNat + deleteSlots.length)).map Int.ofNat).filter
    (fun i => decide (i ∉ deleteSlots))).take replicas.toNat

/-- The lowest ordinal from 0 up that is not live, searched among the first
`fuel` ordinals from `i`. -/
def lowestNotLive (live : List Int) : Nat → Int → Int
  | 0, i => i
  | fuel + 1, i => if i ∈ live then lowestNotLive live fuel (i + 1) else i

/-- The highest ordinal of a list, `-1` for the empty list. -/
def highest (ordinals : List Int) : Int :=
  ordinals.foldl (fun m k => if k > m then k else m) (-1)

/-- Modelled from the spec: `scaleOne`, whose source is missing. "Computing a
signed delta (+1 scale-out, -1 scale-in, 0 no-op) between desired and observed
replica counts"; scale-out "computes the next ordinal to add (lowest ordinal not
currently live ...), removes it from delete-slots if present, increments replica
count by one"; scale-in "selects the highest live ordinal as the one to remove,
adds it to delete-slots, decrements replica count by one". -/
def scaleOne (actual desired : StatefulSet) : ScaleOne :=
  let live := liveOrdinals actual.Replicas actual.DeleteSlots
  if desired.Replicas > actual.Replicas then
    let ordinal := lowestNotLive live (live.length + 1) 0
    ⟨1, ordinal, actual.Replicas + 1, actual.DeleteSlots.filter (fun s => decide (s ≠ ordinal))⟩
  else if desired.Replicas < actual.Replicas then
    let ordinal := highest live
    ⟨-1, ordinal, actual.Replicas - 1, actual.DeleteSlots ++ [ordinal]⟩
  else
    ⟨0, -1, actual.Replicas, actual.DeleteSlots⟩

/-- Modelled from the spec: `setReplicasAndDeleteSlots`, whose source is
missing; the produced mutation "set replica count ± delete-slots" of the
desired StatefulSet. -/
def setReplicasAndDeleteSlots (newSet : StatefulSet) (replicas : Int)
    (deleteSlots : List Int) : StatefulSet :=
  { newSet with Replicas := replicas, DeleteSlots := deleteSlots }

/-- The helpers as the spec gives them, around a given `resetReplicas`. -/
def specHelpers (resetReplicas : StatefulSet → StatefulSet → StatefulSet) : Helpers :=
  ⟨scaleOne, resetReplicas, setReplicasAndDeleteSlots⟩

/-! ## Sample inputs -/

/-- A sample `resetReplicas`: the desired StatefulSet with the replica count
and the delete slots of the observed one. -/
def sampleReset (newSet oldSet : StatefulSet) : StatefulSet :=
  { newSet with Replicas := oldSet.Replicas, DeleteSlots := oldSet.DeleteSlots }

/-- A sample cluster with the given synced flag. -/
def sampleCluster (synced : Bool) : MetaObject :=
  .tidbCluster ⟨"db", "ns", ⟨synced⟩⟩

/-- A sample StatefulSet with the given replica count and no delete slots. -/
def sampleSts (replicas : Int) : StatefulSet := ⟨"db-tiproxy", "ns", replicas, []⟩

end TiProxyScaler

/-! # TiKV status sync (`syncTiKVClusterStatus`)

The source of `syncTiKVClusterStatus` is missing; its test,
`TestTiKVMemberManagerSyncTidbClusterStatus`, is not. The function is modelled
from the design of the Member Status Reconciler. Timestamps are
integers, and the reading of the clock at the time of the sync is an input. -/

namespace TiKVMemberManager

open PDUpgrader (Err MemberPhase mapGet)

/-- One store as recorded in the status: `v1alpha1.TiKVStore`. -/
structure TiKVStore where
  ID : String
  State : String
  LastTransitionTime : Int
  deriving DecidableEq, Repr

/-- The TiKV part of the cluster status: `tc.Status.TiKV`. -/
structure TiKVStatus where
  Synced : Bool
  Phase : MemberPhase
  Stores : List (String × TiKVStore)
  PeerStores : List (String × TiKVStore)
  TombstoneStores : List (String × TiKVStore)
  deriving DecidableEq, Repr

/-- The store payload of an inventory entry: `pdapi.MetaStore`. -/
structure MetaStore where
  Id : String
  Address : String
  StateName : String
  deriving DecidableEq, Repr

/-- The status payload of an inventory entry: `pdapi.StoreStatus`. -/
structure StoreStatus where
  LeaderCount : Int
  deriving DecidableEq, Repr

/-- One entry of the store inventory: `pdapi.StoreInfo`; either payload may be
nil. -/
structure StoreInfo where
  Store : Option MetaStore
  Status : Option StoreStatus
  deriving DecidableEq, Repr

/-- The three disjoint collections a store is classified into. -/
inductive StoreKind where
  | tombstone
  | peer
  | localMember
  deriving DecidableEq, Repr

/-- What the sync asks of its collaborators, and the clock. -/
structure SyncDeps where
  /-- The upgrade predicate: is the replica set mid-upgrade. -/
  isUpgrading : Except Err Bool
  /-- Whether an upstream component is itself mid-upgrade. -/
  upstreamUpgrading : Bool
  /-- The desired replica count. -/
  desiredReplicas : Int
  /-- The store inventory query. -/
  getStores : Except Err (List StoreInfo)
  /-- Classification of a store "by label/address/state inspection". -/
  classify : MetaStore → StoreKind
  /-- The reading of the clock at the time of the sync. -/
  now : Int

/-- Write of a Go map: bind `k` to `v`, replacing an earlier binding. -/
def mapSet {β : Type} : List (String × β) → String → β → List (String × β)
  | [], k, v => [(k, v)]
  | (k', v') :: rest, k, v =>
    if k' = k then (k, v) :: rest else (k', v') :: mapSet rest k v

/-- The status of a local member computed from its inventory entry: the
lifecycle state is the reported state name, and the last-transition timestamp
is the recorded one when the store was recorded with that state, the time of
the sync otherwise. -/
def localStore (previous : List (String × TiKVStore)) (now : Int) (store : MetaStore) :
    TiKVStore :=
  match mapGet previous store.Id with
  | some old =>
    if old.State = store.StateName then ⟨store.Id, store.StateName, old.LastTransitionTime⟩
    else ⟨store.Id, store.StateName, now⟩
  | none => ⟨store.Id, store.StateName, now⟩

/-- The three collections built from the inventory, entry by entry: entries
with a nil store or a nil status payload are skipped; the others are classified
and recorded. -/
def foldStores (d : SyncDeps) (previous : List (String × TiKVStore)) :
    List StoreInfo →
      List (String × TiKVStore) × List (String × TiKVStore) × List (String × TiKVStore) →
      List (String × TiKVStore) × List (String × TiKVStore) × List (String × TiKVStore)
  | [], acc => acc
  | info :: rest, (stores, peers, tombstones) =>
    match info.Store, info.Status with
    | some store, some _ =>
      match d.classify store with
      | .tombstone =>
        foldStores d previous rest
          (stores, peers, mapSet tombstones store.Id ⟨store.Id, store.StateName, d.now⟩)
      | .peer =>
        foldStores d previous rest
          (stores, mapSet peers store.Id ⟨store.Id, store.StateName, d.now⟩, tombstones)
      | .localMember =>
        foldStores d previous rest
          (mapSet stores store.Id (localStore previous d.now store), peers, tombstones)
    | _, _ => foldStores d previous rest (stores, peers, tombstones)

/-- Modelled from the spec: `syncTiKVClusterStatus`, whose source is missing
(section 4.3, Member Status Reconciler). A failure of the upgrade predicate is
"returned immediately", the status left as it was. The phase is "Upgrading if
mid-upgrade AND no upstream dependency is itself mid-upgrade; Scaling if
desired replica count differs from observed; else Normal". "On query failure,
mark synced=false and return the error (status Members/Stores are not
cleared)". On success each returned store is skipped, or classified and
recorded, the last-transition timestamp of a local member being updated "only
if the state actually changed from the previous sync"; "finally set
synced=true". The result is the returned error (`none` is `nil`) and the
status after the call. -/
def syncTiKVClusterStatus (d : SyncDeps) (status : TiKVStatus) (observedReplicas : Int) :
    Option Err × TiKVStatus :=
  match d.isUpgrading with
  | .error err => (some err, status)
  | .ok upgrading =>
    let phase :=
      if upgrading && !d.upstreamUpgrading then MemberPhase.UpgradePhase
      else if d.desiredReplicas ≠ observedReplicas then MemberPhase.ScalePhase
      else MemberPhase.NormalPhase
    let status := { status with Phase := phase }
    match d.getStores with
    | .error err => (some err, { status with Synced := false })
    | .ok infos =>
      match foldStores d status.Stores infos ([], [], []) with
      | (stores, peers, tombstones) =>
        (none, { status with
          Synced := true, Stores := stores, PeerStores := peers, TombstoneStores := tombstones })

/-! ## Sample inputs -/

/-- A sample inventory entry of a local member. -/
def sampleInfo (id state : String) : StoreInfo :=
  ⟨some ⟨id, "db-tikv-1.db-tikv-peer.ns.svc:20160", state⟩, some ⟨0⟩⟩

/-- Sample collaborators: not upgrading, three replicas desired, every store a
local member, the clock at 100, and the given answer of the inventory query. -/
def sampleSyncDeps (stores : Except Err (List StoreInfo)) : SyncDeps :=
  ⟨.ok false, false, 3, stores, fun _ => .localMember, 100⟩

/-- A sample prior status: store 333 recorded Up at time 50. -/
def samplePrior : TiKVStatus :=
  ⟨true, MemberPhase.NormalPhase, [("333", ⟨"333", "Up", 50⟩)], [], []⟩

end TiKVMemberManager

namespace PDUpgrader

/-! ## Lemmas on the loop -/

theorem confirmed_withUpgradePhase (d : Deps) (tc : TidbCluster) (i : Int) :
    confirmed d tc.withUpgradePhase i = confirmed d tc i := rfl

theorem minReadySeconds_withUpgradePhase (d : Deps) (tc : TidbCluster) :
    minReadySeconds d tc.withUpgradePhase = minReadySeconds d tc := rfl

theorem podsFetched_append (a b : List Event) :
    podsFetched (a ++ b) = podsFetched a ++ podsFetched b := by
  induction a with
  | nil => rfl
  | cons e rest ih => cases e <;> simp [podsFetched, ih]

theorem transfersIssued_append (a b : List Event) :
    transfersIssued (a ++ b) = transfersIssued a ++ transfersIssued b := by
  induction a with
  | nil => rfl
  | cons e rest ih => cases e <;> simp [transfersIssued, ih]

/-- A confirmed ordinal lets the loop go on to the next one, after one pod
fetch and no leadership transfer. -/
theorem upgradeLoop_step_confirmed (d : Deps) (tc : TidbCluster) (ns : StatefulSet)
    (i : Int) (rest : List Int) (h : confirmed d tc i = true) :
    ∃ evs, upgradeLoop d tc (minReadySeconds d tc) ns (i :: rest)
        = (upgradeLoop d tc (minReadySeconds d tc) ns rest).after evs
      ∧ podsFetched evs = [podName d tc i] ∧ transfersIssued evs = [] := by
  unfold confirmed onTargetRevision podAvailable memberHealthyReady podName memberName at h
  simp only [Bool.and_eq_true] at h
  obtain ⟨⟨h1, h2⟩, h3⟩ := h
  cases hp : d.PodGet tc.Namespace (d.PdPodName tc.Name i) with
  | error e => simp [hp] at h1
  | ok pod =>
    cases hs : tc.PD.StatefulSet with
    | none => simp [hp, hs] at h1
    | some sts =>
      cases hm : mapGet tc.PD.Members
          (d.PdName tc.Name i tc.Namespace tc.ClusterDomain tc.AcrossK8s) with
      | none => simp [hm] at h3
      | some member =>
        cases hr : d.GetReady member with
        | error e => simp [hm, hr] at h3
        | ok ready =>
          simp only [hp, hs, hm, hr, decide_eq_true_eq, Bool.and_eq_true] at h1 h2 h3
          obtain ⟨⟨h3a, h3b⟩, h3c⟩ := h3
          refine ⟨[Event.podGet tc.Namespace (d.PdPodName tc.Name i), Event.getReady member],
            ?_, ?_, ?_⟩
          · simp [upgradeLoop, hp, hs, h1, h2, hm, h3a, h3b, h3c, hr, isPDMemberReady,
              podName]
          · simp [podsFetched, podName]
          · simp [transfersIssued]

theorem after_after (r : Result) (a b : List Event) :
    (r.after a).after b = r.after (b ++ a) := by
  simp [Result.after, List.append_assoc]

/-- What one pass of the loop body does at ordinal `i`, by the state of the
ordinal: go on when it is confirmed; stop with a requeue error when it is on
the target revision and not confirmed; stop without `nil` when no revision can
be compared; stop with a requeue error when it is stale and the peer check
blocks; hand over to `upgradePDPod` when it is stale and the peer check
passes. -/
theorem upgradeLoop_cons_cases (d : Deps) (tc : TidbCluster) (ns : StatefulSet)
    (i : Int) (rest : List Int) :
    let r := upgradeLoop d tc (minReadySeconds d tc) ns (i :: rest)
    (confirmed d tc i = true ∧
      ∃ evs, r = (upgradeLoop d tc (minReadySeconds d tc) ns rest).after evs
        ∧ podsFetched evs = [podName d tc i] ∧ transfersIssued evs = [])
    ∨ (onTargetRevision d tc i = true ∧ confirmed d tc i = false ∧ r.newSet = ns ∧ r.tc = tc
        ∧ (∃ e, r.ret = Ret.error e ∧ e.isRequeue = true)
        ∧ podsFetched r.trace = [podName d tc i] ∧ transfersIssued r.trace = [])
    ∨ (onTargetRevision d tc i = false ∧ staleRevision d tc i = false ∧ r.newSet = ns
        ∧ r.tc = tc ∧ r.ret ≠ Ret.nil
        ∧ podsFetched r.trace = [podName d tc i] ∧ transfersIssued r.trace = [])
    ∨ (staleRevision d tc i = true ∧ (isPDPeersStable d tc).1 ≠ "" ∧ r.newSet = ns ∧ r.tc = tc
        ∧ (∃ e, r.ret = Ret.error e ∧ e.isRequeue = true)
        ∧ podsFetched r.trace = [podName d tc i] ∧ transfersIssued r.trace = [])
    ∨ (staleRevision d tc i = true ∧ (isPDPeersStable d tc).1 = ""
        ∧ ∃ evs, r = (upgradePDPod d tc i ns).after evs
          ∧ podsFetched evs = [podName d tc i] ∧ transfersIssued evs = []) := by
  intro r
  cases hp : d.PodGet tc.Namespace (d.PdPodName tc.Name i) with
  | error e =>
    right; right; left
    simp [r, upgradeLoop, hp, onTargetRevision, staleRevision, podName, podsFetched,
      transfersIssued]
  | ok pod =>
    cases hl : mapGet pod.Labels ControllerRevisionHashLabelKey with
    | none =>
      right; right; left
      cases hs : tc.PD.StatefulSet <;>
      simp [r, upgradeLoop, hp, hl, hs, onTargetRevision, staleRevision, podName, podsFetched,
        transfersIssued]
    | some revision =>
      cases hs : tc.PD.StatefulSet with
      | none =>
        right; right; left
        simp [r, upgradeLoop, hp, hl, hs, onTargetRevision, staleRevision, podName,
          podsFetched, transfersIssued]
      | some sts =>
        by_cases hrev : revision = sts.UpdateRevision
        · have hon : onTargetRevision d tc i = true := by
            simp [onTargetRevision, podName, hp, hs, hl, hrev]
          by_cases hc : confirmed d tc i = true
          · left
            exact ⟨hc, upgradeLoop_step_confirmed d tc ns i rest hc⟩
          · right; left
            have hc' : confirmed d tc i = false := by simpa using hc
            refine ⟨hon, hc', ?_⟩
            have hnot : ¬ (podAvailable d tc i = true ∧ memberHealthyReady d tc i = true) := by
              intro hh
              apply hc
              simp [confirmed, hon, hh.1, hh.2]
            simp only [podAvailable, memberHealthyReady, podName, memberName, hp] at hnot
            cases hav : d.IsPodAvailable pod (toInt32 (minReadySeconds d tc)) with
            | false =>
              cases hrc : d.PodReadyConditionTrue pod <;>
              simp [r, upgradeLoop, hp, hl, hs, hrev, hav, hrc, podName, podsFetched,
                transfersIssued, Err.isRequeue]
            | true =>
              cases hm : mapGet tc.PD.Members
                  (d.PdName tc.Name i tc.Namespace tc.ClusterDomain tc.AcrossK8s) with
              | none =>
                simp [r, upgradeLoop, hp, hl, hs, hrev, hav, hm, podName, podsFetched,
                  transfersIssued, Err.isRequeue]
              | some member =>
                cases hh : member.Health with
                | false =>
                  simp [r, upgradeLoop, hp, hl, hs, hrev, hav, hm, hh, podName, podsFetched,
                    transfersIssued, Err.isRequeue]
                | true =>
                  cases hcl : d.HasPDClientForMember member with
                  | false =>
                    simp [r, upgradeLoop, hp, hl, hs, hrev, hav, hm, hh, hcl, isPDMemberReady,
                      podName, podsFetched, transfersIssued, Err.isRequeue]
                  | true =>
                    cases hr : d.GetReady member with
                    | error e =>
                      simp [r, upgradeLoop, hp, hl, hs, hrev, hav, hm, hh, hcl, hr,
                        isPDMemberReady, podName, podsFetched, transfersIssued, Err.isRequeue]
                    | ok ready =>
                      cases ready with
                      | false =>
                        simp [r, upgradeLoop, hp, hl, hs, hrev, hav, hm, hh, hcl, hr,
                          isPDMemberReady, podName, podsFetched, transfersIssued,
                          Err.isRequeue]
                      | true =>
                        exact absurd (by simp [hav, hm, hh, hcl, hr]) hnot
        · have hst : staleRevision d tc i = true := by
            simp [staleRevision, podName, hp, hs, hl, hrev]
          by_cases hstab : (isPDPeersStable d tc).1 = ""
          · right; right; right; right
            refine ⟨hst, hstab, Event.podGet tc.Namespace (d.PdPodName tc.Name i)
              :: (isPDPeersStable d tc).2, ?_, ?_, ?_⟩
            · simp [r, upgradeLoop, hp, hl, hs, hrev, hstab]
            · unfold isPDPeersStable
              split <;> [split; skip] <;> simp [podsFetched, podName]
            · unfold isPDPeersStable
              split <;> [split; skip] <;> simp [transfersIssued]
          · right; right; right; left
            refine ⟨hst, hstab, ?_⟩
            have hev : podsFetched (isPDPeersStable d tc).2 = []
                ∧ transfersIssued (isPDPeersStable d tc).2 = [] := by
              unfold isPDPeersStable
              split <;> [split; skip] <;> simp [podsFetched, transfersIssued]
            simp [r, upgradeLoop, hp, hl, hs, hrev, hstab, podName, podsFetched,
              transfersIssued, Err.isRequeue, hev.1, hev.2]

/-- The three ways `upgradePDPod` ends: partition set and `nil`; a nil
dereference; or a leadership transfer issued for a leader, with an error and
the desired StatefulSet untouched. -/
theorem upgradePDPod_cases (d : Deps) (tc : TidbCluster) (k : Int) (ns : StatefulSet) :
    let r := upgradePDPod d tc k ns
    r.tc = tc ∧
    ((r.ret = Ret.nil ∧ r.newSet = SetUpgradePartition ns k ∧ r.trace = [])
    ∨ (r.ret = Ret.panic ∧ r.newSet = ns ∧ r.trace = [])
    ∨ (isLeader d tc k = true ∧ ∃ t, t ≠ "" ∧ r.trace = [Event.transferPDLeader t]
        ∧ r.newSet = ns
        ∧ ∃ e, r.ret = Ret.error e ∧ (d.TransferPDLeader t = none → e.isRequeue = true)
          ∧ (∀ e', d.TransferPDLeader t = some e' → e = e'))) := by
  intro r
  by_cases hl : tc.PD.Leader.Name = d.PdName tc.Name k tc.Namespace tc.ClusterDomain tc.AcrossK8s
      ∨ tc.PD.Leader.Name = d.PdPodName tc.Name k
  · have hlead : isLeader d tc k = true := by
      simpa [isLeader, memberName, podName] using hl
    cases hm : (if tc.PDStsActualReplicas > 1 then choosePDToTransferFromMembers d tc ns k
        else some "") with
    | none =>
      refine ⟨?_, Or.inr (Or.inl ?_)⟩ <;> simp [r, upgradePDPod, hl, hm]
    | some fromMembers =>
      by_cases ht : (if fromMembers = "" then
          choosePDToTransferFromPeerMembers tc
            (d.PdName tc.Name k tc.Namespace tc.ClusterDomain tc.AcrossK8s)
          else fromMembers) = ""
      · refine ⟨?_, Or.inl ?_⟩ <;> simp [r, upgradePDPod, hl, hm, ht]
      · cases htr : d.TransferPDLeader (if fromMembers = "" then
            choosePDToTransferFromPeerMembers tc
              (d.PdName tc.Name k tc.Namespace tc.ClusterDomain tc.AcrossK8s)
            else fromMembers) with
        | none =>
          refine ⟨?_, Or.inr (Or.inr ⟨hlead, _, ht, ?_, ?_, ?_⟩)⟩ <;>
            simp [r, upgradePDPod, hl, hm, ht, htr, Err.isRequeue]
        | some err =>
          refine ⟨?_, Or.inr (Or.inr ⟨hlead, _, ht, ?_, ?_, err, ?_, ?_, ?_⟩)⟩ <;>
            simp [r, upgradePDPod, hl, hm, ht, htr]
  · refine ⟨?_, Or.inl ?_⟩ <;> simp [r, upgradePDPod, hl]

/-- The shape of every run of the loop: either the desired StatefulSet is
left as it was and no transfer is issued (and a `nil` return means every
ordinal was confirmed), or the scan went through confirmed ordinals down to a
stale ordinal `k` and ended in `upgradePDPod` for `k`. -/
theorem upgradeLoop_shape (d : Deps) (tc : TidbCluster) (ns : StatefulSet) (l : List Int) :
    (upgradeLoop d tc (minReadySeconds d tc) ns l).tc = tc ∧
    (((upgradeLoop d tc (minReadySeconds d tc) ns l).newSet = ns
        ∧ transfersIssued (upgradeLoop d tc (minReadySeconds d tc) ns l).trace = []
        ∧ ((upgradeLoop d tc (minReadySeconds d tc) ns l).ret = Ret.nil
            → ∀ i ∈ l, confirmed d tc i = true))
    ∨ (∃ hi k lo evs, l = hi ++ k :: lo ∧ (∀ i ∈ hi, confirmed d tc i = true)
        ∧ staleRevision d tc k = true ∧ (isPDPeersStable d tc).1 = ""
        ∧ upgradeLoop d tc (minReadySeconds d tc) ns l = (upgradePDPod d tc k ns).after evs
        ∧ transfersIssued evs = []
        ∧ podsFetched evs = (hi ++ [k]).map (podName d tc))) := by
  induction l with
  | nil => simp [upgradeLoop, transfersIssued]
  | cons i rest ih =>
    rcases upgradeLoop_cons_cases d tc ns i rest with
      ⟨hc, evs, hr, hp, ht⟩ | ⟨_, _, hn, htc, ⟨e, he, _⟩, _, ht⟩ | ⟨_, _, hn, htc, hne, _, ht⟩
      | ⟨_, _, hn, htc, ⟨e, he, _⟩, _, ht⟩ | ⟨hst, hstab, evs, hr, hp, ht⟩
    · obtain ⟨ihtc, ih⟩ := ih
      rw [hr]
      refine ⟨by simpa [Result.after] using ihtc, ?_⟩
      rcases ih with ⟨hn, htr, hall⟩ | ⟨hi, k, lo, evs', hl, hconf, hst, hstab, hrun, htr, hpf⟩
      · left
        refine ⟨by simpa [Result.after] using hn, ?_, ?_⟩
        · simp [Result.after, transfersIssued_append, ht, htr]
        · intro hnil j hj
          rcases List.mem_cons.1 hj with rfl | hj
          · exact hc
          · exact hall (by simpa [Result.after] using hnil) j hj
      · right
        refine ⟨i :: hi, k, lo, evs ++ evs', by simp [hl], ?_, hst, hstab, ?_, ?_, ?_⟩
        · intro j hj
          rcases List.mem_cons.1 hj with rfl | hj
          · exact hc
          · exact hconf j hj
        · rw [hrun, after_after]
        · simp [transfersIssued_append, ht, htr]
        · simp [podsFetched_append, hp, hpf]
    · exact ⟨htc, Or.inl ⟨hn, ht, fun h => by simp [he] at h⟩⟩
    · exact ⟨htc, Or.inl ⟨hn, ht, fun h => absurd h hne⟩⟩
    · exact ⟨htc, Or.inl ⟨hn, ht, fun h => by simp [he] at h⟩⟩
    · refine ⟨?_, Or.inr ⟨[], i, rest, evs, rfl, by simp, hst, hstab, hr, ht,
        by simpa using hp⟩⟩
      rw [hr]
      simpa [Result.after] using (upgradePDPod_cases d tc i ns).1

/-- Confirmed ordinals at the head of the scan are passed, with one pod fetch
each and no leadership transfer. -/
theorem upgradeLoop_confirmed_head (d : Deps) (tc : TidbCluster) (ns : StatefulSet)
    (hi rest : List Int) (h : ∀ i ∈ hi, confirmed d tc i = true) :
    ∃ evs, upgradeLoop d tc (minReadySeconds d tc) ns (hi ++ rest)
        = (upgradeLoop d tc (minReadySeconds d tc) ns rest).after evs
      ∧ podsFetched evs = hi.map (podName d tc) ∧ transfersIssued evs = [] := by
  induction hi with
  | nil => exact ⟨[], by simp [Result.after], rfl, rfl⟩
  | cons i hi ih =>
    obtain ⟨evs', hr', hp', ht'⟩ := ih (fun j hj => h j (List.mem_cons_of_mem _ hj))
    obtain ⟨evs, hr, hp, ht⟩ :=
      upgradeLoop_step_confirmed d tc ns i (hi ++ rest) (h i (List.mem_cons_self _ _))
    refine ⟨evs ++ evs', ?_, ?_, ?_⟩
    · rw [List.cons_append, hr, hr', after_after]
    · simp [podsFetched_append, hp, hp']
    · simp [transfersIssued_append, ht, ht']

/-- An ordinal on the target revision is not stale. -/
theorem not_stale_of_onTarget (d : Deps) (tc : TidbCluster) (i : Int)
    (h : onTargetRevision d tc i = true) : staleRevision d tc i = false := by
  unfold onTargetRevision at h
  unfold staleRevision
  split at h
  · next pod sts hp hs =>
    simp only [decide_eq_true_eq] at h
    simp [hp, hs, h]
  · simp at h

/-- A strictly ascending list splits at each of its elements into the smaller
elements, the element, and the larger elements. -/
theorem sorted_split (l : List Int) (hs : l.Sorted (· < ·)) (k : Int) (hk : k ∈ l) :
    ∃ lo hi, l = lo ++ k :: hi ∧ (∀ x ∈ lo, x < k) ∧ (∀ x ∈ hi, k < x) := by
  obtain ⟨lo, hi, rfl⟩ := List.append_of_mem hk
  refine ⟨lo, hi, rfl, ?_, ?_⟩
  · intro x hx
    have := List.pairwise_append.1 hs
    exact this.2.2 x hx k (List.mem_cons_self _ _)
  · intro x hx
    have := (List.pairwise_append.1 hs).2.1
    exact (List.pairwise_cons.1 this).1 x hx

/-- Past the early exits, `gracefulUpgrade` is the loop over the observed
ordinals from the highest down, run on the cluster marked Upgrading and on the
desired StatefulSet with the observed partition. -/
theorem gracefulUpgrade_past (d : Deps) (tc : TidbCluster) (oldSet newSet : StatefulSet)
    (p rep : Int) (h : PastEarlyExits d tc oldSet newSet p rep) :
    gracefulUpgrade d tc oldSet newSet
      = upgradeLoop d tc.withUpgradePhase (minReadySeconds d tc.withUpgradePhase)
          (SetUpgradePartition newSet p) (d.GetPodOrdinals rep oldSet).reverse := by
  obtain ⟨hsync, hphase, heq, htype, hpart, hrep⟩ := h
  have hru : oldSet.UpdateStrategy.RollingUpdate ≠ none := by
    intro hn
    simp [StatefulSet.partition, hn] at hpart
  simp [gracefulUpgrade, hsync, TidbCluster.PDScaling, hphase, heq, htype, hru, hpart, hrep]

theorem partition_SetUpgradePartition (s : StatefulSet) (k : Int) :
    (SetUpgradePartition s k).partition = some k := rfl

/-! ## Early exits of `Upgrade` -/

/-- C1. When the PD status is not synced, `Upgrade` returns an error, and the
desired StatefulSet (template, update strategy, partition) and the cluster
object (hence the PD phase) are exactly as before; no pod is fetched and no
call is made to the cluster. -/
theorem upgrade_unsynced_error_untouched (d : Deps) (tc : TidbCluster)
    (oldSet newSet : StatefulSet) (h : tc.PD.Synced = false) :
    (∃ e, (Upgrade d tc oldSet newSet).ret = Ret.error e)
    ∧ (Upgrade d tc oldSet newSet).newSet = newSet
    ∧ (Upgrade d tc oldSet newSet).tc = tc
    ∧ (Upgrade d tc oldSet newSet).trace = [] := by
  simp [Upgrade, gracefulUpgrade, h]

theorem upgrade_unsynced_error_untouched_witness :
    (sampleTc false MemberPhase.NormalPhase "pd-0").PD.Synced = false
    ∧ (Upgrade (sampleDeps "v1" "v1" "v1" true none)
        (sampleTc false MemberPhase.NormalPhase "pd-0") (sampleSet 3) (sampleSet 3)).trace = [] :=
  ⟨rfl, (upgrade_unsynced_error_untouched (sampleDeps "v1" "v1" "v1" true none)
    (sampleTc false MemberPhase.NormalPhase "pd-0") (sampleSet 3) (sampleSet 3) rfl).2.2.2⟩

/-- C2, as stated, fails: on a synced, non-scaling cluster whose desired and
observed templates are equal, with three stale pods, `Upgrade` goes on to the
loop and moves the desired partition from 3 to 2. -/
theorem upgrade_equal_templates_moves_partition :
    (sampleTc true MemberPhase.NormalPhase "pd-0").PD.Synced = true
    ∧ (sampleTc true MemberPhase.NormalPhase "pd-0").PDScaling = false
    ∧ (sampleDeps "v1" "v1" "v1" true none).templateEqual (sampleSet 3) (sampleSet 3) = true
    ∧ (sampleSet 3).partition = some 3
    ∧ (Upgrade (sampleDeps "v1" "v1" "v1" true none)
        (sampleTc true MemberPhase.NormalPhase "pd-0") (sampleSet 3) (sampleSet 3)).newSet.partition
        = some 2 := by
  decide

/-- C2, amended. On a synced, non-scaling cluster for which `templateEqual`
is false, `Upgrade` returns nil and leaves the desired partition unchanged. -/
theorem upgrade_template_differs_nil_partition_unchanged (d : Deps) (tc : TidbCluster)
    (oldSet newSet : StatefulSet) (hsync : tc.PD.Synced = true)
    (hscale : tc.PDScaling = false) (hne : d.templateEqual newSet oldSet = false) :
    (Upgrade d tc oldSet newSet).ret = Ret.nil
    ∧ (Upgrade d tc oldSet newSet).newSet.partition = newSet.partition := by
  simp [Upgrade, gracefulUpgrade, hsync, hscale, hne]

theorem upgrade_template_differs_nil_partition_unchanged_witness :
    (Upgrade (sampleDeps "v1" "v1" "v1" false none)
        (sampleTc true MemberPhase.NormalPhase "pd-0") (sampleSet 3) (sampleSet 2)).ret = Ret.nil
    ∧ (Upgrade (sampleDeps "v1" "v1" "v1" false none)
        (sampleTc true MemberPhase.NormalPhase "pd-0") (sampleSet 3) (sampleSet 2)).newSet.partition
        = (sampleSet 2).partition :=
  upgrade_template_differs_nil_partition_unchanged (sampleDeps "v1" "v1" "v1" false none)
    (sampleTc true MemberPhase.NormalPhase "pd-0") (sampleSet 3) (sampleSet 2) rfl rfl rfl

/-! ## Leadership transfer and the partition -/

/-- C3, as stated, fails twice. With pod 2 upgraded, pod 1 stale, member 1
the leader and the observed partition already 1: `Upgrade` issues a transfer to
member 2 and the desired partition is 1, the candidate; and when the transfer
request fails with an ordinary error, that error is returned, which is not a
requeue error. -/
theorem upgrade_transfer_partition_at_candidate_and_plain_error :
    (isLeader (sampleDeps "v1" "v1" "v2" true none)
        (sampleTc true MemberPhase.NormalPhase "pd-1") 1 = true
      ∧ staleRevision (sampleDeps "v1" "v1" "v2" true none)
        (sampleTc true MemberPhase.NormalPhase "pd-1") 1 = true
      ∧ confirmed (sampleDeps "v1" "v1" "v2" true none)
        (sampleTc true MemberPhase.NormalPhase "pd-1") 2 = true
      ∧ transfersIssued (Upgrade (sampleDeps "v1" "v1" "v2" true none)
        (sampleTc true MemberPhase.NormalPhase "pd-1") (sampleSet 1) (sampleSet 3)).trace
        = ["pd-2"]
      ∧ (Upgrade (sampleDeps "v1" "v1" "v2" true none)
        (sampleTc true MemberPhase.NormalPhase "pd-1") (sampleSet 1) (sampleSet 3)).newSet.partition
        = some 1)
    ∧ (transfersIssued (Upgrade (sampleDeps "v1" "v1" "v2" true (some (Err.errorf "timeout")))
        (sampleTc true MemberPhase.NormalPhase "pd-1") (sampleSet 3) (sampleSet 3)).trace
        = ["pd-2"]
      ∧ (Upgrade (sampleDeps "v1" "v1" "v2" true (some (Err.errorf "timeout")))
        (sampleTc true MemberPhase.NormalPhase "pd-1") (sampleSet 3) (sampleSet 3)).ret
        = Ret.error (Err.errorf "timeout")
      ∧ (Err.errorf "timeout").isRequeue = false) := by
  decide

/-- C3, amended. In any call of `Upgrade` that issues a leadership transfer,
the desired partition is left equal to the observed partition (it is not
advanced to the candidate), and `Upgrade` returns an error instead of nil: a
requeue error when the transfer request succeeds, the error of the transfer
request when it fails. -/
theorem upgrade_transfer_keeps_partition_returns_error (d : Deps) (tc : TidbCluster)
    (oldSet newSet : StatefulSet) (t : String)
    (ht : t ∈ transfersIssued (Upgrade d tc oldSet newSet).trace) :
    (Upgrade d tc oldSet newSet).newSet.partition = oldSet.partition
    ∧ ∃ e, (Upgrade d tc oldSet newSet).ret = Ret.error e
        ∧ (d.TransferPDLeader t = none → e.isRequeue = true)
        ∧ (∀ e', d.TransferPDLeader t = some e' → e = e') := by
  unfold Upgrade at ht ⊢
  by_cases hsync : tc.PD.Synced = true
  swap
  · simp [gracefulUpgrade, hsync, transfersIssued] at ht
  by_cases hscale : tc.PDScaling = true
  · cases hc : d.GetLastAppliedConfig oldSet <;>
      simp [gracefulUpgrade, hsync, hscale, hc, transfersIssued] at ht
  by_cases heq : d.templateEqual newSet oldSet = true
  swap
  · simp [gracefulUpgrade, hsync, hscale, heq, transfersIssued] at ht
  by_cases hman : oldSet.UpdateStrategy.Type_ = StrategyType.OnDeleteStatefulSetStrategyType
      ∨ oldSet.UpdateStrategy.RollingUpdate = none
  · simp [gracefulUpgrade, hsync, hscale, heq, hman, transfersIssued] at ht
  cases hp : oldSet.partition with
  | none => simp [gracefulUpgrade, hsync, hscale, heq, hman, hp, transfersIssued] at ht
  | some p =>
    cases hrep : oldSet.Replicas with
    | none => simp [gracefulUpgrade, hsync, hscale, heq, hman, hp, hrep, transfersIssued] at ht
    | some rep =>
      have hpast : PastEarlyExits d tc oldSet newSet p rep := by
        refine ⟨hsync, ?_, heq, ?_, hp, hrep⟩
        · simpa [TidbCluster.PDScaling] using hscale
        · exact fun h => hman (Or.inl h)
      rw [gracefulUpgrade_past d tc oldSet newSet p rep hpast] at ht ⊢
      rcases (upgradeLoop_shape d tc.withUpgradePhase (SetUpgradePartition newSet p)
        (d.GetPodOrdinals rep oldSet).reverse).2 with
        ⟨_, htr, _⟩ | ⟨hi, k, lo, evs, _, _, _, _, hrun, hevs, _⟩
      · rw [htr] at ht
        simp at ht
      · rw [hrun] at ht ⊢
        simp only [Result.after, transfersIssued_append, hevs, List.nil_append] at ht ⊢
        rcases (upgradePDPod_cases d tc.withUpgradePhase k (SetUpgradePartition newSet p)).2 with
          ⟨_, _, h0⟩ | ⟨_, _, h0⟩ | ⟨_, t', _, htrace, hns, e, he, hq, hf⟩
        · simp [h0, transfersIssued] at ht
        · simp [h0, transfersIssued] at ht
        · rw [htrace] at ht
          simp only [transfersIssued, List.mem_singleton] at ht
          subst ht
          exact ⟨by rw [hns]; rfl, e, he, hq, hf⟩

theorem upgrade_transfer_keeps_partition_returns_error_witness :
    "pd-2" ∈ transfersIssued (Upgrade (sampleDeps "v1" "v1" "v2" true none)
        (sampleTc true MemberPhase.NormalPhase "pd-1") (sampleSet 3) (sampleSet 3)).trace
    ∧ (Upgrade (sampleDeps "v1" "v1" "v2" true none)
        (sampleTc true MemberPhase.NormalPhase "pd-1") (sampleSet 3) (sampleSet 3)).newSet.partition
        = (sampleSet 3).partition :=
  ⟨by decide, (upgrade_transfer_keeps_partition_returns_error
    (sampleDeps "v1" "v1" "v2" true none) (sampleTc true MemberPhase.NormalPhase "pd-1")
    (sampleSet 3) (sampleSet 3) "pd-2" (by decide)).1⟩

/-! ## The scan of the ordinals -/

/-- C4. Past the early exits, with the observed ordinals listed in ascending
order: whenever a call of `Upgrade` leaves the desired partition at an ordinal
`k` and either returns nil or `k` is not the observed partition (so the call
moved it there), every observed ordinal greater than `k` is confirmed: pod on
the target revision, available for the minimum ready seconds, member present,
healthy and reported ready. -/
theorem upgrade_partition_moved_higher_confirmed (d : Deps) (tc : TidbCluster)
    (oldSet newSet : StatefulSet) (p rep k : Int)
    (hpast : PastEarlyExits d tc oldSet newSet p rep)
    (hsorted : (d.GetPodOrdinals rep oldSet).Sorted (· < ·))
    (hk : (Upgrade d tc oldSet newSet).newSet.partition = some k)
    (hmove : (Upgrade d tc oldSet newSet).ret = Ret.nil ∨ oldSet.partition ≠ some k) :
    ∀ o ∈ d.GetPodOrdinals rep oldSet, k < o → confirmed d tc o = true := by
  unfold Upgrade at hk hmove
  rw [gracefulUpgrade_past d tc oldSet newSet p rep hpast] at hk hmove
  have hobs : oldSet.partition = some p := hpast.2.2.2.2.1
  intro o ho hko
  have ho' : o ∈ (d.GetPodOrdinals rep oldSet).reverse := List.mem_reverse.2 ho
  rcases (upgradeLoop_shape d tc.withUpgradePhase (SetUpgradePartition newSet p)
    (d.GetPodOrdinals rep oldSet).reverse).2 with
    ⟨hns, _, hall⟩ | ⟨hi, k0, lo, evs, hl, hconf, _, _, hrun, _, _⟩
  · rw [hns, partition_SetUpgradePartition] at hk
    rcases hmove with hnil | hne
    · exact hall hnil o ho'
    · exact absurd (hobs.trans hk) hne
  · rw [hrun] at hk hmove
    simp only [Result.after] at hk hmove
    have hdesc : (hi ++ k0 :: lo).Pairwise (· > ·) := by
      rw [← hl]
      exact List.pairwise_reverse.2 hsorted
    rcases (upgradePDPod_cases d tc.withUpgradePhase k0 (SetUpgradePartition newSet p)).2 with
      ⟨_, hns, _⟩ | ⟨hret, hns, _⟩ | ⟨_, t, _, _, hns, e, hret, _, _⟩
    · rw [hns, partition_SetUpgradePartition] at hk
      have hkk : k0 = k := by simpa using hk
      subst hkk
      rw [hl] at ho'
      rcases List.mem_append.1 ho' with hin | hin
      · exact hconf o hin
      · rcases List.mem_cons.1 hin with heq | hin
        · omega
        · have := (List.pairwise_cons.1 (List.pairwise_append.1 hdesc).2.1).1 o hin
          omega
    · rw [hns, partition_SetUpgradePartition] at hk
      rcases hmove with hnil | hne
      · rw [hret] at hnil
        exact absurd hnil (by simp)
      · exact absurd (hobs.trans hk) hne
    · rw [hns, partition_SetUpgradePartition] at hk
      rcases hmove with hnil | hne
      · rw [hret] at hnil
        exact absurd hnil (by simp)
      · exact absurd (hobs.trans hk) hne

/-- The early exits are passed by the sample cluster when `templateEqual`
answers true. -/
theorem sample_pastEarlyExits (r0 r1 r2 leader : String) (tr : Option Err) (p q : Int) :
    PastEarlyExits (sampleDeps r0 r1 r2 true tr)
      (sampleTc true MemberPhase.NormalPhase leader) (sampleSet p) (sampleSet q) p 3 :=
  ⟨rfl, by simp [sampleTc], rfl, by simp [sampleSet], rfl, rfl⟩

theorem upgrade_partition_moved_higher_confirmed_witness :
    (Upgrade (sampleDeps "v1" "v2" "v2" true none)
        (sampleTc true MemberPhase.NormalPhase "pd-2") (sampleSet 1) (sampleSet 3)).newSet.partition
        = some 0
    ∧ ∀ o ∈ (sampleDeps "v1" "v2" "v2" true none).GetPodOrdinals 3 (sampleSet 1), 0 < o →
        confirmed (sampleDeps "v1" "v2" "v2" true none)
          (sampleTc true MemberPhase.NormalPhase "pd-2") o = true :=
  ⟨by decide, upgrade_partition_moved_higher_confirmed (sampleDeps "v1" "v2" "v2" true none)
    (sampleTc true MemberPhase.NormalPhase "pd-2") (sampleSet 1) (sampleSet 3) 1 3 0
    (sample_pastEarlyExits "v1" "v2" "v2" "pd-2" none 1 3) (by decide) (by decide)
    (Or.inl (by decide))⟩

/-- The scan order of a strictly ascending list, split at one of its
elements: the larger elements from the highest down, the element, the smaller
elements. -/
theorem scan_split (l : List Int) (hs : l.Sorted (· < ·)) (k : Int) (hk : k ∈ l) :
    ∃ hi lo, l.reverse = hi ++ k :: lo ∧ (∀ x ∈ hi, x ∈ l ∧ k < x)
      ∧ (l.filter (fun x => decide (k ≤ x))).reverse = hi ++ [k] := by
  obtain ⟨lo, hi, rfl, hlo, hhi⟩ := sorted_split l hs k hk
  refine ⟨hi.reverse, lo.reverse, by simp, ?_, ?_⟩
  · intro x hx
    have hx' : x ∈ hi := List.mem_reverse.1 hx
    exact ⟨by simp [hx'], hhi x hx'⟩
  · have h1 : lo.filter (fun x => decide (k ≤ x)) = [] := by
      rw [List.filter_eq_nil_iff]
      intro x hx
      have := hlo x hx
      simp only [decide_eq_true_eq]
      omega
    have h2 : hi.filter (fun x => decide (k ≤ x)) = hi := by
      rw [List.filter_eq_self]
      intro x hx
      have := hhi x hx
      simp only [decide_eq_true_eq]
      omega
    simp [List.filter_append, List.filter_cons, h1, h2]

/-- C5. Past the early exits, with the observed ordinals listed in ascending
order: if every ordinal above `o` is confirmed and `o` is on the target
revision but its pod is not available, or its member is missing, unhealthy or
not ready (a failed readiness query included), then `Upgrade` returns a requeue
error, fetches the pods of the ordinals from the highest down to `o` and of no
lower ordinal, issues no leadership transfer, and the desired partition is the
observed partition. -/
theorem upgrade_unhealthy_upgraded_blocks (d : Deps) (tc : TidbCluster)
    (oldSet newSet : StatefulSet) (p rep o : Int)
    (hpast : PastEarlyExits d tc oldSet newSet p rep)
    (hsorted : (d.GetPodOrdinals rep oldSet).Sorted (· < ·))
    (ho : o ∈ d.GetPodOrdinals rep oldSet)
    (hhigher : ∀ j ∈ d.GetPodOrdinals rep oldSet, o < j → confirmed d tc j = true)
    (hon : onTargetRevision d tc o = true)
    (hbad : ¬ (podAvailable d tc o = true ∧ memberHealthyReady d tc o = true)) :
    (∃ e, (Upgrade d tc oldSet newSet).ret = Ret.error e ∧ e.isRequeue = true)
    ∧ podsFetched (Upgrade d tc oldSet newSet).trace
        = (((d.GetPodOrdinals rep oldSet).filter (fun x => decide (o ≤ x))).reverse).map
            (podName d tc)
    ∧ transfersIssued (Upgrade d tc oldSet newSet).trace = []
    ∧ (Upgrade d tc oldSet newSet).newSet.partition = oldSet.partition := by
  unfold Upgrade
  rw [gracefulUpgrade_past d tc oldSet newSet p rep hpast]
  have hobs : oldSet.partition = some p := hpast.2.2.2.2.1
  obtain ⟨hi, lo, hl, hhi, hfilter⟩ := scan_split _ hsorted o ho
  obtain ⟨evs, hrun, hpf, htr⟩ := upgradeLoop_confirmed_head d tc.withUpgradePhase
    (SetUpgradePartition newSet p) hi (o :: lo) (fun j hj => hhigher j (hhi j hj).1 (hhi j hj).2)
  rw [hl, hrun, hfilter]
  have hnc : confirmed d tc.withUpgradePhase o ≠ true := by
    intro hc
    apply hbad
    rw [confirmed_withUpgradePhase] at hc
    simp only [confirmed, Bool.and_eq_true] at hc
    exact ⟨hc.1.2, hc.2⟩
  have hns : staleRevision d tc.withUpgradePhase o = false :=
    not_stale_of_onTarget d tc o hon
  have hon' : onTargetRevision d tc.withUpgradePhase o = true := hon
  rcases upgradeLoop_cons_cases d tc.withUpgradePhase (SetUpgradePartition newSet p) o lo with
    ⟨hc, _⟩ | ⟨_, _, hn, _, herr, hp1, ht1⟩ | ⟨hoff, _⟩ | ⟨hst, _⟩ | ⟨hst, _⟩
  · exact absurd hc hnc
  · refine ⟨by simpa [Result.after] using herr, ?_, ?_, ?_⟩
    · simp only [Result.after, podsFetched_append, hpf, hp1, List.map_append, List.map_cons,
        List.map_nil]
      rfl
    · simp [Result.after, transfersIssued_append, htr, ht1]
    · simp only [Result.after, hn, partition_SetUpgradePartition, hobs]
  · rw [hon'] at hoff
    exact absurd hoff (by simp)
  · rw [hns] at hst
    exact absurd hst (by simp)
  · rw [hns] at hst
    exact absurd hst (by simp)

theorem upgrade_unhealthy_upgraded_blocks_witness :
    onTargetRevision (sampleDeps "v1" "v1" "v2" true none) sampleTcMissing2 2 = true
    ∧ memberHealthyReady (sampleDeps "v1" "v1" "v2" true none) sampleTcMissing2 2 = false
    ∧ podsFetched (Upgrade (sampleDeps "v1" "v1" "v2" true none) sampleTcMissing2
        (sampleSet 3) (sampleSet 3)).trace = ["pd-2"] :=
  ⟨by decide, by decide,
    (upgrade_unhealthy_upgraded_blocks (sampleDeps "v1" "v1" "v2" true none) sampleTcMissing2
      (sampleSet 3) (sampleSet 3) 3 3 2
      ⟨rfl, by simp [sampleTcMissing2, sampleTc], rfl, by simp [sampleSet], rfl, rfl⟩
      (by decide) (by decide) (by decide) (by decide) (by decide)).2.1⟩

/-- C6. Past the early exits, with the observed ordinals listed in ascending
order: if every ordinal above `k` is confirmed, the pod of `k` carries a
revision other than the target, the peer check does not block, and the member
of `k` is not the leader, then `Upgrade` returns nil, sets the desired
partition to exactly `k`, and issues no leadership transfer. -/
theorem upgrade_candidate_not_leader_sets_partition (d : Deps) (tc : TidbCluster)
    (oldSet newSet : StatefulSet) (p rep k : Int)
    (hpast : PastEarlyExits d tc oldSet newSet p rep)
    (hsorted : (d.GetPodOrdinals rep oldSet).Sorted (· < ·))
    (hk : k ∈ d.GetPodOrdinals rep oldSet)
    (hhigher : ∀ j ∈ d.GetPodOrdinals rep oldSet, k < j → confirmed d tc j = true)
    (hstale : staleRevision d tc k = true)
    (hpeers : (isPDPeersStable d tc).1 = "")
    (hlead : isLeader d tc k = false) :
    (Upgrade d tc oldSet newSet).ret = Ret.nil
    ∧ (Upgrade d tc oldSet newSet).newSet.partition = some k
    ∧ transfersIssued (Upgrade d tc oldSet newSet).trace = [] := by
  unfold Upgrade
  rw [gracefulUpgrade_past d tc oldSet newSet p rep hpast]
  obtain ⟨hi, lo, hl, hhi, _⟩ := scan_split _ hsorted k hk
  obtain ⟨evs, hrun, _, htr⟩ := upgradeLoop_confirmed_head d tc.withUpgradePhase
    (SetUpgradePartition newSet p) hi (k :: lo) (fun j hj => hhigher j (hhi j hj).1 (hhi j hj).2)
  rw [hl, hrun]
  have hstale' : staleRevision d tc.withUpgradePhase k = true := hstale
  have hpeers' : (isPDPeersStable d tc.withUpgradePhase).1 = "" := hpeers
  have hlead' : isLeader d tc.withUpgradePhase k = false := hlead
  have hon : onTargetRevision d tc.withUpgradePhase k ≠ true := by
    intro h
    have := not_stale_of_onTarget d tc.withUpgradePhase k h
    rw [hstale'] at this
    exact absurd this (by simp)
  rcases upgradeLoop_cons_cases d tc.withUpgradePhase (SetUpgradePartition newSet p) k lo with
    ⟨hc, _⟩ | ⟨h1, _⟩ | ⟨_, h2, _⟩ | ⟨_, h3, _⟩ | ⟨_, _, evs', hrun', _, htr'⟩
  · simp only [confirmed, Bool.and_eq_true] at hc
    exact absurd hc.1.1 hon
  · exact absurd h1 hon
  · rw [hstale'] at h2
    exact absurd h2 (by simp)
  · exact absurd hpeers' h3
  · rw [hrun']
    rcases (upgradePDPod_cases d tc.withUpgradePhase k (SetUpgradePartition newSet p)).2 with
      ⟨hret, hns, htrace⟩ | ⟨hret, _, _⟩ | ⟨hl', _⟩
    · refine ⟨by simpa [Result.after] using hret, ?_, ?_⟩
      · simp [Result.after, hns, partition_SetUpgradePartition]
      · simp [Result.after, transfersIssued_append, htr, htr', htrace, transfersIssued]
    · exfalso
      have hnl : ¬ (tc.withUpgradePhase.PD.Leader.Name
            = d.PdName tc.withUpgradePhase.Name k tc.withUpgradePhase.Namespace
                tc.withUpgradePhase.ClusterDomain tc.withUpgradePhase.AcrossK8s
          ∨ tc.withUpgradePhase.PD.Leader.Name = d.PdPodName tc.withUpgradePhase.Name k) := by
        simpa [isLeader, memberName, podName] using hlead'
      simp [upgradePDPod, hnl] at hret
    · rw [hlead'] at hl'
      exact absurd hl' (by simp)

theorem upgrade_candidate_not_leader_sets_partition_witness :
    staleRevision (sampleDeps "v1" "v1" "v2" true none)
        (sampleTc true MemberPhase.NormalPhase "pd-0") 1 = true
    ∧ isLeader (sampleDeps "v1" "v1" "v2" true none)
        (sampleTc true MemberPhase.NormalPhase "pd-0") 1 = false
    ∧ (Upgrade (sampleDeps "v1" "v1" "v2" true none)
        (sampleTc true MemberPhase.NormalPhase "pd-0") (sampleSet 2) (sampleSet 3)).newSet.partition
        = some 1 :=
  ⟨by decide, by decide,
    (upgrade_candidate_not_leader_sets_partition (sampleDeps "v1" "v1" "v2" true none)
      (sampleTc true MemberPhase.NormalPhase "pd-0") (sampleSet 2) (sampleSet 3) 2 3 1
      (sample_pastEarlyExits "v1" "v1" "v2" "pd-0" none 2 3)
      (by decide) (by decide) (by decide) (by decide) (by decide) (by decide)).2.1⟩

/-- C7. Past the early exits, if every observed ordinal is confirmed (pod on
the target revision and available, member healthy and ready), `Upgrade`
returns nil, issues no leadership transfer, and the desired partition is the
observed partition. -/
theorem upgrade_all_confirmed_converged (d : Deps) (tc : TidbCluster)
    (oldSet newSet : StatefulSet) (p rep : Int)
    (hpast : PastEarlyExits d tc oldSet newSet p rep)
    (hall : ∀ j ∈ d.GetPodOrdinals rep oldSet, confirmed d tc j = true) :
    (Upgrade d tc oldSet newSet).ret = Ret.nil
    ∧ transfersIssued (Upgrade d tc oldSet newSet).trace = []
    ∧ (Upgrade d tc oldSet newSet).newSet.partition = oldSet.partition := by
  unfold Upgrade
  rw [gracefulUpgrade_past d tc oldSet newSet p rep hpast]
  have hobs : oldSet.partition = some p := hpast.2.2.2.2.1
  obtain ⟨evs, hrun, _, htr⟩ := upgradeLoop_confirmed_head d tc.withUpgradePhase
    (SetUpgradePartition newSet p) (d.GetPodOrdinals rep oldSet).reverse []
    (fun j hj => hall j (List.mem_reverse.1 hj))
  rw [List.append_nil] at hrun
  rw [hrun]
  simp [Result.after, upgradeLoop, htr, transfersIssued, partition_SetUpgradePartition, hobs]

theorem upgrade_all_confirmed_converged_witness :
    (Upgrade (sampleDeps "v2" "v2" "v2" true none)
        (sampleTc true MemberPhase.NormalPhase "pd-0") (sampleSet 0) (sampleSet 3)).ret = Ret.nil
    ∧ transfersIssued (Upgrade (sampleDeps "v2" "v2" "v2" true none)
        (sampleTc true MemberPhase.NormalPhase "pd-0") (sampleSet 0) (sampleSet 3)).trace = []
    ∧ (Upgrade (sampleDeps "v2" "v2" "v2" true none)
        (sampleTc true MemberPhase.NormalPhase "pd-0") (sampleSet 0) (sampleSet 3)).newSet.partition
        = (sampleSet 0).partition :=
  upgrade_all_confirmed_converged (sampleDeps "v2" "v2" "v2" true none)
    (sampleTc true MemberPhase.NormalPhase "pd-0") (sampleSet 0) (sampleSet 3) 0 3
    (sample_pastEarlyExits "v2" "v2" "v2" "pd-0" none 0 3) (by decide)

/-! ## Handoff target selection -/

/-- The first loop of the selection, on ordinals given in descending order:
the name of the highest healthy ordinal above `x`, or the empty string when no
ordinal above `x` is healthy. -/
theorem findMaxLarger_spec (d : Deps) (tc : TidbCluster) (x : Int) (l : List Int)
    (hl : l.Pairwise (· > ·)) :
    (∃ o ∈ l, x < o ∧ healthyOrdinal d tc o = true
        ∧ (∀ j ∈ l, o < j → healthyOrdinal d tc j = false)
        ∧ findMaxLarger d tc x l = genPDName d tc o)
    ∨ ((∀ j ∈ l, x < j → healthyOrdinal d tc j = false) ∧ findMaxLarger d tc x l = "") := by
  induction l with
  | nil => right; simp [findMaxLarger]
  | cons o rest ih =>
    obtain ⟨hlt, hrest⟩ := List.pairwise_cons.1 hl
    by_cases hox : o > x
    · cases hh : healthyOrdinal d tc o with
      | true =>
        left
        refine ⟨o, List.mem_cons_self _ _, hox, hh, ?_, ?_⟩
        · intro j hj hoj
          rcases List.mem_cons.1 hj with rfl | hj
          · omega
          · have := hlt j hj
            omega
        · have hp : pred tc (genPDName d tc o) = true := hh
          simp [findMaxLarger, hox, hp]
      | false =>
        have hp : pred tc (genPDName d tc o) = false := hh
        have hstep : findMaxLarger d tc x (o :: rest) = findMaxLarger d tc x rest := by
          simp [findMaxLarger, hox, hp]
        rcases ih hrest with ⟨o', ho', hxo', hh', hall, hres⟩ | ⟨hall, hres⟩
        · left
          refine ⟨o', List.mem_cons_of_mem _ ho', hxo', hh', ?_, by rw [hstep, hres]⟩
          intro j hj hoj
          rcases List.mem_cons.1 hj with rfl | hj
          · exact hh
          · exact hall j hj hoj
        · right
          refine ⟨?_, by rw [hstep, hres]⟩
          intro j hj hxj
          rcases List.mem_cons.1 hj with rfl | hj
          · exact hh
          · exact hall j hj hxj
    · right
      refine ⟨?_, by simp [findMaxLarger, hox]⟩
      intro j hj hxj
      rcases List.mem_cons.1 hj with rfl | hj
      · exact absurd hxj hox
      · have := hlt j hj
        omega

/-- The second loop of the selection, on ordinals given in ascending order:
the name of the lowest healthy ordinal below `x`, or the empty string when no
ordinal below `x` is healthy. -/
theorem findMinLess_spec (d : Deps) (tc : TidbCluster) (x : Int) (l : List Int)
    (hl : l.Pairwise (· < ·)) :
    (∃ o ∈ l, o < x ∧ healthyOrdinal d tc o = true
        ∧ (∀ j ∈ l, j < o → healthyOrdinal d tc j = false)
        ∧ findMinLess d tc x l = genPDName d tc o)
    ∨ ((∀ j ∈ l, j < x → healthyOrdinal d tc j = false) ∧ findMinLess d tc x l = "") := by
  induction l with
  | nil => right; simp [findMinLess]
  | cons o rest ih =>
    obtain ⟨hlt, hrest⟩ := List.pairwise_cons.1 hl
    by_cases hox : o < x
    · cases hh : healthyOrdinal d tc o with
      | true =>
        left
        refine ⟨o, List.mem_cons_self _ _, hox, hh, ?_, ?_⟩
        · intro j hj hoj
          rcases List.mem_cons.1 hj with rfl | hj
          · omega
          · have := hlt j hj
            omega
        · have hp : pred tc (genPDName d tc o) = true := hh
          simp [findMinLess, hox, hp]
      | false =>
        have hp : pred tc (genPDName d tc o) = false := hh
        have hstep : findMinLess d tc x (o :: rest) = findMinLess d tc x rest := by
          simp [findMinLess, hox, hp]
        rcases ih hrest with ⟨o', ho', hxo', hh', hall, hres⟩ | ⟨hall, hres⟩
        · left
          refine ⟨o', List.mem_cons_of_mem _ ho', hxo', hh', ?_, by rw [hstep, hres]⟩
          intro j hj hoj
          rcases List.mem_cons.1 hj with rfl | hj
          · exact hh
          · exact hall j hj hoj
        · right
          refine ⟨?_, by rw [hstep, hres]⟩
          intro j hj hxj
          rcases List.mem_cons.1 hj with rfl | hj
          · exact hh
          · exact hall j hj hxj
    · right
      refine ⟨?_, by simp [findMinLess, hox]⟩
      intro j hj hxj
      rcases List.mem_cons.1 hj with rfl | hj
      · exact absurd hxj hox
      · have := hlt j hj
        omega

/-- C8. For a candidate ordinal `x` of the desired StatefulSet, whose ordinals
are listed in ascending order and have non-empty names,
`choosePDToTransferFromMembers` returns the name of the highest healthy ordinal
above `x`; if no ordinal above `x` is healthy, the name of the lowest healthy
ordinal below `x`; and the empty string if no other ordinal is healthy. -/
theorem choosePDToTransferFromMembers_highest_above_else_lowest_below (d : Deps)
    (tc : TidbCluster) (newSet : StatefulSet) (rep x : Int)
    (hrep : newSet.Replicas = some rep)
    (hsorted : (d.GetPodOrdinals rep newSet).Sorted (· < ·))
    (hnames : ∀ o ∈ d.GetPodOrdinals rep newSet, genPDName d tc o ≠ "")
    (hx : x ∈ d.GetPodOrdinals rep newSet) :
    ∃ t, choosePDToTransferFromMembers d tc newSet x = some t ∧
      ((∃ o ∈ d.GetPodOrdinals rep newSet, x < o ∧ healthyOrdinal d tc o = true
          ∧ (∀ j ∈ d.GetPodOrdinals rep newSet, o < j → healthyOrdinal d tc j = false)
          ∧ t = genPDName d tc o)
      ∨ ((∀ j ∈ d.GetPodOrdinals rep newSet, x < j → healthyOrdinal d tc j = false)
          ∧ ∃ o ∈ d.GetPodOrdinals rep newSet, o < x ∧ healthyOrdinal d tc o = true
          ∧ (∀ j ∈ d.GetPodOrdinals rep newSet, j < o → healthyOrdinal d tc j = false)
          ∧ t = genPDName d tc o)
      ∨ ((∀ j ∈ d.GetPodOrdinals rep newSet, j ≠ x → healthyOrdinal d tc j = false)
          ∧ t = "")) := by
  have hdesc : (d.GetPodOrdinals rep newSet).reverse.Pairwise (· > ·) :=
    List.pairwise_reverse.2 hsorted
  simp only [choosePDToTransferFromMembers, hrep, hx, decide_True, if_true]
  rcases findMaxLarger_spec d tc x _ hdesc with ⟨o, ho, hxo, hh, hall, hres⟩ | ⟨hall, hres⟩
  · have ho' : o ∈ d.GetPodOrdinals rep newSet := List.mem_reverse.1 ho
    refine ⟨_, rfl, Or.inl ⟨o, ho', hxo, hh, fun j hj => hall j (List.mem_reverse.2 hj), ?_⟩⟩
    rw [hres]
    simp [hnames o ho']
  · have hall' : ∀ j ∈ d.GetPodOrdinals rep newSet, x < j → healthyOrdinal d tc j = false :=
      fun j hj => hall j (List.mem_reverse.2 hj)
    rw [hres]
    simp only [if_true]
    rcases findMinLess_spec d tc x _ hsorted with ⟨o, ho, hox, hh, hlow, hres'⟩ | ⟨hlow, hres'⟩
    · exact ⟨_, rfl, Or.inr (Or.inl ⟨hall', o, ho, hox, hh, hlow, hres'⟩)⟩
    · refine ⟨_, rfl, Or.inr (Or.inr ⟨?_, hres'⟩)⟩
      intro j hj hne
      rcases lt_or_gt_of_ne hne with hlt | hgt
      · exact hlow j hj hlt
      · exact hall' j hj hgt

theorem choosePDToTransferFromMembers_highest_above_else_lowest_below_witness :
    ∃ t, choosePDToTransferFromMembers (sampleDeps "v1" "v1" "v1" true none)
        (sampleTc true MemberPhase.NormalPhase "pd-1") (sampleSet 3) 1 = some t ∧
      ((∃ o ∈ (sampleDeps "v1" "v1" "v1" true none).GetPodOrdinals 3 (sampleSet 3), 1 < o
          ∧ healthyOrdinal (sampleDeps "v1" "v1" "v1" true none)
              (sampleTc true MemberPhase.NormalPhase "pd-1") o = true
          ∧ (∀ j ∈ (sampleDeps "v1" "v1" "v1" true none).GetPodOrdinals 3 (sampleSet 3), o < j →
              healthyOrdinal (sampleDeps "v1" "v1" "v1" true none)
                (sampleTc true MemberPhase.NormalPhase "pd-1") j = false)
          ∧ t = genPDName (sampleDeps "v1" "v1" "v1" true none)
              (sampleTc true MemberPhase.NormalPhase "pd-1") o)
      ∨ ((∀ j ∈ (sampleDeps "v1" "v1" "v1" true none).GetPodOrdinals 3 (sampleSet 3), 1 < j →
            healthyOrdinal (sampleDeps "v1" "v1" "v1" true none)
              (sampleTc true MemberPhase.NormalPhase "pd-1") j = false)
          ∧ ∃ o ∈ (sampleDeps "v1" "v1" "v1" true none).GetPodOrdinals 3 (sampleSet 3), o < 1
          ∧ healthyOrdinal (sampleDeps "v1" "v1" "v1" true none)
              (sampleTc true MemberPhase.NormalPhase "pd-1") o = true
          ∧ (∀ j ∈ (sampleDeps "v1" "v1" "v1" true none).GetPodOrdinals 3 (sampleSet 3), j < o →
              healthyOrdinal (sampleDeps "v1" "v1" "v1" true none)
                (sampleTc true MemberPhase.NormalPhase "pd-1") j = false)
          ∧ t = genPDName (sampleDeps "v1" "v1" "v1" true none)
              (sampleTc true MemberPhase.NormalPhase "pd-1") o)
      ∨ ((∀ j ∈ (sampleDeps "v1" "v1" "v1" true none).GetPodOrdinals 3 (sampleSet 3), j ≠ 1 →
            healthyOrdinal (sampleDeps "v1" "v1" "v1" true none)
              (sampleTc true MemberPhase.NormalPhase "pd-1") j = false)
          ∧ t = "")) :=
  choosePDToTransferFromMembers_highest_above_else_lowest_below
    (sampleDeps "v1" "v1" "v1" true none) (sampleTc true MemberPhase.NormalPhase "pd-1")
    (sampleSet 3) 3 1 rfl (by decide) (by decide) (by decide)

/-- A non-empty result of the loop over the peer members is the name of a
healthy peer member not named `upgradePdName`. -/
theorem peerLoop_ne_empty (upgradePdName : String) (peers : List (String × PDMember))
    (h : peerLoop upgradePdName peers ≠ "") :
    ∃ m ∈ peers, m.2.Name = peerLoop upgradePdName peers ∧ m.2.Health = true
      ∧ m.2.Name ≠ upgradePdName := by
  induction peers with
  | nil => simp [peerLoop] at h
  | cons m rest ih =>
    obtain ⟨key, member⟩ := m
    by_cases hm : member.Name ≠ upgradePdName ∧ member.Health = true
    · have hstep : peerLoop upgradePdName ((key, member) :: rest) = member.Name := by
        simp only [peerLoop]
        rw [if_pos hm]
      rw [hstep]
      exact ⟨(key, member), List.mem_cons_self _ _, rfl, hm.2, hm.1⟩
    · have hstep : peerLoop upgradePdName ((key, member) :: rest)
          = peerLoop upgradePdName rest := by
        simp only [peerLoop]
        rw [if_neg hm]
      rw [hstep] at h ⊢
      obtain ⟨m', hm', h1, h2, h3⟩ := ih h
      exact ⟨m', List.mem_cons_of_mem _ hm', h1, h2, h3⟩

/-- Without a healthy peer member not named `upgradePdName`, the loop over the
peer members returns the empty string. -/
theorem peerLoop_empty_of_none (upgradePdName : String) (peers : List (String × PDMember))
    (h : ¬ ∃ m ∈ peers, m.2.Health = true ∧ m.2.Name ≠ upgradePdName) :
    peerLoop upgradePdName peers = "" := by
  by_contra hne
  obtain ⟨m, hm, _, h2, h3⟩ := peerLoop_ne_empty upgradePdName peers hne
  exact h ⟨m, hm, h2, h3⟩

/-- When every peer member has a non-empty name, an empty result of the loop
over the peer members means that no peer member is healthy and not named
`upgradePdName`. -/
theorem peerLoop_none_of_empty (upgradePdName : String) (peers : List (String × PDMember))
    (hnames : ∀ m ∈ peers, m.2.Name ≠ "") (h : peerLoop upgradePdName peers = "") :
    ¬ ∃ m ∈ peers, m.2.Health = true ∧ m.2.Name ≠ upgradePdName := by
  induction peers with
  | nil => simp
  | cons m rest ih =>
    obtain ⟨key, member⟩ := m
    by_cases hm : member.Name ≠ upgradePdName ∧ member.Health = true
    · have hstep : peerLoop upgradePdName ((key, member) :: rest) = member.Name := by
        simp only [peerLoop]
        rw [if_pos hm]
      rw [hstep] at h
      exact absurd h (hnames (key, member) (List.mem_cons_self _ _))
    · have hstep : peerLoop upgradePdName ((key, member) :: rest)
          = peerLoop upgradePdName rest := by
        simp only [peerLoop]
        rw [if_neg hm]
      rw [hstep] at h
      rintro ⟨m', hm', h2, h3⟩
      rcases List.mem_cons.1 hm' with rfl | hm'
      · exact hm ⟨h3, h2⟩
      · exact ih (fun x hx => hnames x (List.mem_cons_of_mem _ hx)) h ⟨m', hm', h2, h3⟩

/-- C9, as stated, fails: with one healthy peer member whose name is the
empty string, a healthy peer member named otherwise than the candidate exists,
and `choosePDToTransferFromPeerMembers` returns the empty string. -/
theorem choosePDToTransferFromPeerMembers_empty_with_nameless_peer :
    (∃ m ∈ (sampleTcLonely [("peer-0", ⟨"", "7", "http://peer-0:2379", true⟩)]).PD.PeerMembers,
        m.2.Health = true ∧ m.2.Name ≠ "pd-0")
    ∧ choosePDToTransferFromPeerMembers
        (sampleTcLonely [("peer-0", ⟨"", "7", "http://peer-0:2379", true⟩)]) "pd-0" = "" :=
  ⟨⟨("peer-0", ⟨"", "7", "http://peer-0:2379", true⟩), by decide, rfl, by decide⟩, by decide⟩

/-- C9, amended. When the candidate `k` is the leader and no target is found
within the managed set, a non-empty result of
`choosePDToTransferFromPeerMembers` is the name of a healthy peer member named
otherwise than the candidate, and the transfer is issued to it; and provided
every peer member has a non-empty name, the result is the empty string if and
only if no such peer member exists. -/
theorem upgradePDPod_peer_target (d : Deps) (tc : TidbCluster) (newSet : StatefulSet) (k : Int)
    (hlead : isLeader d tc k = true)
    (hnone : tc.PDStsActualReplicas ≤ 1 ∨ choosePDToTransferFromMembers d tc newSet k = some "") :
    (choosePDToTransferFromPeerMembers tc (memberName d tc k) ≠ "" →
      (∃ m ∈ tc.PD.PeerMembers,
          m.2.Name = choosePDToTransferFromPeerMembers tc (memberName d tc k)
          ∧ m.2.Health = true ∧ m.2.Name ≠ memberName d tc k)
      ∧ (upgradePDPod d tc k newSet).trace
          = [Event.transferPDLeader (choosePDToTransferFromPeerMembers tc (memberName d tc k))])
    ∧ ((∀ m ∈ tc.PD.PeerMembers, m.2.Name ≠ "") →
      (choosePDToTransferFromPeerMembers tc (memberName d tc k) = ""
        ↔ ¬ ∃ m ∈ tc.PD.PeerMembers, m.2.Health = true ∧ m.2.Name ≠ memberName d tc k)) := by
  have hl : tc.PD.Leader.Name = d.PdName tc.Name k tc.Namespace tc.ClusterDomain tc.AcrossK8s
      ∨ tc.PD.Leader.Name = d.PdPodName tc.Name k := by
    simpa [isLeader, memberName, podName] using hlead
  have hm : (if tc.PDStsActualReplicas > 1 then choosePDToTransferFromMembers d tc newSet k
      else some "") = some "" := by
    rcases hnone with h | h
    · rw [if_neg (by omega)]
    · rw [h]
      simp
  refine ⟨fun hne => ⟨peerLoop_ne_empty _ _ hne, ?_⟩, fun hnames => ⟨fun h => ?_, fun h => ?_⟩⟩
  · have hne' : choosePDToTransferFromPeerMembers tc
        (d.PdName tc.Name k tc.Namespace tc.ClusterDomain tc.AcrossK8s) ≠ "" := hne
    cases htr : d.TransferPDLeader (choosePDToTransferFromPeerMembers tc
        (d.PdName tc.Name k tc.Namespace tc.ClusterDomain tc.AcrossK8s)) <;>
      simp [upgradePDPod, hl, hm, hne', htr, memberName]
  · exact peerLoop_none_of_empty _ _ hnames h
  · exact peerLoop_empty_of_none _ _ h

theorem upgradePDPod_peer_target_witness :
    isLeader (sampleDeps "v1" "v1" "v1" true none)
        (sampleTcLonely [("peer-0", sampleMember "peer-0")]) 0 = true
    ∧ (upgradePDPod (sampleDeps "v1" "v1" "v1" true none)
        (sampleTcLonely [("peer-0", sampleMember "peer-0")]) 0 (sampleSet 3)).trace
        = [Event.transferPDLeader "peer-0"] :=
  ⟨by decide, ((upgradePDPod_peer_target (sampleDeps "v1" "v1" "v1" true none)
    (sampleTcLonely [("peer-0", sampleMember "peer-0")]) (sampleSet 3) 0 (by decide)
    (Or.inl (by decide))).1 (by decide)).2⟩

/-- C10. When the candidate `k` is the leader and neither the managed members
nor the peer members yield a handoff target, `upgradePDPod` issues no
leadership transfer (it makes no call at all), sets the desired partition to
`k`, and returns nil. -/
theorem upgradePDPod_no_target_sets_partition (d : Deps) (tc : TidbCluster)
    (newSet : StatefulSet) (k : Int)
    (hlead : isLeader d tc k = true)
    (hnone : tc.PDStsActualReplicas ≤ 1 ∨ choosePDToTransferFromMembers d tc newSet k = some "")
    (hpeers : choosePDToTransferFromPeerMembers tc (memberName d tc k) = "") :
    (upgradePDPod d tc k newSet).trace = []
    ∧ (upgradePDPod d tc k newSet).newSet = SetUpgradePartition newSet k
    ∧ (upgradePDPod d tc k newSet).newSet.partition = some k
    ∧ (upgradePDPod d tc k newSet).ret = Ret.nil := by
  have hl : tc.PD.Leader.Name = d.PdName tc.Name k tc.Namespace tc.ClusterDomain tc.AcrossK8s
      ∨ tc.PD.Leader.Name = d.PdPodName tc.Name k := by
    simpa [isLeader, memberName, podName] using hlead
  have hm : (if tc.PDStsActualReplicas > 1 then choosePDToTransferFromMembers d tc newSet k
      else some "") = some "" := by
    rcases hnone with h | h
    · rw [if_neg (by omega)]
    · rw [h]
      simp
  have hp : choosePDToTransferFromPeerMembers tc
      (d.PdName tc.Name k tc.Namespace tc.ClusterDomain tc.AcrossK8s) = "" := hpeers
  simp [upgradePDPod, hl, hm, hp, partition_SetUpgradePartition]

theorem upgradePDPod_no_target_sets_partition_witness :
    isLeader (sampleDeps "v1" "v1" "v1" true none) (sampleTcLonely []) 0 = true
    ∧ (upgradePDPod (sampleDeps "v1" "v1" "v1" true none) (sampleTcLonely []) 0
        (sampleSet 3)).newSet.partition = some 0 :=
  ⟨by decide, (upgradePDPod_no_target_sets_partition (sampleDeps "v1" "v1" "v1" true none)
    (sampleTcLonely []) (sampleSet 3) 0 (by decide) (Or.inl (by decide)) (by decide)).2.2.1⟩

/-! ## Determinism of the handoff target selection -/

/-- When some peer member is healthy and not named `upgradePdName`, the loop
over the peer members returns the name of one of them. -/
theorem peerLoop_name_of_eligible (upgradePdName : String) (peers : List (String × PDMember))
    (h : ∃ m ∈ peers, m.2.Health = true ∧ m.2.Name ≠ upgradePdName) :
    ∃ m ∈ peers, m.2.Health = true ∧ m.2.Name ≠ upgradePdName
      ∧ peerLoop upgradePdName peers = m.2.Name := by
  induction peers with
  | nil => simp at h
  | cons m rest ih =>
    obtain ⟨key, member⟩ := m
    by_cases hm : member.Name ≠ upgradePdName ∧ member.Health = true
    · refine ⟨(key, member), List.mem_cons_self _ _, hm.2, hm.1, ?_⟩
      simp only [peerLoop]
      rw [if_pos hm]
    · have hstep : peerLoop upgradePdName ((key, member) :: rest)
          = peerLoop upgradePdName rest := by
        simp only [peerLoop]
        rw [if_neg hm]
      obtain ⟨m', hm', h2, h3⟩ := h
      rcases List.mem_cons.1 hm' with rfl | hm'
      · exact absurd ⟨h3, h2⟩ hm
      · obtain ⟨m'', hm'', h4, h5, h6⟩ := ih ⟨m', hm', h2, h3⟩
        exact ⟨m'', List.mem_cons_of_mem _ hm'', h4, h5, by rw [hstep, h6]⟩

/-- The selection among the managed members reads the member map only through
map reads: two clusters of the same identity whose member maps answer every
read alike get the same target. -/
theorem choosePDToTransferFromMembers_congr (d : Deps) (tc1 tc2 : TidbCluster)
    (newSet : StatefulSet) (k : Int)
    (hname : tc1.Name = tc2.Name) (hns : tc1.Namespace = tc2.Namespace)
    (hdom : tc1.ClusterDomain = tc2.ClusterDomain) (hacross : tc1.AcrossK8s = tc2.AcrossK8s)
    (hmembers : ∀ key, mapGet tc1.PD.Members key = mapGet tc2.PD.Members key) :
    choosePDToTransferFromMembers d tc1 newSet k = choosePDToTransferFromMembers d tc2 newSet k := by
  have hgen : ∀ o, genPDName d tc1 o = genPDName d tc2 o := by
    intro o
    simp only [genPDName, hname, hns, hdom, hacross, hmembers]
  have hpred : ∀ n, pred tc1 n = pred tc2 n := by
    intro n
    simp only [pred, hmembers]
  have hmax : ∀ x l, findMaxLarger d tc1 x l = findMaxLarger d tc2 x l := by
    intro x l
    induction l with
    | nil => rfl
    | cons o rest ih => simp only [findMaxLarger, hgen, hpred, ih]
  have hmin : ∀ x l, findMinLess d tc1 x l = findMinLess d tc2 x l := by
    intro x l
    induction l with
    | nil => rfl
    | cons o rest ih => simp only [findMinLess, hgen, hpred, ih]
  simp only [choosePDToTransferFromMembers, hmax, hmin]

/-- C11, as stated, fails: the same peer map with two healthy peer members,
visited by the range in one order and in the other, yields two different
handoff targets. -/
theorem choosePDToTransferFromPeerMembers_depends_on_range_order :
    (sampleTcLonely [samplePeer "peer-0", samplePeer "peer-1"]).PD.PeerMembers.Perm
        (sampleTcLonely [samplePeer "peer-1", samplePeer "peer-0"]).PD.PeerMembers
    ∧ (∀ key, mapGet (sampleTcLonely [samplePeer "peer-0", samplePeer "peer-1"]).PD.PeerMembers key
        = mapGet (sampleTcLonely [samplePeer "peer-1", samplePeer "peer-0"]).PD.PeerMembers key)
    ∧ choosePDToTransferFromPeerMembers
        (sampleTcLonely [samplePeer "peer-0", samplePeer "peer-1"]) "pd-0" = "peer-0"
    ∧ choosePDToTransferFromPeerMembers
        (sampleTcLonely [samplePeer "peer-1", samplePeer "peer-0"]) "pd-0" = "peer-1" := by
  refine ⟨List.Perm.swap _ _ _, ?_, by decide, by decide⟩
  intro key
  simp only [sampleTcLonely, samplePeer, mapGet]
  by_cases h0 : "peer-0" = key
  · subst h0
    simp
  · by_cases h1 : "peer-1" = key
    · subst h1
      simp
    · simp [h0, h1]

/-- C11, amended. For two runs on clusters of the same identity whose member
maps answer every read alike and whose peer maps hold the same entries,
visited in any two orders: the target chosen among the managed members is the
same, and the target chosen among the peer members is the same provided all
healthy peer members named otherwise than the candidate bear one name (at most
one peer is eligible). -/
theorem handoff_target_deterministic_up_to_one_eligible_peer (d : Deps)
    (tc1 tc2 : TidbCluster) (newSet : StatefulSet) (k : Int) (upgradePdName : String)
    (hname : tc1.Name = tc2.Name) (hns : tc1.Namespace = tc2.Namespace)
    (hdom : tc1.ClusterDomain = tc2.ClusterDomain) (hacross : tc1.AcrossK8s = tc2.AcrossK8s)
    (hmembers : ∀ key, mapGet tc1.PD.Members key = mapGet tc2.PD.Members key)
    (hpeers : tc1.PD.PeerMembers.Perm tc2.PD.PeerMembers)
    (hone : ∀ m1 ∈ tc1.PD.PeerMembers, ∀ m2 ∈ tc1.PD.PeerMembers,
      m1.2.Health = true → m1.2.Name ≠ upgradePdName →
      m2.2.Health = true → m2.2.Name ≠ upgradePdName → m1.2.Name = m2.2.Name) :
    choosePDToTransferFromMembers d tc1 newSet k = choosePDToTransferFromMembers d tc2 newSet k
    ∧ choosePDToTransferFromPeerMembers tc1 upgradePdName
        = choosePDToTransferFromPeerMembers tc2 upgradePdName := by
  refine ⟨choosePDToTransferFromMembers_congr d tc1 tc2 newSet k hname hns hdom hacross
    hmembers, ?_⟩
  unfold choosePDToTransferFromPeerMembers
  by_cases hex : ∃ m ∈ tc1.PD.PeerMembers, m.2.Health = true ∧ m.2.Name ≠ upgradePdName
  · have hex2 : ∃ m ∈ tc2.PD.PeerMembers, m.2.Health = true ∧ m.2.Name ≠ upgradePdName := by
      obtain ⟨m, hm, h⟩ := hex
      exact ⟨m, hpeers.mem_iff.1 hm, h⟩
    obtain ⟨m1, hm1, h1a, h1b, hr1⟩ := peerLoop_name_of_eligible upgradePdName _ hex
    obtain ⟨m2, hm2, h2a, h2b, hr2⟩ := peerLoop_name_of_eligible upgradePdName _ hex2
    rw [hr1, hr2]
    exact hone m1 hm1 m2 (hpeers.mem_iff.2 hm2) h1a h1b h2a h2b
  · have hex2 : ¬ ∃ m ∈ tc2.PD.PeerMembers, m.2.Health = true ∧ m.2.Name ≠ upgradePdName := by
      rintro ⟨m, hm, h⟩
      exact hex ⟨m, hpeers.mem_iff.2 hm, h⟩
    rw [peerLoop_empty_of_none _ _ hex, peerLoop_empty_of_none _ _ hex2]

theorem handoff_target_deterministic_up_to_one_eligible_peer_witness :
    choosePDToTransferFromPeerMembers
        (sampleTcLonely [samplePeer "pd-0", samplePeer "peer-1"]) "pd-0"
      = choosePDToTransferFromPeerMembers
        (sampleTcLonely [samplePeer "peer-1", samplePeer "pd-0"]) "pd-0" :=
  (handoff_target_deterministic_up_to_one_eligible_peer (sampleDeps "v1" "v1" "v1" true none)
    (sampleTcLonely [samplePeer "pd-0", samplePeer "peer-1"])
    (sampleTcLonely [samplePeer "peer-1", samplePeer "pd-0"]) (sampleSet 3) 0 "pd-0"
    rfl rfl rfl rfl (fun _ => rfl) (List.Perm.swap _ _ _) (by decide)).2

/-! ## The scaling and manual-override exits -/

/-- C12, as stated, fails: on a synced, scaling cluster whose observed
StatefulSet has no readable last applied config, `Upgrade` returns the error of
the read instead of nil and does not replace the desired template. -/
theorem upgrade_scaling_config_unreadable_errors :
    (sampleTc true MemberPhase.ScalePhase "pd-0").PD.Synced = true
    ∧ (sampleTc true MemberPhase.ScalePhase "pd-0").PD.Phase = MemberPhase.ScalePhase
    ∧ (Upgrade sampleDepsNoConfig (sampleTc true MemberPhase.ScalePhase "pd-0")
        (sampleSet 3) (sampleSet 3)).ret
        = Ret.error (Err.errorf "last applied config not found")
    ∧ (Upgrade sampleDepsNoConfig (sampleTc true MemberPhase.ScalePhase "pd-0")
        (sampleSet 3) (sampleSet 3)).ret ≠ Ret.nil := by
  decide

/-- C12, amended. On a synced cluster whose PD phase is Scaling: when the last
applied config of the observed StatefulSet is read, `Upgrade` replaces the
desired pod template spec with its pod spec and returns nil; when the read
fails, `Upgrade` returns that error and leaves the desired StatefulSet as it
was. Either way the desired partition and update strategy are unchanged and no
pod is fetched nor any call made. -/
theorem upgrade_scaling_copies_last_applied_template (d : Deps) (tc : TidbCluster)
    (oldSet newSet : StatefulSet) (hsync : tc.PD.Synced = true)
    (hscale : tc.PD.Phase = MemberPhase.ScalePhase) :
    (∀ podSpec, d.GetLastAppliedConfig oldSet = .ok podSpec →
        (Upgrade d tc oldSet newSet).ret = Ret.nil
        ∧ (Upgrade d tc oldSet newSet).newSet = { newSet with Template := podSpec })
    ∧ (∀ err, d.GetLastAppliedConfig oldSet = .error err →
        (Upgrade d tc oldSet newSet).ret = Ret.error err
        ∧ (Upgrade d tc oldSet newSet).newSet = newSet)
    ∧ (Upgrade d tc oldSet newSet).newSet.partition = newSet.partition
    ∧ (Upgrade d tc oldSet newSet).newSet.UpdateStrategy = newSet.UpdateStrategy
    ∧ (Upgrade d tc oldSet newSet).trace = [] := by
  have hsc : tc.PDScaling = true := by simp [TidbCluster.PDScaling, hscale]
  cases hc : d.GetLastAppliedConfig oldSet <;>
    simp [Upgrade, gracefulUpgrade, hsync, hsc, hc, StatefulSet.partition]

theorem upgrade_scaling_copies_last_applied_template_witness :
    (Upgrade (sampleDeps "v1" "v1" "v1" true none) (sampleTc true MemberPhase.ScalePhase "pd-0")
        (sampleSet 3) (sampleSet 2)).newSet.partition = (sampleSet 2).partition
    ∧ (Upgrade (sampleDeps "v1" "v1" "v1" true none) (sampleTc true MemberPhase.ScalePhase "pd-0")
        (sampleSet 3) (sampleSet 2)).trace = [] :=
  ⟨(upgrade_scaling_copies_last_applied_template (sampleDeps "v1" "v1" "v1" true none)
      (sampleTc true MemberPhase.ScalePhase "pd-0") (sampleSet 3) (sampleSet 2) rfl rfl).2.2.1,
    (upgrade_scaling_copies_last_applied_template (sampleDeps "v1" "v1" "v1" true none)
      (sampleTc true MemberPhase.ScalePhase "pd-0") (sampleSet 3) (sampleSet 2) rfl rfl).2.2.2.2⟩

/-- C13, as stated, fails: on a synced cluster whose PD phase is Scaling, the
phase after `Upgrade` returns is still Scaling, not Upgrading. -/
theorem upgrade_scaling_phase_stays_scaling :
    (sampleTc true MemberPhase.ScalePhase "pd-0").PD.Synced = true
    ∧ (sampleTc true MemberPhase.ScalePhase "pd-0").PD.Phase = MemberPhase.ScalePhase
    ∧ (Upgrade (sampleDeps "v1" "v1" "v1" true none) (sampleTc true MemberPhase.ScalePhase "pd-0")
        (sampleSet 3) (sampleSet 3)).ret = Ret.nil
    ∧ (Upgrade (sampleDeps "v1" "v1" "v1" true none) (sampleTc true MemberPhase.ScalePhase "pd-0")
        (sampleSet 3) (sampleSet 3)).tc.PD.Phase = MemberPhase.ScalePhase
    ∧ (Upgrade (sampleDeps "v1" "v1" "v1" true none) (sampleTc true MemberPhase.ScalePhase "pd-0")
        (sampleSet 3) (sampleSet 3)).tc.PD.Phase ≠ MemberPhase.UpgradePhase := by
  decide

/-- C13, amended. On a synced cluster whose PD phase is Scaling, `Upgrade`
leaves the cluster object as it was: after it returns the PD phase is still
Scaling (the phase is not marked Upgrading while the upgrade is deferred). -/
theorem upgrade_scaling_leaves_phase (d : Deps) (tc : TidbCluster)
    (oldSet newSet : StatefulSet) (hsync : tc.PD.Synced = true)
    (hscale : tc.PD.Phase = MemberPhase.ScalePhase) :
    (Upgrade d tc oldSet newSet).tc = tc
    ∧ (Upgrade d tc oldSet newSet).tc.PD.Phase = MemberPhase.ScalePhase := by
  have hsc : tc.PDScaling = true := by simp [TidbCluster.PDScaling, hscale]
  cases hc : d.GetLastAppliedConfig oldSet <;>
    simp [Upgrade, gracefulUpgrade, hsync, hsc, hc, hscale]

theorem upgrade_scaling_leaves_phase_witness :
    (Upgrade sampleDepsNoConfig (sampleTc true MemberPhase.ScalePhase "pd-1")
        (sampleSet 3) (sampleSet 2)).tc.PD.Phase = MemberPhase.ScalePhase :=
  (upgrade_scaling_leaves_phase sampleDepsNoConfig (sampleTc true MemberPhase.ScalePhase "pd-1")
    (sampleSet 3) (sampleSet 2) rfl rfl).2

/-- C14. Once the synced, scaling and template checks are passed, if the
observed update strategy type is OnDelete or its rolling-update parameters are
nil, `Upgrade` sets the desired update strategy to the observed one, returns
nil, fetches no pod and issues no leadership transfer (it makes no call). -/
theorem upgrade_manual_strategy_copied (d : Deps) (tc : TidbCluster)
    (oldSet newSet : StatefulSet) (hsync : tc.PD.Synced = true)
    (hscale : tc.PD.Phase ≠ MemberPhase.ScalePhase)
    (heq : d.templateEqual newSet oldSet = true)
    (hman : oldSet.UpdateStrategy.Type_ = StrategyType.OnDeleteStatefulSetStrategyType
      ∨ oldSet.UpdateStrategy.RollingUpdate = none) :
    (Upgrade d tc oldSet newSet).newSet.UpdateStrategy = oldSet.UpdateStrategy
    ∧ (Upgrade d tc oldSet newSet).ret = Ret.nil
    ∧ podsFetched (Upgrade d tc oldSet newSet).trace = []
    ∧ transfersIssued (Upgrade d tc oldSet newSet).trace = []
    ∧ (Upgrade d tc oldSet newSet).trace = [] := by
  have hsc : tc.PDScaling = false := by simp [TidbCluster.PDScaling, hscale]
  simp [Upgrade, gracefulUpgrade, hsync, hsc, heq, hman, podsFetched, transfersIssued]

theorem upgrade_manual_strategy_copied_witness :
    (Upgrade (sampleDeps "v1" "v1" "v1" true none) (sampleTc true MemberPhase.NormalPhase "pd-0")
        sampleSetOnDelete (sampleSet 3)).newSet.UpdateStrategy = sampleSetOnDelete.UpdateStrategy
    ∧ (Upgrade (sampleDeps "v1" "v1" "v1" true none) (sampleTc true MemberPhase.NormalPhase "pd-0")
        sampleSetOnDelete (sampleSet 3)).ret = Ret.nil :=
  ⟨(upgrade_manual_strategy_copied (sampleDeps "v1" "v1" "v1" true none)
      (sampleTc true MemberPhase.NormalPhase "pd-0") sampleSetOnDelete (sampleSet 3) rfl
      (by decide) rfl (Or.inl rfl)).1,
    (upgrade_manual_strategy_copied (sampleDeps "v1" "v1" "v1" true none)
      (sampleTc true MemberPhase.NormalPhase "pd-0") sampleSetOnDelete (sampleSet 3) rfl
      (by decide) rfl (Or.inl rfl)).2.1⟩

/-- C15, code at the failing input: with rolling-update parameters present and
the partition unset, `Upgrade` does not take the manual-override exit; it
dereferences the missing partition and faults, and the desired update strategy
is not the observed one. -/
theorem upgrade_unset_partition_faults :
    sampleSetNoPartition.UpdateStrategy.Type_
        = StrategyType.RollingUpdateStatefulSetStrategyType
    ∧ sampleSetNoPartition.UpdateStrategy.RollingUpdate = some ⟨none⟩
    ∧ (Upgrade (sampleDeps "v1" "v1" "v1" true none) (sampleTc true MemberPhase.NormalPhase "pd-0")
        sampleSetNoPartition (sampleSet 3)).ret = Ret.panic
    ∧ (Upgrade (sampleDeps "v1" "v1" "v1" true none) (sampleTc true MemberPhase.NormalPhase "pd-0")
        sampleSetNoPartition (sampleSet 3)).newSet.UpdateStrategy
        ≠ sampleSetNoPartition.UpdateStrategy := by
  decide

/-! ## Monotonicity of the partition, the peer check, and two scenarios -/

/-- C16, as stated, fails: with the observed and the desired partition both 0
and the pod of ordinal 2 stale, `Upgrade` returns nil and leaves the desired
partition at 2, above the partition held before the call. -/
theorem upgrade_partition_can_increase :
    (sampleSet 0).partition = some 0
    ∧ (Upgrade (sampleDeps "v1" "v1" "v1" true none) (sampleTc true MemberPhase.NormalPhase "pd-0")
        (sampleSet 0) (sampleSet 0)).ret = Ret.nil
    ∧ (Upgrade (sampleDeps "v1" "v1" "v1" true none) (sampleTc true MemberPhase.NormalPhase "pd-0")
        (sampleSet 0) (sampleSet 0)).newSet.partition = some 2
    ∧ ¬ ((2 : Int) ≤ 0) := by
  decide

/-- C16, amended. For every call of `Upgrade` on an observed StatefulSet with
partition `p` (and replicas set) in which no observed ordinal above `p` is
stale, the desired partition after the call is either the one the desired
StatefulSet held before the call (the returns that do not touch it) or a value
less than or equal to `p`. -/
theorem upgrade_partition_not_above_observed (d : Deps) (tc : TidbCluster)
    (oldSet newSet : StatefulSet) (p rep : Int)
    (hp : oldSet.partition = some p) (hrep : oldSet.Replicas = some rep)
    (hnostale : ∀ o ∈ d.GetPodOrdinals rep oldSet, p < o → staleRevision d tc o = false) :
    (Upgrade d tc oldSet newSet).newSet.partition = newSet.partition
    ∨ ∃ k, (Upgrade d tc oldSet newSet).newSet.partition = some k ∧ k ≤ p := by
  unfold Upgrade
  by_cases hsync : tc.PD.Synced = true
  swap
  · left
    simp [gracefulUpgrade, hsync]
  by_cases hscale : tc.PDScaling = true
  · left
    cases hc : d.GetLastAppliedConfig oldSet <;>
      simp [gracefulUpgrade, hsync, hscale, hc, StatefulSet.partition]
  by_cases heq : d.templateEqual newSet oldSet = true
  swap
  · left
    simp [gracefulUpgrade, hsync, hscale, heq]
  by_cases hman : oldSet.UpdateStrategy.Type_ = StrategyType.OnDeleteStatefulSetStrategyType
      ∨ oldSet.UpdateStrategy.RollingUpdate = none
  · right
    refine ⟨p, ?_, le_refl p⟩
    rw [← hp]
    simp [gracefulUpgrade, hsync, hscale, heq, hman, StatefulSet.partition]
  right
  have hpast : PastEarlyExits d tc oldSet newSet p rep := by
    refine ⟨hsync, ?_, heq, ?_, hp, hrep⟩
    · simpa [TidbCluster.PDScaling] using hscale
    · exact fun h => hman (Or.inl h)
  rw [gracefulUpgrade_past d tc oldSet newSet p rep hpast]
  rcases (upgradeLoop_shape d tc.withUpgradePhase (SetUpgradePartition newSet p)
    (d.GetPodOrdinals rep oldSet).reverse).2 with
    ⟨hns, _, _⟩ | ⟨hi, k, lo, evs, hl, _, hst, _, hrun, _, _⟩
  · exact ⟨p, by rw [hns, partition_SetUpgradePartition], le_refl p⟩
  · rw [hrun]
    simp only [Result.after]
    have hk : k ∈ d.GetPodOrdinals rep oldSet := by
      apply List.mem_reverse.1
      rw [hl]
      simp
    have hkp : k ≤ p := by
      by_contra hlt
      have hns := hnostale k hk (by omega)
      have hst' : staleRevision d tc k = true := hst
      rw [hns] at hst'
      exact absurd hst' (by simp)
    rcases (upgradePDPod_cases d tc.withUpgradePhase k (SetUpgradePartition newSet p)).2 with
      ⟨_, hns, _⟩ | ⟨_, hns, _⟩ | ⟨_, t, _, _, hns, _⟩
    · exact ⟨k, by rw [hns, partition_SetUpgradePartition], hkp⟩
    · exact ⟨p, by rw [hns, partition_SetUpgradePartition], le_refl p⟩
    · exact ⟨p, by rw [hns, partition_SetUpgradePartition], le_refl p⟩

theorem upgrade_partition_not_above_observed_witness :
    (Upgrade (sampleDeps "v1" "v1" "v2" true none) (sampleTc true MemberPhase.NormalPhase "pd-0")
        (sampleSet 2) (sampleSet 3)).newSet.partition = (sampleSet 3).partition
    ∨ ∃ k, (Upgrade (sampleDeps "v1" "v1" "v2" true none)
        (sampleTc true MemberPhase.NormalPhase "pd-0")
        (sampleSet 2) (sampleSet 3)).newSet.partition = some k ∧ k ≤ 2 :=
  upgrade_partition_not_above_observed (sampleDeps "v1" "v1" "v2" true none)
    (sampleTc true MemberPhase.NormalPhase "pd-0") (sampleSet 2) (sampleSet 3) 2 3 rfl rfl
    (by decide)

/-- C17, as stated, fails: with ordinals 0, 1, 2 all stale and the leader at
ordinal 2, the first call of `Upgrade` does not return nil, does not set the
desired partition to 0, and does issue a leadership transfer. -/
theorem upgrade_all_stale_leader_highest_not_nil :
    staleRevision (sampleDeps "v1" "v1" "v1" true none)
        (sampleTc true MemberPhase.NormalPhase "pd-2") 0 = true
    ∧ staleRevision (sampleDeps "v1" "v1" "v1" true none)
        (sampleTc true MemberPhase.NormalPhase "pd-2") 1 = true
    ∧ staleRevision (sampleDeps "v1" "v1" "v1" true none)
        (sampleTc true MemberPhase.NormalPhase "pd-2") 2 = true
    ∧ isLeader (sampleDeps "v1" "v1" "v1" true none)
        (sampleTc true MemberPhase.NormalPhase "pd-2") 2 = true
    ∧ (Upgrade (sampleDeps "v1" "v1" "v1" true none) (sampleTc true MemberPhase.NormalPhase "pd-2")
        (sampleSet 3) (sampleSet 3)).ret ≠ Ret.nil
    ∧ (Upgrade (sampleDeps "v1" "v1" "v1" true none) (sampleTc true MemberPhase.NormalPhase "pd-2")
        (sampleSet 3) (sampleSet 3)).newSet.partition ≠ some 0
    ∧ transfersIssued (Upgrade (sampleDeps "v1" "v1" "v1" true none)
        (sampleTc true MemberPhase.NormalPhase "pd-2") (sampleSet 3) (sampleSet 3)).trace
        ≠ [] := by
  decide

/-- C17, amended. Scenario: with ordinals 0, 1, 2 all stale, all members
healthy, the observed partition 3 and the leader at ordinal 2, the candidate
for restart is the highest stale ordinal, 2, the only pod fetched; being the
leader, it is not released: the first call of `Upgrade` issues a leadership
transfer to the member of ordinal 0, returns a requeue error, and leaves the
desired partition at the observed partition 3. -/
theorem upgrade_all_stale_leader_highest_transfers :
    podsFetched (Upgrade (sampleDeps "v1" "v1" "v1" true none)
        (sampleTc true MemberPhase.NormalPhase "pd-2") (sampleSet 3) (sampleSet 3)).trace
        = ["pd-2"]
    ∧ transfersIssued (Upgrade (sampleDeps "v1" "v1" "v1" true none)
        (sampleTc true MemberPhase.NormalPhase "pd-2") (sampleSet 3) (sampleSet 3)).trace
        = ["pd-0"]
    ∧ (∃ e, (Upgrade (sampleDeps "v1" "v1" "v1" true none)
        (sampleTc true MemberPhase.NormalPhase "pd-2") (sampleSet 3) (sampleSet 3)).ret
          = Ret.error e ∧ e.isRequeue = true)
    ∧ (Upgrade (sampleDeps "v1" "v1" "v1" true none) (sampleTc true MemberPhase.NormalPhase "pd-2")
        (sampleSet 3) (sampleSet 3)).newSet.partition = some 3 := by
  refine ⟨by decide, by decide, ⟨_, rfl, rfl⟩, by decide⟩

/-- C18. Past the early exits, with the observed ordinals listed in ascending
order: when the scan reaches a stale candidate `k` (every ordinal above it
confirmed), the peer check annotation is "true" and the stability query
reports an unhealthy peer, `Upgrade` returns a requeue error, issues no
leadership transfer, and the desired partition is the observed partition. -/
theorem upgrade_unstable_peers_block (d : Deps) (tc : TidbCluster)
    (oldSet newSet : StatefulSet) (p rep k : Int)
    (hpast : PastEarlyExits d tc oldSet newSet p rep)
    (hsorted : (d.GetPodOrdinals rep oldSet).Sorted (· < ·))
    (hk : k ∈ d.GetPodOrdinals rep oldSet)
    (hhigher : ∀ j ∈ d.GetPodOrdinals rep oldSet, k < j → confirmed d tc j = true)
    (hstale : staleRevision d tc k = true)
    (hflag : mapGet tc.Annotations annoKeyPDPeersCheck = some "true")
    (hunstable : d.IsPDStable ≠ "") :
    (∃ e, (Upgrade d tc oldSet newSet).ret = Ret.error e ∧ e.isRequeue = true)
    ∧ transfersIssued (Upgrade d tc oldSet newSet).trace = []
    ∧ (Upgrade d tc oldSet newSet).newSet.partition = oldSet.partition := by
  unfold Upgrade
  rw [gracefulUpgrade_past d tc oldSet newSet p rep hpast]
  have hobs : oldSet.partition = some p := hpast.2.2.2.2.1
  obtain ⟨hi, lo, hl, hhi, _⟩ := scan_split _ hsorted k hk
  obtain ⟨evs, hrun, _, htr⟩ := upgradeLoop_confirmed_head d tc.withUpgradePhase
    (SetUpgradePartition newSet p) hi (k :: lo) (fun j hj => hhigher j (hhi j hj).1 (hhi j hj).2)
  rw [hl, hrun]
  have hstale' : staleRevision d tc.withUpgradePhase k = true := hstale
  have hblock : (isPDPeersStable d tc.withUpgradePhase).1 ≠ "" := by
    have hflag' : mapGet tc.withUpgradePhase.Annotations annoKeyPDPeersCheck = some "true" :=
      hflag
    simp [isPDPeersStable, hflag', hunstable]
  have hon : onTargetRevision d tc.withUpgradePhase k ≠ true := by
    intro h
    have := not_stale_of_onTarget d tc.withUpgradePhase k h
    rw [hstale'] at this
    exact absurd this (by simp)
  rcases upgradeLoop_cons_cases d tc.withUpgradePhase (SetUpgradePartition newSet p) k lo with
    ⟨hc, _⟩ | ⟨h1, _⟩ | ⟨_, h2, _⟩ | ⟨_, _, hn, _, herr, _, ht1⟩ | ⟨_, h5, _⟩
  · simp only [confirmed, Bool.and_eq_true] at hc
    exact absurd hc.1.1 hon
  · exact absurd h1 hon
  · rw [hstale'] at h2
    exact absurd h2 (by simp)
  · refine ⟨by simpa [Result.after] using herr, ?_, ?_⟩
    · simp [Result.after, transfersIssued_append, htr, ht1]
    · simp only [Result.after, hn, partition_SetUpgradePartition, hobs]
  · exact absurd h5 hblock

theorem upgrade_unstable_peers_block_witness :
    (∃ e, (Upgrade sampleDepsUnstable (sampleTcAnnotated "pd-0" [(annoKeyPDPeersCheck, "true")])
        (sampleSet 3) (sampleSet 3)).ret = Ret.error e ∧ e.isRequeue = true)
    ∧ transfersIssued (Upgrade sampleDepsUnstable
        (sampleTcAnnotated "pd-0" [(annoKeyPDPeersCheck, "true")])
        (sampleSet 3) (sampleSet 3)).trace = []
    ∧ (Upgrade sampleDepsUnstable (sampleTcAnnotated "pd-0" [(annoKeyPDPeersCheck, "true")])
        (sampleSet 3) (sampleSet 3)).newSet.partition = (sampleSet 3).partition :=
  upgrade_unstable_peers_block sampleDepsUnstable
    (sampleTcAnnotated "pd-0" [(annoKeyPDPeersCheck, "true")]) (sampleSet 3) (sampleSet 3) 3 3 1
    ⟨rfl, by decide, rfl, by decide, rfl, rfl⟩
    (by decide) (by decide) (by decide) (by decide) (by decide) (by decide)

/-! ## The annotations -/

/-- Without a stability query in the peer check, no run of the loop makes
one. -/
theorem upgradeLoop_no_stability_query (d : Deps) (tc : TidbCluster) (m : Int)
    (ns : StatefulSet) (h : (isPDPeersStable d tc).2 = []) (l : List Int) :
    Event.isPDStable ∉ (upgradeLoop d tc m ns l).trace := by
  induction l with
  | nil => simp [upgradeLoop]
  | cons i rest ih =>
    have hpod : Event.isPDStable ∉ (upgradePDPod d tc i ns).trace := by
      rcases (upgradePDPod_cases d tc i ns).2 with
        ⟨_, _, h0⟩ | ⟨_, _, h0⟩ | ⟨_, t, _, h0, _⟩ <;> simp [h0]
    cases hp : d.PodGet tc.Namespace (d.PdPodName tc.Name i) with
    | error e => simp [upgradeLoop, hp]
    | ok pod =>
      cases hl : mapGet pod.Labels ControllerRevisionHashLabelKey with
      | none => simp [upgradeLoop, hp, hl]
      | some revision =>
        cases hs : tc.PD.StatefulSet with
        | none => simp [upgradeLoop, hp, hl, hs]
        | some sts =>
          by_cases hrev : revision = sts.UpdateRevision
          · cases hav : d.IsPodAvailable pod (toInt32 m) with
            | false =>
              cases hrc : d.PodReadyConditionTrue pod <;>
                simp [upgradeLoop, hp, hl, hs, hrev, hav, hrc]
            | true =>
              cases hm : mapGet tc.PD.Members
                  (d.PdName tc.Name i tc.Namespace tc.ClusterDomain tc.AcrossK8s) with
              | none => simp [upgradeLoop, hp, hl, hs, hrev, hav, hm]
              | some member =>
                cases hh : member.Health with
                | false => simp [upgradeLoop, hp, hl, hs, hrev, hav, hm, hh]
                | true =>
                  cases hcl : d.HasPDClientForMember member with
                  | false =>
                    simp [upgradeLoop, hp, hl, hs, hrev, hav, hm, hh, hcl, isPDMemberReady]
                  | true =>
                    cases hr : d.GetReady member with
                    | error e =>
                      simp [upgradeLoop, hp, hl, hs, hrev, hav, hm, hh, hcl, hr,
                        isPDMemberReady]
                    | ok ready =>
                      cases ready with
                      | false =>
                        simp [upgradeLoop, hp, hl, hs, hrev, hav, hm, hh, hcl, hr,
                          isPDMemberReady]
                      | true =>
                        simp [upgradeLoop, hp, hl, hs, hrev, hav, hm, hh, hcl, hr,
                          isPDMemberReady, Result.after, ih]
          · cases hst : isPDPeersStable d tc with
            | mk reason evs =>
              have hevs : evs = [] := by
                rw [hst] at h
                exact h
              subst hevs
              by_cases hreason : reason = ""
              · simp [upgradeLoop, hp, hl, hs, hrev, hst, hreason, Result.after, hpod]
              · simp [upgradeLoop, hp, hl, hs, hrev, hst, hreason]

/-- C20. If the peer check annotation is absent or has any value other than
"true", `isPDPeersStable` returns the empty reason and makes no query; hence
the peer check does not block, and no call of `Upgrade` queries the stability
of the peers. -/
theorem isPDPeersStable_empty_unless_opted_in (d : Deps) (tc : TidbCluster)
    (hflag : mapGet tc.Annotations annoKeyPDPeersCheck ≠ some "true") :
    isPDPeersStable d tc = ("", [])
    ∧ ∀ oldSet newSet, Event.isPDStable ∉ (Upgrade d tc oldSet newSet).trace := by
  have hoff : ∀ tc' : TidbCluster, tc'.Annotations = tc.Annotations →
      isPDPeersStable d tc' = ("", []) := by
    intro tc' hann
    unfold isPDPeersStable
    rw [hann]
    cases hget : mapGet tc.Annotations annoKeyPDPeersCheck with
    | none => rfl
    | some check =>
      have hne : check ≠ "true" := by
        intro hc
        apply hflag
        rw [hget, hc]
      simp [hne]
  refine ⟨hoff tc rfl, ?_⟩
  intro oldSet newSet
  unfold Upgrade
  by_cases hsync : tc.PD.Synced = true
  swap
  · simp [gracefulUpgrade, hsync]
  by_cases hscale : tc.PDScaling = true
  · cases hc : d.GetLastAppliedConfig oldSet <;> simp [gracefulUpgrade, hsync, hscale, hc]
  by_cases heq : d.templateEqual newSet oldSet = true
  swap
  · simp [gracefulUpgrade, hsync, hscale, heq]
  by_cases hman : oldSet.UpdateStrategy.Type_ = StrategyType.OnDeleteStatefulSetStrategyType
      ∨ oldSet.UpdateStrategy.RollingUpdate = none
  · simp [gracefulUpgrade, hsync, hscale, heq, hman]
  cases hp : oldSet.partition with
  | none => simp [gracefulUpgrade, hsync, hscale, heq, hman, hp]
  | some p =>
    cases hrep : oldSet.Replicas with
    | none => simp [gracefulUpgrade, hsync, hscale, heq, hman, hp, hrep]
    | some rep =>
      have hpast : PastEarlyExits d tc oldSet newSet p rep := by
        refine ⟨hsync, ?_, heq, ?_, hp, hrep⟩
        · simpa [TidbCluster.PDScaling] using hscale
        · exact fun h => hman (Or.inl h)
      rw [gracefulUpgrade_past d tc oldSet newSet p rep hpast]
      apply upgradeLoop_no_stability_query
      rw [hoff tc.withUpgradePhase rfl]

theorem isPDPeersStable_empty_unless_opted_in_witness :
    isPDPeersStable sampleDepsUnstable (sampleTcAnnotated "pd-0" [(annoKeyPDPeersCheck, "yes")])
      = ("", []) :=
  (isPDPeersStable_empty_unless_opted_in sampleDepsUnstable
    (sampleTcAnnotated "pd-0" [(annoKeyPDPeersCheck, "yes")]) (by decide)).1

/-- C19, code at the failing input: the annotation "4294967296" parses as the
integer 4294967296, yet the availability check is called with 0, its
conversion to `int32`: pods that became ready at the time of the call, hence
available for a minimum of 0 seconds only, pass the check and `Upgrade`
returns nil. -/
theorem upgrade_minReadySeconds_wraps_at_int32 :
    minReadySeconds sampleDepsJustReady
        (sampleTcAnnotated "pd-0" [(annoKeyPDMinReadySeconds, "4294967296")]) = 4294967296
    ∧ toInt32 (minReadySeconds sampleDepsJustReady
        (sampleTcAnnotated "pd-0" [(annoKeyPDMinReadySeconds, "4294967296")])) = 0
    ∧ sampleDepsJustReady.IsPodAvailable (samplePod "pd-2" "v2") 4294967296 = false
    ∧ podAvailable sampleDepsJustReady
        (sampleTcAnnotated "pd-0" [(annoKeyPDMinReadySeconds, "4294967296")]) 2 = true
    ∧ (Upgrade sampleDepsJustReady
        (sampleTcAnnotated "pd-0" [(annoKeyPDMinReadySeconds, "4294967296")])
        (sampleSet 3) (sampleSet 3)).ret = Ret.nil := by
  decide

/-! ## The kinds of error -/

/-- C21, as stated, fails: on a synced cluster, when the pod of a live ordinal
cannot be fetched `Upgrade` returns an error that is not a requeue error; and
when the leadership transfer request fails with an ordinary error, `Upgrade`
returns that error, which is not a requeue error either. -/
theorem upgrade_pod_fetch_failure_not_requeue :
    (∃ e, (Upgrade sampleDepsNoPods (sampleTc true MemberPhase.NormalPhase "pd-0")
        (sampleSet 3) (sampleSet 3)).ret = Ret.error e ∧ e.isRequeue = false)
    ∧ podsFetched (Upgrade sampleDepsNoPods (sampleTc true MemberPhase.NormalPhase "pd-0")
        (sampleSet 3) (sampleSet 3)).trace = ["pd-2"]
    ∧ (∃ e, (Upgrade (sampleDeps "v1" "v1" "v1" true (some (Err.errorf "connection refused")))
        (sampleTc true MemberPhase.NormalPhase "pd-2") (sampleSet 3) (sampleSet 3)).ret
          = Ret.error e ∧ e.isRequeue = false)
    ∧ transfersIssued (Upgrade (sampleDeps "v1" "v1" "v1" true
        (some (Err.errorf "connection refused")))
        (sampleTc true MemberPhase.NormalPhase "pd-2") (sampleSet 3) (sampleSet 3)).trace
        = ["pd-0"] := by
  refine ⟨⟨_, rfl, rfl⟩, by decide, ⟨_, rfl, rfl⟩, by decide⟩

/-- C21, amended. Past the early exits, with the observed ordinals listed in
ascending order, let `i` be the ordinal at which the scan stops (every ordinal
above it is confirmed). If the pod of `i` cannot be fetched, `Upgrade` returns
an error that is not a requeue error. If the pod has no revision label, or is
on the target revision but unavailable or with a member missing, unhealthy or
not ready, or is stale while the peers are unstable, `Upgrade` returns a
requeue error. If it is stale, the peers are stable, and a leadership transfer
is issued: a successful request gives a requeue error, and a failed request
gives the error of the request itself. -/
theorem upgrade_error_kind_at_stopping_ordinal (d : Deps) (tc : TidbCluster)
    (oldSet newSet : StatefulSet) (p rep i : Int)
    (hpast : PastEarlyExits d tc oldSet newSet p rep)
    (hsorted : (d.GetPodOrdinals rep oldSet).Sorted (· < ·))
    (hi : i ∈ d.GetPodOrdinals rep oldSet)
    (hhigher : ∀ j ∈ d.GetPodOrdinals rep oldSet, i < j → confirmed d tc j = true) :
    ((∃ msg, d.PodGet tc.Namespace (podName d tc i) = .error msg) →
      ∃ e, (Upgrade d tc oldSet newSet).ret = Ret.error e ∧ e.isRequeue = false)
    ∧ ((∃ pod, d.PodGet tc.Namespace (podName d tc i) = .ok pod
          ∧ mapGet pod.Labels ControllerRevisionHashLabelKey = none) →
      ∃ e, (Upgrade d tc oldSet newSet).ret = Ret.error e ∧ e.isRequeue = true)
    ∧ (onTargetRevision d tc i = true →
        ¬ (podAvailable d tc i = true ∧ memberHealthyReady d tc i = true) →
      ∃ e, (Upgrade d tc oldSet newSet).ret = Ret.error e ∧ e.isRequeue = true)
    ∧ (staleRevision d tc i = true → (isPDPeersStable d tc).1 ≠ "" →
      ∃ e, (Upgrade d tc oldSet newSet).ret = Ret.error e ∧ e.isRequeue = true)
    ∧ (staleRevision d tc i = true → (isPDPeersStable d tc).1 = "" →
      ∀ t ∈ transfersIssued (Upgrade d tc oldSet newSet).trace,
        (d.TransferPDLeader t = none →
          ∃ e, (Upgrade d tc oldSet newSet).ret = Ret.error e ∧ e.isRequeue = true)
        ∧ (∀ e', d.TransferPDLeader t = some e' →
          (Upgrade d tc oldSet newSet).ret = Ret.error e')) := by
  unfold Upgrade
  rw [gracefulUpgrade_past d tc oldSet newSet p rep hpast]
  obtain ⟨hi', lo, hl, hhi, _⟩ := scan_split _ hsorted i hi
  obtain ⟨evs, hrun, _, htr⟩ := upgradeLoop_confirmed_head d tc.withUpgradePhase
    (SetUpgradePartition newSet p) hi' (i :: lo)
    (fun j hj => hhigher j (hhi j hj).1 (hhi j hj).2)
  rw [hl, hrun]
  simp only [Result.after, transfersIssued_append, htr, List.nil_append]
  have hcases := upgradeLoop_cons_cases d tc.withUpgradePhase (SetUpgradePartition newSet p) i lo
  refine ⟨?_, ?_, ?_, ?_, ?_⟩
  · rintro ⟨msg, hmsg⟩
    have hmsg' : d.PodGet tc.withUpgradePhase.Namespace
        (d.PdPodName tc.withUpgradePhase.Name i) = .error msg := hmsg
    simp [upgradeLoop, hmsg', Err.isRequeue]
  · rintro ⟨pod, hpod, hlabel⟩
    have hpod' : d.PodGet tc.withUpgradePhase.Namespace
        (d.PdPodName tc.withUpgradePhase.Name i) = .ok pod := hpod
    simp [upgradeLoop, hpod', hlabel, Err.isRequeue]
  · intro hon hbad
    have hon' : onTargetRevision d tc.withUpgradePhase i = true := hon
    have hns : staleRevision d tc.withUpgradePhase i = false := not_stale_of_onTarget d tc i hon
    rcases hcases with ⟨hc, _⟩ | ⟨_, _, _, _, herr, _⟩ | ⟨hoff, _⟩ | ⟨hst, _⟩ | ⟨hst, _⟩
    · exfalso
      apply hbad
      rw [confirmed_withUpgradePhase] at hc
      simp only [confirmed, Bool.and_eq_true] at hc
      exact ⟨hc.1.2, hc.2⟩
    · exact herr
    · rw [hon'] at hoff
      exact absurd hoff (by simp)
    · rw [hns] at hst
      exact absurd hst (by simp)
    · rw [hns] at hst
      exact absurd hst (by simp)
  · intro hstale hblock
    have hstale' : staleRevision d tc.withUpgradePhase i = true := hstale
    have hblock' : (isPDPeersStable d tc.withUpgradePhase).1 ≠ "" := hblock
    have hon : onTargetRevision d tc.withUpgradePhase i ≠ true := by
      intro h
      have := not_stale_of_onTarget d tc.withUpgradePhase i h
      rw [hstale'] at this
      exact absurd this (by simp)
    rcases hcases with ⟨hc, _⟩ | ⟨h1, _⟩ | ⟨_, h2, _⟩ | ⟨_, _, _, _, herr, _⟩ | ⟨_, h5, _⟩
    · simp only [confirmed, Bool.and_eq_true] at hc
      exact absurd hc.1.1 hon
    · exact absurd h1 hon
    · rw [hstale'] at h2
      exact absurd h2 (by simp)
    · exact herr
    · exact absurd h5 hblock'
  · intro hstale hstable t ht
    have hstale' : staleRevision d tc.withUpgradePhase i = true := hstale
    have hstable' : (isPDPeersStable d tc.withUpgradePhase).1 = "" := hstable
    have hon : onTargetRevision d tc.withUpgradePhase i ≠ true := by
      intro h
      have := not_stale_of_onTarget d tc.withUpgradePhase i h
      rw [hstale'] at this
      exact absurd this (by simp)
    rcases hcases with ⟨hc, _⟩ | ⟨h1, _⟩ | ⟨_, h2, _⟩ | ⟨_, h4, _⟩ | ⟨_, _, evs', hrun', _, htr'⟩
    · simp only [confirmed, Bool.and_eq_true] at hc
      exact absurd hc.1.1 hon
    · exact absurd h1 hon
    · rw [hstale'] at h2
      exact absurd h2 (by simp)
    · exact absurd hstable' h4
    · rw [hrun'] at ht ⊢
      simp only [Result.after, transfersIssued_append, htr', List.nil_append] at ht ⊢
      rcases (upgradePDPod_cases d tc.withUpgradePhase i (SetUpgradePartition newSet p)).2 with
        ⟨_, _, h0⟩ | ⟨_, _, h0⟩ | ⟨_, t', _, htrace, _, e, he, hq, hf⟩
      · simp [h0, transfersIssued] at ht
      · simp [h0, transfersIssued] at ht
      · rw [htrace] at ht
        simp only [transfersIssued, List.mem_singleton] at ht
        subst ht
        refine ⟨fun hnone => ⟨e, he, hq hnone⟩, fun e' hsome => ?_⟩
        rw [he, hf e' hsome]

theorem upgrade_error_kind_at_stopping_ordinal_witness :
    (∃ e, (Upgrade sampleDepsNoPods (sampleTc true MemberPhase.NormalPhase "pd-0")
        (sampleSet 3) (sampleSet 3)).ret = Ret.error e ∧ e.isRequeue = false)
    ∧ (∃ e, (Upgrade sampleDepsUnstable
        (sampleTcAnnotated "pd-0" [(annoKeyPDPeersCheck, "true")])
        (sampleSet 3) (sampleSet 3)).ret = Ret.error e ∧ e.isRequeue = true) :=
  ⟨(upgrade_error_kind_at_stopping_ordinal sampleDepsNoPods
      (sampleTc true MemberPhase.NormalPhase "pd-0") (sampleSet 3) (sampleSet 3) 3 3 2
      ⟨rfl, by decide, rfl, by decide, rfl, rfl⟩ (by decide) (by decide) (by decide)).1
      ⟨"not found", rfl⟩,
    (upgrade_error_kind_at_stopping_ordinal sampleDepsUnstable
      (sampleTcAnnotated "pd-0" [(annoKeyPDPeersCheck, "true")]) (sampleSet 3) (sampleSet 3)
      3 3 1 ⟨rfl, by decide, rfl, by decide, rfl, rfl⟩ (by decide) (by decide)
      (by decide)).2.2.2.1 (by decide) (by decide)⟩

/-! ## Further properties of the selection and of the early exits -/

/-- A non-empty result of the first loop of the selection is the name of an
ordinal of the list above `x` for which `pred` holds. -/
theorem findMaxLarger_ne_empty (d : Deps) (tc : TidbCluster) (x : Int) (l : List Int)
    (h : findMaxLarger d tc x l ≠ "") :
    ∃ o ∈ l, x < o ∧ findMaxLarger d tc x l = genPDName d tc o
      ∧ pred tc (genPDName d tc o) = true := by
  induction l with
  | nil => simp [findMaxLarger] at h
  | cons o rest ih =>
    by_cases hox : o > x
    · cases hp : pred tc (genPDName d tc o) with
      | true =>
        exact ⟨o, List.mem_cons_self _ _, hox, by simp [findMaxLarger, hox, hp], hp⟩
      | false =>
        have hstep : findMaxLarger d tc x (o :: rest) = findMaxLarger d tc x rest := by
          simp [findMaxLarger, hox, hp]
        rw [hstep] at h ⊢
        obtain ⟨o', ho', h1, h2, h3⟩ := ih h
        exact ⟨o', List.mem_cons_of_mem _ ho', h1, h2, h3⟩
    · simp [findMaxLarger, hox] at h

/-- A non-empty result of the second loop of the selection is the name of an
ordinal of the list below `x` for which `pred` holds. -/
theorem findMinLess_ne_empty (d : Deps) (tc : TidbCluster) (x : Int) (l : List Int)
    (h : findMinLess d tc x l ≠ "") :
    ∃ o ∈ l, o < x ∧ findMinLess d tc x l = genPDName d tc o
      ∧ pred tc (genPDName d tc o) = true := by
  induction l with
  | nil => simp [findMinLess] at h
  | cons o rest ih =>
    by_cases hox : o < x
    · cases hp : pred tc (genPDName d tc o) with
      | true =>
        exact ⟨o, List.mem_cons_self _ _, hox, by simp [findMinLess, hox, hp], hp⟩
      | false =>
        have hstep : findMinLess d tc x (o :: rest) = findMinLess d tc x rest := by
          simp [findMinLess, hox, hp]
        rw [hstep] at h ⊢
        obtain ⟨o', ho', h1, h2, h3⟩ := ih h
        exact ⟨o', List.mem_cons_of_mem _ ho', h1, h2, h3⟩
    · simp [findMinLess, hox] at h

/-- When `pred` holds of a name, the name is a key of the member map and its
entry is healthy. -/
theorem pred_true_member (tc : TidbCluster) (name : String) (h : pred tc name = true) :
    ∃ member, mapGet tc.PD.Members name = some member ∧ member.Health = true := by
  unfold pred at h
  cases hm : mapGet tc.PD.Members name with
  | none => simp [hm, PDMember.zero] at h
  | some member => exact ⟨member, rfl, by simpa [hm] using h⟩

/-- C28. For every input, a non-empty name returned by
`choosePDToTransferFromMembers` is the name generated from an ordinal of the
desired StatefulSet's ordinal set other than the candidate ordinal, and it is
a key of the member map whose entry is healthy: a member absent from the
status is never chosen, nor is the candidate ordinal. -/
theorem choosePDToTransferFromMembers_target_healthy_other_ordinal (d : Deps)
    (tc : TidbCluster) (newSet : StatefulSet) (x : Int) (t : String)
    (h : choosePDToTransferFromMembers d tc newSet x = some t) (hne : t ≠ "") :
    ∃ rep, newSet.Replicas = some rep
      ∧ (∃ o ∈ d.GetPodOrdinals rep newSet, o ≠ x ∧ t = genPDName d tc o)
      ∧ ∃ member, mapGet tc.PD.Members t = some member ∧ member.Health = true := by
  cases hrep : newSet.Replicas with
  | none => simp [choosePDToTransferFromMembers, hrep] at h
  | some rep =>
    refine ⟨rep, rfl, ?_⟩
    simp only [choosePDToTransferFromMembers, hrep, Option.some.injEq] at h
    have hother : ∀ o ∈ d.GetPodOrdinals rep newSet,
        o ≠ (if decide (x ∈ d.GetPodOrdinals rep newSet) = true then x
          else GetMaxPodOrdinal d rep newSet) → o ≠ x := by
      intro o ho hox
      by_cases hx : x ∈ d.GetPodOrdinals rep newSet
      · simpa [hx] using hox
      · intro hoeq
        exact hx (hoeq ▸ ho)
    by_cases hmax : findMaxLarger d tc
        (if decide (x ∈ d.GetPodOrdinals rep newSet) = true then x
          else GetMaxPodOrdinal d rep newSet) (d.GetPodOrdinals rep newSet).reverse = ""
    · rw [if_pos hmax] at h
      have hmin : findMinLess d tc
          (if decide (x ∈ d.GetPodOrdinals rep newSet) = true then x
            else GetMaxPodOrdinal d rep newSet) (d.GetPodOrdinals rep newSet) ≠ "" := by
        rw [h]
        exact hne
      obtain ⟨o, ho, hlt, hres, hp⟩ := findMinLess_ne_empty d tc _ _ hmin
      rw [h] at hres
      exact ⟨⟨o, ho, hother o ho (by omega), hres⟩, hres ▸ pred_true_member tc _ hp⟩
    · rw [if_neg hmax] at h
      obtain ⟨o, ho, hlt, hres, hp⟩ := findMaxLarger_ne_empty d tc _ _ hmax
      rw [h] at hres
      have ho' : o ∈ d.GetPodOrdinals rep newSet := List.mem_reverse.1 ho
      exact ⟨⟨o, ho', hother o ho' (by omega), hres⟩, hres ▸ pred_true_member tc _ hp⟩

theorem choosePDToTransferFromMembers_target_healthy_other_ordinal_witness :
    ∃ rep, (sampleSet 3).Replicas = some rep
      ∧ (∃ o ∈ (sampleDeps "v1" "v1" "v1" true none).GetPodOrdinals rep (sampleSet 3),
          o ≠ 2 ∧ "pd-0" = genPDName (sampleDeps "v1" "v1" "v1" true none)
            (sampleTc true MemberPhase.NormalPhase "pd-2") o)
      ∧ ∃ member, mapGet (sampleTc true MemberPhase.NormalPhase "pd-2").PD.Members "pd-0"
          = some member ∧ member.Health = true :=
  choosePDToTransferFromMembers_target_healthy_other_ordinal
    (sampleDeps "v1" "v1" "v1" true none) (sampleTc true MemberPhase.NormalPhase "pd-2")
    (sampleSet 3) 2 "pd-0" (by decide) (by decide)

/-- C29. On a synced, non-scaling cluster for which `templateEqual` is false,
`gracefulUpgrade` sets the PD phase to Upgrading and changes nothing else of
the cluster object, returns nil, leaves the desired StatefulSet exactly as it
was, fetches no pod and makes no call. -/
theorem gracefulUpgrade_template_differs_marks_upgrading (d : Deps) (tc : TidbCluster)
    (oldSet newSet : StatefulSet) (hsync : tc.PD.Synced = true)
    (hscale : tc.PD.Phase ≠ MemberPhase.ScalePhase)
    (hne : d.templateEqual newSet oldSet = false) :
    (gracefulUpgrade d tc oldSet newSet).tc.PD.Phase = MemberPhase.UpgradePhase
    ∧ (gracefulUpgrade d tc oldSet newSet).tc = tc.withUpgradePhase
    ∧ (gracefulUpgrade d tc oldSet newSet).ret = Ret.nil
    ∧ (gracefulUpgrade d tc oldSet newSet).newSet = newSet
    ∧ (gracefulUpgrade d tc oldSet newSet).trace = [] := by
  have hsc : tc.PDScaling = false := by simp [TidbCluster.PDScaling, hscale]
  simp [gracefulUpgrade, hsync, hsc, hne, TidbCluster.withUpgradePhase]

theorem gracefulUpgrade_template_differs_marks_upgrading_witness :
    (gracefulUpgrade (sampleDeps "v1" "v1" "v1" false none)
        (sampleTc true MemberPhase.NormalPhase "pd-0") (sampleSet 3) (sampleSet 2)).tc.PD.Phase
        = MemberPhase.UpgradePhase
    ∧ (gracefulUpgrade (sampleDeps "v1" "v1" "v1" false none)
        (sampleTc true MemberPhase.NormalPhase "pd-0") (sampleSet 3) (sampleSet 2)).newSet
        = sampleSet 2 :=
  ⟨(gracefulUpgrade_template_differs_marks_upgrading (sampleDeps "v1" "v1" "v1" false none)
      (sampleTc true MemberPhase.NormalPhase "pd-0") (sampleSet 3) (sampleSet 2) rfl
      (by decide) rfl).1,
    (gracefulUpgrade_template_differs_marks_upgrading (sampleDeps "v1" "v1" "v1" false none)
      (sampleTc true MemberPhase.NormalPhase "pd-0") (sampleSet 3) (sampleSet 2) rfl
      (by decide) rfl).2.2.2.1⟩

/-! ## Idempotence -/

theorem SetUpgradePartition_twice (s : StatefulSet) (a b : Int) :
    SetUpgradePartition (SetUpgradePartition s a) b = SetUpgradePartition s b := rfl

theorem withUpgradePhase_twice (tc : TidbCluster) :
    tc.withUpgradePhase.withUpgradePhase = tc.withUpgradePhase := rfl

/-- A run of the loop leaves the desired StatefulSet as it was or with the
partition set to some ordinal. -/
theorem upgradeLoop_newSet (d : Deps) (tc : TidbCluster) (ns : StatefulSet) (l : List Int) :
    (upgradeLoop d tc (minReadySeconds d tc) ns l).newSet = ns
    ∨ ∃ k, (upgradeLoop d tc (minReadySeconds d tc) ns l).newSet = SetUpgradePartition ns k := by
  rcases (upgradeLoop_shape d tc ns l).2 with
    ⟨hns, _, _⟩ | ⟨hi, k, lo, evs, _, _, _, _, hrun, _, _⟩
  · exact Or.inl hns
  · rw [hrun]
    simp only [Result.after]
    rcases (upgradePDPod_cases d tc k ns).2 with ⟨_, h, _⟩ | ⟨_, h, _⟩ | ⟨_, t, _, _, h, _⟩
    · exact Or.inr ⟨k, h⟩
    · exact Or.inl h
    · exact Or.inl h

/-- C25. For a fixed observed StatefulSet, fixed pods and fixed answers of
the collaborators, with `templateEqual` depending on the desired StatefulSet
through its pod template only: calling `Upgrade` again on the cluster object
and the desired StatefulSet left by a first call gives the very result of the
first call, hence the same desired partition, update strategy and template,
the same PD phase and the same nil or error outcome. -/
theorem upgrade_idempotent (d : Deps) (tc : TidbCluster) (oldSet newSet : StatefulSet)
    (htemplate : ∀ a b : StatefulSet, a.Template = b.Template →
      d.templateEqual a oldSet = d.templateEqual b oldSet) :
    Upgrade d (Upgrade d tc oldSet newSet).tc oldSet (Upgrade d tc oldSet newSet).newSet
      = Upgrade d tc oldSet newSet := by
  unfold Upgrade
  by_cases hsync : tc.PD.Synced = true
  swap
  · simp [gracefulUpgrade, hsync]
  by_cases hscale : tc.PDScaling = true
  · cases hc : d.GetLastAppliedConfig oldSet <;>
      simp [gracefulUpgrade, hsync, hscale, hc]
  have hphase : tc.PD.Phase ≠ MemberPhase.ScalePhase := by
    simpa [TidbCluster.PDScaling] using hscale
  have hsync' : tc.withUpgradePhase.PD.Synced = true := hsync
  have hscale' : tc.withUpgradePhase.PDScaling = false := by
    simp [TidbCluster.PDScaling, TidbCluster.withUpgradePhase]
  have hphase' : tc.withUpgradePhase.PD.Phase ≠ MemberPhase.ScalePhase := by
    simp [TidbCluster.withUpgradePhase]
  by_cases heq : d.templateEqual newSet oldSet = true
  swap
  · have h1 : gracefulUpgrade d tc oldSet newSet = ⟨Ret.nil, tc.withUpgradePhase, newSet, []⟩ := by
      simp [gracefulUpgrade, hsync, hscale, heq]
    rw [h1]
    simp [gracefulUpgrade, hsync', hscale', heq, withUpgradePhase_twice]
  by_cases hman : oldSet.UpdateStrategy.Type_ = StrategyType.OnDeleteStatefulSetStrategyType
      ∨ oldSet.UpdateStrategy.RollingUpdate = none
  · have h1 : gracefulUpgrade d tc oldSet newSet
        = ⟨Ret.nil, tc.withUpgradePhase,
            { newSet with UpdateStrategy := oldSet.UpdateStrategy }, []⟩ := by
      simp [gracefulUpgrade, hsync, hscale, heq, hman]
    rw [h1]
    have heq' : d.templateEqual { newSet with UpdateStrategy := oldSet.UpdateStrategy } oldSet
        = true := by
      exact (htemplate { newSet with UpdateStrategy := oldSet.UpdateStrategy } newSet rfl).trans heq
    simp [gracefulUpgrade, hsync', hscale', heq', hman, withUpgradePhase_twice]
  cases hp : oldSet.partition with
  | none =>
    have h1 : gracefulUpgrade d tc oldSet newSet
        = ⟨Ret.panic, tc.withUpgradePhase, newSet, []⟩ := by
      simp [gracefulUpgrade, hsync, hscale, heq, hman, hp]
    rw [h1]
    simp [gracefulUpgrade, hsync', hscale', heq, hman, hp, withUpgradePhase_twice]
  | some p =>
    have heqp : ∀ k, d.templateEqual (SetUpgradePartition newSet k) oldSet = true := by
      intro k
      exact (htemplate (SetUpgradePartition newSet k) newSet rfl).trans heq
    have heqpp : ∀ k j, d.templateEqual (SetUpgradePartition (SetUpgradePartition newSet k) j)
        oldSet = true := by
      intro k j
      exact (htemplate (SetUpgradePartition (SetUpgradePartition newSet k) j) newSet rfl).trans
        heq
    cases hrep : oldSet.Replicas with
    | none =>
      have h1 : gracefulUpgrade d tc oldSet newSet
          = ⟨Ret.panic, tc.withUpgradePhase, SetUpgradePartition newSet p, []⟩ := by
        simp [gracefulUpgrade, hsync, hscale, heq, hman, hp, hrep]
      rw [h1]
      simp [gracefulUpgrade, hsync', hscale', heqp, hman, hp, hrep, withUpgradePhase_twice,
        SetUpgradePartition_twice]
    | some rep =>
      have hpast : PastEarlyExits d tc oldSet newSet p rep :=
        ⟨hsync, hphase, heq, fun h => hman (Or.inl h), hp, hrep⟩
      rw [gracefulUpgrade_past d tc oldSet newSet p rep hpast]
      have htc := (upgradeLoop_shape d tc.withUpgradePhase (SetUpgradePartition newSet p)
        (d.GetPodOrdinals rep oldSet).reverse).1
      rw [htc]
      rcases upgradeLoop_newSet d tc.withUpgradePhase (SetUpgradePartition newSet p)
        (d.GetPodOrdinals rep oldSet).reverse with hns | ⟨k, hns⟩
      · rw [hns]
        have hpast2 : PastEarlyExits d tc.withUpgradePhase oldSet (SetUpgradePartition newSet p)
            p rep :=
          ⟨hsync', hphase', heqp p, fun h => hman (Or.inl h), hp, hrep⟩
        rw [gracefulUpgrade_past d tc.withUpgradePhase oldSet _ p rep hpast2]
        rfl
      · rw [hns]
        have hpast2 : PastEarlyExits d tc.withUpgradePhase oldSet
            (SetUpgradePartition (SetUpgradePartition newSet p) k) p rep :=
          ⟨hsync', hphase', heqpp p k, fun h => hman (Or.inl h), hp, hrep⟩
        rw [gracefulUpgrade_past d tc.withUpgradePhase oldSet _ p rep hpast2]
        rfl

theorem upgrade_idempotent_witness :
    Upgrade (sampleDeps "v1" "v1" "v2" true none)
        (Upgrade (sampleDeps "v1" "v1" "v2" true none)
          (sampleTc true MemberPhase.NormalPhase "pd-0") (sampleSet 2) (sampleSet 3)).tc
        (sampleSet 2)
        (Upgrade (sampleDeps "v1" "v1" "v2" true none)
          (sampleTc true MemberPhase.NormalPhase "pd-0") (sampleSet 2) (sampleSet 3)).newSet
      = Upgrade (sampleDeps "v1" "v1" "v2" true none)
          (sampleTc true MemberPhase.NormalPhase "pd-0") (sampleSet 2) (sampleSet 3) :=
  upgrade_idempotent (sampleDeps "v1" "v1" "v2" true none)
    (sampleTc true MemberPhase.NormalPhase "pd-0") (sampleSet 2) (sampleSet 3)
    (fun _ _ _ => rfl)

end PDUpgrader

/-! # Theorems on the TiProxy scaler -/

namespace TiProxyScaler

open PDUpgrader (Err)

/-- C22. For every TidbCluster whose TiProxy status is not synced, `ScaleOut`
and `ScaleIn` both return an error, and neither calls
`setReplicasAndDeleteSlots`: the desired StatefulSet is the one passed in
(`ScaleOut`) or that one after `resetReplicas` (`ScaleIn`), never one carrying
the replica count or delete slots computed by `scaleOne`. -/
theorem scale_unsynced_errors_without_write (h : Helpers) (tc : TidbCluster)
    (oldSet newSet : StatefulSet) (hsync : tc.TiProxy.Synced = false) :
    (∃ e, (ScaleOut h (.tidbCluster tc) oldSet newSet).ret = some e)
    ∧ (∃ e, (ScaleIn h (.tidbCluster tc) oldSet newSet).ret = some e)
    ∧ replicaWrites (ScaleOut h (.tidbCluster tc) oldSet newSet).trace = []
    ∧ replicaWrites (ScaleIn h (.tidbCluster tc) oldSet newSet).trace = []
    ∧ (ScaleOut h (.tidbCluster tc) oldSet newSet).newSet = newSet
    ∧ (ScaleIn h (.tidbCluster tc) oldSet newSet).newSet = h.resetReplicas newSet oldSet := by
  simp [ScaleOut, ScaleIn, hsync, replicaWrites]

theorem scale_unsynced_errors_without_write_witness :
    (∃ e, (ScaleOut (specHelpers sampleReset) (sampleCluster false) (sampleSts 3)
        (sampleSts 5)).ret = some e)
    ∧ (∃ e, (ScaleIn (specHelpers sampleReset) (sampleCluster false) (sampleSts 3)
        (sampleSts 1)).ret = some e) :=
  ⟨(scale_unsynced_errors_without_write (specHelpers sampleReset) ⟨"db", "ns", ⟨false⟩⟩
      (sampleSts 3) (sampleSts 5) rfl).1,
    (scale_unsynced_errors_without_write (specHelpers sampleReset) ⟨"db", "ns", ⟨false⟩⟩
      (sampleSts 3) (sampleSts 1) rfl).2.1⟩

/-- C23. With `scaleOne` and `setReplicasAndDeleteSlots` as the spec gives
them: for every call of `Scale` on a TidbCluster whose requested replica count
differs from the observed one and that returns nil, the replica count of the
desired StatefulSet is the observed count plus one when scaling out and minus
one when scaling in, however far the requested count is from the observed
one. -/
theorem scale_changes_replicas_by_one
    (resetReplicas : StatefulSet → StatefulSet → StatefulSet) (tc : TidbCluster)
    (oldSet newSet : StatefulSet) (hne : newSet.Replicas ≠ oldSet.Replicas)
    (hnil : (Scale (specHelpers resetReplicas) (.tidbCluster tc) oldSet newSet).ret = none) :
    (oldSet.Replicas < newSet.Replicas →
      (Scale (specHelpers resetReplicas) (.tidbCluster tc) oldSet newSet).newSet.Replicas
        = oldSet.Replicas + 1)
    ∧ (newSet.Replicas < oldSet.Replicas →
      (Scale (specHelpers resetReplicas) (.tidbCluster tc) oldSet newSet).newSet.Replicas
        = oldSet.Replicas - 1)
    ∧ ((Scale (specHelpers resetReplicas) (.tidbCluster tc) oldSet newSet).newSet.Replicas
          - oldSet.Replicas).natAbs ≤ 1 := by
  cases hs : tc.TiProxy.Synced with
  | false =>
    rcases lt_or_gt_of_ne hne with hlt | hgt
    · have hnot : ¬ oldSet.Replicas < newSet.Replicas := by omega
      simp [Scale, ScaleIn, specHelpers, scaleOne, hnot, hlt, hs, ScaleResult.after] at hnil
    · simp [Scale, ScaleOut, specHelpers, scaleOne, hgt, hs, ScaleResult.after] at hnil
  | true =>
    rcases lt_or_gt_of_ne hne with hlt | hgt
    · have hnot : ¬ oldSet.Replicas < newSet.Replicas := by omega
      have hrep : (Scale (specHelpers resetReplicas) (.tidbCluster tc) oldSet newSet).newSet.Replicas
          = oldSet.Replicas - 1 := by
        simp [Scale, ScaleIn, specHelpers, scaleOne, hnot, hlt, hs, ScaleResult.after,
          setReplicasAndDeleteSlots]
      rw [hrep]
      refine ⟨fun h => absurd h hnot, fun _ => rfl, ?_⟩
      omega
    · have hrep : (Scale (specHelpers resetReplicas) (.tidbCluster tc) oldSet newSet).newSet.Replicas
          = oldSet.Replicas + 1 := by
        simp [Scale, ScaleOut, specHelpers, scaleOne, hgt, hs, ScaleResult.after,
          setReplicasAndDeleteSlots]
      rw [hrep]
      refine ⟨fun _ => rfl, fun h => ?_, ?_⟩
      · omega
      · omega

theorem scale_changes_replicas_by_one_witness :
    (Scale (specHelpers sampleReset) (sampleCluster true) (sampleSts 3)
        (sampleSts 7)).newSet.Replicas = 3 + 1
    ∧ (Scale (specHelpers sampleReset) (sampleCluster true) (sampleSts 3)
        (sampleSts 0)).newSet.Replicas = 3 - 1 :=
  ⟨(scale_changes_replicas_by_one sampleReset ⟨"db", "ns", ⟨true⟩⟩ (sampleSts 3) (sampleSts 7)
      (by decide) (by decide)).1 (by decide),
    (scale_changes_replicas_by_one sampleReset ⟨"db", "ns", ⟨true⟩⟩ (sampleSts 3) (sampleSts 0)
      (by decide) (by decide)).2.1 (by decide)⟩

/-- C24, code on every successful call: on a synced TidbCluster `ScaleIn`
returns nil and writes the replica count computed by `scaleOne` onto the
desired StatefulSet, and it sends no request to the cluster, before the write
or after it. -/
theorem scaleIn_sends_no_cluster_request (h : Helpers) (tc : TidbCluster)
    (oldSet newSet : StatefulSet) (hsync : tc.TiProxy.Synced = true) :
    (ScaleIn h (.tidbCluster tc) oldSet newSet).ret = none
    ∧ replicaWrites (ScaleIn h (.tidbCluster tc) oldSet newSet).trace
        = [((h.scaleOne oldSet newSet).replicas, (h.scaleOne oldSet newSet).deleteSlots)]
    ∧ clusterRequests (ScaleIn h (.tidbCluster tc) oldSet newSet).trace = [] := by
  simp [ScaleIn, hsync, replicaWrites, clusterRequests]

theorem scaleIn_sends_no_cluster_request_witness :
    (ScaleIn (specHelpers sampleReset) (sampleCluster true) (sampleSts 3) (sampleSts 2)).ret
        = none
    ∧ (ScaleIn (specHelpers sampleReset) (sampleCluster true) (sampleSts 3)
        (sampleSts 2)).newSet.Replicas = 2
    ∧ clusterRequests (ScaleIn (specHelpers sampleReset) (sampleCluster true) (sampleSts 3)
        (sampleSts 2)).trace = [] :=
  ⟨(scaleIn_sends_no_cluster_request (specHelpers sampleReset) ⟨"db", "ns", ⟨true⟩⟩
      (sampleSts 3) (sampleSts 2) rfl).1, by decide,
    (scaleIn_sends_no_cluster_request (specHelpers sampleReset) ⟨"db", "ns", ⟨true⟩⟩
      (sampleSts 3) (sampleSts 2) rfl).2.2⟩

/-- C30. On a TidbCluster whose TiProxy status is not synced, `ScaleIn`
returns its error after `scaleOne` and `resetReplicas` have run, so that, when
`resetReplicas` gives the desired StatefulSet the replica count and the delete
slots of the observed one, the desired StatefulSet carries those; `ScaleOut`
returns its error before any helper runs, with the desired StatefulSet exactly
as passed in. When the requested replica count differs from the observed one,
the two leave different desired StatefulSets behind. -/
theorem scaleIn_resets_before_error_scaleOut_does_not (h : Helpers) (tc : TidbCluster)
    (oldSet newSet : StatefulSet) (hsync : tc.TiProxy.Synced = false)
    (hreset : (h.resetReplicas newSet oldSet).Replicas = oldSet.Replicas
      ∧ (h.resetReplicas newSet oldSet).DeleteSlots = oldSet.DeleteSlots) :
    ((∃ e, (ScaleIn h (.tidbCluster tc) oldSet newSet).ret = some e)
      ∧ (ScaleIn h (.tidbCluster tc) oldSet newSet).trace
          = [ScaleEvent.scaleOne, ScaleEvent.resetReplicas]
      ∧ (ScaleIn h (.tidbCluster tc) oldSet newSet).newSet.Replicas = oldSet.Replicas
      ∧ (ScaleIn h (.tidbCluster tc) oldSet newSet).newSet.DeleteSlots = oldSet.DeleteSlots)
    ∧ ((∃ e, (ScaleOut h (.tidbCluster tc) oldSet newSet).ret = some e)
      ∧ (ScaleOut h (.tidbCluster tc) oldSet newSet).trace = []
      ∧ (ScaleOut h (.tidbCluster tc) oldSet newSet).newSet = newSet)
    ∧ (newSet.Replicas ≠ oldSet.Replicas →
      (ScaleIn h (.tidbCluster tc) oldSet newSet).newSet
        ≠ (ScaleOut h (.tidbCluster tc) oldSet newSet).newSet) := by
  refine ⟨?_, ?_, ?_⟩
  · simp [ScaleIn, hsync, hreset.1, hreset.2]
  · simp [ScaleOut, hsync]
  · intro hne heq
    apply hne
    have h1 : (ScaleIn h (.tidbCluster tc) oldSet newSet).newSet.Replicas = oldSet.Replicas := by
      simp [ScaleIn, hsync, hreset.1]
    have h2 : (ScaleOut h (.tidbCluster tc) oldSet newSet).newSet = newSet := by
      simp [ScaleOut, hsync]
    rw [heq, h2] at h1
    exact h1

theorem scaleIn_resets_before_error_scaleOut_does_not_witness :
    (ScaleIn (specHelpers sampleReset) (sampleCluster false) (sampleSts 3)
        (sampleSts 1)).newSet
      ≠ (ScaleOut (specHelpers sampleReset) (sampleCluster false) (sampleSts 3)
        (sampleSts 1)).newSet :=
  (scaleIn_resets_before_error_scaleOut_does_not (specHelpers sampleReset)
    ⟨"db", "ns", ⟨false⟩⟩ (sampleSts 3) (sampleSts 1) rfl ⟨rfl, rfl⟩).2.2 (by decide)

end TiProxyScaler

/-! # Theorems on the TiKV status sync -/

namespace TiKVMemberManager

open PDUpgrader (Err MemberPhase mapGet)

/-- An entry of a map after a write is an earlier entry or the entry written. -/
theorem mem_mapSet {β : Type} (l : List (String × β)) (k : String) (v : β)
    (p : String × β) (h : p ∈ mapSet l k v) : p ∈ l ∨ p = (k, v) := by
  induction l with
  | nil =>
    simp only [mapSet, List.mem_singleton] at h
    exact Or.inr h
  | cons q rest ih =>
    obtain ⟨k', v'⟩ := q
    by_cases hk : k' = k
    · simp only [mapSet, hk, if_true, List.mem_cons] at h
      rcases h with h | h
      · exact Or.inr h
      · exact Or.inl (List.mem_cons_of_mem _ h)
    · simp only [mapSet, hk, if_false, List.mem_cons] at h
      rcases h with h | h
      · exact Or.inl (h ▸ List.mem_cons_self _ _)
      · rcases ih h with h' | h'
        · exact Or.inl (List.mem_cons_of_mem _ h')
        · exact Or.inr h'

/-- Every local member recorded by the fold is the status computed from an
inventory entry, under the identifier of that entry. -/
theorem foldStores_local (d : SyncDeps) (previous : List (String × TiKVStore))
    (infos : List StoreInfo)
    (acc : List (String × TiKVStore) × List (String × TiKVStore) × List (String × TiKVStore))
    (hacc : ∀ p ∈ acc.1, ∃ store, p = (store.Id, localStore previous d.now store)) :
    ∀ p ∈ (foldStores d previous infos acc).1,
      ∃ store, p = (store.Id, localStore previous d.now store) := by
  induction infos generalizing acc with
  | nil =>
    obtain ⟨stores, peers, tombstones⟩ := acc
    simpa [foldStores] using hacc
  | cons info rest ih =>
    obtain ⟨stores, peers, tombstones⟩ := acc
    cases hst : info.Store with
    | none =>
      simp only [foldStores, hst]
      exact ih _ hacc
    | some store =>
      cases hstatus : info.Status with
      | none =>
        simp only [foldStores, hst, hstatus]
        exact ih _ hacc
      | some status =>
        cases hc : d.classify store with
        | tombstone =>
          simp only [foldStores, hst, hstatus, hc]
          exact ih _ hacc
        | peer =>
          simp only [foldStores, hst, hstatus, hc]
          exact ih _ hacc
        | localMember =>
          simp only [foldStores, hst, hstatus, hc]
          apply ih
          intro p hp
          rcases mem_mapSet _ _ _ p hp with h | h
          · exact hacc p h
          · exact ⟨store, h⟩

/-- A map read after a write of the same key gives the value written. -/
theorem mapGet_mapSet_same {β : Type} (l : List (String × β)) (k : String) (v : β) :
    mapGet (mapSet l k v) k = some v := by
  induction l with
  | nil => simp [mapSet, mapGet]
  | cons q rest ih =>
    obtain ⟨k', v'⟩ := q
    by_cases hk : k' = k
    · simp [mapSet, mapGet, hk]
    · simp [mapSet, mapGet, hk, ih]

/-- A map read after a write of another key gives what it gave before. -/
theorem mapGet_mapSet_other {β : Type} (l : List (String × β)) (k k' : String) (v : β)
    (hne : k' ≠ k) : mapGet (mapSet l k' v) k = mapGet l k := by
  induction l with
  | nil => simp [mapSet, mapGet, hne]
  | cons q rest ih =>
    obtain ⟨k'', v''⟩ := q
    by_cases hk : k'' = k'
    · subst hk
      simp [mapSet, mapGet, hne]
    · by_cases hk2 : k'' = k
      · subst hk2
        simp [mapSet, mapGet, hk]
      · simp [mapSet, mapGet, hk, hk2, ih]

/-- A value read from a map is bound to its key in the map. -/
theorem mem_of_mapGet {β : Type} (l : List (String × β)) (k : String) (v : β)
    (h : mapGet l k = some v) : (k, v) ∈ l := by
  induction l with
  | nil => simp [mapGet] at h
  | cons q rest ih =>
    obtain ⟨k', v'⟩ := q
    by_cases hk : k' = k
    · simp only [mapGet, hk, if_true, Option.some.injEq] at h
      subst hk
      subst h
      exact List.mem_cons_self _ _
    · simp only [mapGet, hk, if_false] at h
      exact List.mem_cons_of_mem _ (ih h)

/-- The status computed for a local member depends on the inventory entry
through its identifier and its state name only. -/
theorem localStore_congr (previous : List (String × TiKVStore)) (now : Int)
    (a b : MetaStore) (hid : a.Id = b.Id) (hstate : a.StateName = b.StateName) :
    localStore previous now a = localStore previous now b := by
  simp only [localStore, hid, hstate]

/-- When the reports of a store agree on its state and one of them is a local
member with both payloads, the fold records, under the identifier of the store,
the status computed from that report. -/
theorem foldStores_get (d : SyncDeps) (previous : List (String × TiKVStore))
    (store : MetaStore) (infos : List StoreInfo)
    (acc : List (String × TiKVStore) × List (String × TiKVStore) × List (String × TiKVStore))
    (hagree : ∀ info ∈ infos, ∀ other, info.Store = some other → other.Id = store.Id →
      other.StateName = store.StateName)
    (h : mapGet acc.1 store.Id = some (localStore previous d.now store)
      ∨ ∃ info ∈ infos, ∃ payload, info.Store = some store ∧ info.Status = some payload
          ∧ d.classify store = StoreKind.localMember) :
    mapGet (foldStores d previous infos acc).1 store.Id
      = some (localStore previous d.now store) := by
  induction infos generalizing acc with
  | nil =>
    obtain ⟨stores, peers, tombstones⟩ := acc
    rcases h with h | ⟨info, hmem, _⟩
    · simpa [foldStores] using h
    · simp at hmem
  | cons info rest ih =>
    obtain ⟨stores, peers, tombstones⟩ := acc
    have hagree' : ∀ info ∈ rest, ∀ other, info.Store = some other → other.Id = store.Id →
        other.StateName = store.StateName :=
      fun x hx => hagree x (List.mem_cons_of_mem _ hx)
    -- what is left of the hypothesis once the head is known not to be the report
    have hrest : (¬ ∃ payload, info.Store = some store ∧ info.Status = some payload
          ∧ d.classify store = StoreKind.localMember) →
        mapGet stores store.Id = some (localStore previous d.now store)
        ∨ ∃ x ∈ rest, ∃ payload, x.Store = some store ∧ x.Status = some payload
            ∧ d.classify store = StoreKind.localMember := by
      intro hnot
      rcases h with h | ⟨x, hx, payload, h1, h2, h3⟩
      · exact Or.inl h
      · rcases List.mem_cons.1 hx with rfl | hx
        · exact absurd ⟨payload, h1, h2, h3⟩ hnot
        · exact Or.inr ⟨x, hx, payload, h1, h2, h3⟩
    cases hst : info.Store with
    | none =>
      simp only [foldStores, hst]
      exact ih _ hagree' (hrest (by simp [hst]))
    | some other =>
      cases hstatus : info.Status with
      | none =>
        simp only [foldStores, hst, hstatus]
        exact ih _ hagree' (hrest (by simp [hstatus]))
      | some payload =>
        cases hc : d.classify other with
        | tombstone =>
          simp only [foldStores, hst, hstatus, hc]
          apply ih _ hagree'
          apply hrest
          rintro ⟨_, h1, _, h3⟩
          rw [hst] at h1
          cases h1
          rw [hc] at h3
          cases h3
        | peer =>
          simp only [foldStores, hst, hstatus, hc]
          apply ih _ hagree'
          apply hrest
          rintro ⟨_, h1, _, h3⟩
          rw [hst] at h1
          cases h1
          rw [hc] at h3
          cases h3
        | localMember =>
          simp only [foldStores, hst, hstatus, hc]
          apply ih _ hagree'
          by_cases hid : other.Id = store.Id
          · left
            have hstate := hagree info (List.mem_cons_self _ _) other hst hid
            rw [localStore_congr previous d.now other store hid hstate, hid]
            exact mapGet_mapSet_same _ _ _
          · have hnot : ¬ ∃ payload, info.Store = some store ∧ info.Status = some payload
                ∧ d.classify store = StoreKind.localMember := by
              rintro ⟨_, h1, _, _⟩
              rw [hst] at h1
              cases h1
              exact hid rfl
            rcases hrest hnot with h' | h'
            · left
              show mapGet (mapSet stores other.Id _) store.Id = _
              rw [mapGet_mapSet_other _ _ _ _ hid]
              exact h'
            · exact Or.inr h'

/-- C26. In the sync modelled from the spec, when the upgrade predicate and
the inventory query succeed: for every store recorded in the prior status that
the inventory reports as a local member (with both payloads, all its reports
agreeing on the state), the new status records the store with the reported
state, and its last-transition timestamp is the recorded one if the reported
state equals the recorded state, and is replaced by the time of the sync if
the state changed; that time is later than the recorded one whenever the clock
reads later than the recorded timestamp. Moreover no timestamp of the new
status lies after the time of the sync when none of the prior status did, so
that a clock that advances from one sync to the next reads later than every
recorded timestamp. -/
theorem syncTiKVClusterStatus_recorded_store_timestamp (d : SyncDeps) (status : TiKVStatus)
    (observedReplicas : Int) (upgrading : Bool) (infos : List StoreInfo)
    (info : StoreInfo) (store : MetaStore) (payload : StoreStatus) (old : TiKVStore)
    (hup : d.isUpgrading = .ok upgrading) (hquery : d.getStores = .ok infos)
    (hinfo : info ∈ infos) (hstore : info.Store = some store)
    (hpayload : info.Status = some payload)
    (hlocal : d.classify store = StoreKind.localMember)
    (hagree : ∀ x ∈ infos, ∀ other, x.Store = some other → other.Id = store.Id →
      other.StateName = store.StateName)
    (hold : mapGet status.Stores store.Id = some old) :
    (∃ st, mapGet (syncTiKVClusterStatus d status observedReplicas).2.Stores store.Id = some st
      ∧ st.State = store.StateName
      ∧ (store.StateName = old.State → st.LastTransitionTime = old.LastTransitionTime)
      ∧ (store.StateName ≠ old.State →
          st.LastTransitionTime = d.now
          ∧ (old.LastTransitionTime < d.now →
              old.LastTransitionTime < st.LastTransitionTime)))
    ∧ ((∀ q ∈ status.Stores, q.2.LastTransitionTime ≤ d.now) →
        ∀ q ∈ (syncTiKVClusterStatus d status observedReplicas).2.Stores,
          q.2.LastTransitionTime ≤ d.now) := by
  have hstores : (syncTiKVClusterStatus d status observedReplicas).2.Stores
      = (foldStores d status.Stores infos ([], [], [])).1 := by
    simp only [syncTiKVClusterStatus, hup, hquery]
  rw [hstores]
  refine ⟨⟨localStore status.Stores d.now store, ?_, ?_, ?_, ?_⟩, ?_⟩
  · exact foldStores_get d status.Stores store infos ([], [], []) hagree
      (Or.inr ⟨info, hinfo, payload, hstore, hpayload, hlocal⟩)
  · simp only [localStore, hold]
    split <;> rfl
  · intro hsame
    simp [localStore, hold, hsame]
  · intro hne
    have hne' : ¬ old.State = store.StateName := fun h => hne h.symm
    simp [localStore, hold, hne']
  · intro hprev q hq
    obtain ⟨other, hqeq⟩ := foldStores_local d status.Stores infos ([], [], []) (by simp) q hq
    rw [hqeq]
    simp only [localStore]
    cases hget : mapGet status.Stores other.Id with
    | none => simp
    | some o =>
      have := hprev _ (mem_of_mapGet _ _ _ hget)
      by_cases hs : o.State = other.StateName
      · simpa [hs] using this
      · simp [hs]

theorem syncTiKVClusterStatus_recorded_store_timestamp_witness :
    (∃ st, mapGet (syncTiKVClusterStatus
          (sampleSyncDeps (.ok [sampleInfo "333" "Up", sampleInfo "334" "Up"]))
          samplePrior 3).2.Stores "333" = some st
      ∧ st.State = "Up" ∧ st.LastTransitionTime = 50)
    ∧ (∃ st, mapGet (syncTiKVClusterStatus (sampleSyncDeps (.ok [sampleInfo "333" "Down"]))
          samplePrior 3).2.Stores "333" = some st
      ∧ st.State = "Down" ∧ st.LastTransitionTime = 100 ∧ 50 < st.LastTransitionTime) :=
  ⟨(syncTiKVClusterStatus_recorded_store_timestamp
      (sampleSyncDeps (.ok [sampleInfo "333" "Up", sampleInfo "334" "Up"])) samplePrior 3 false
      [sampleInfo "333" "Up", sampleInfo "334" "Up"] (sampleInfo "333" "Up")
      ⟨"333", "db-tikv-1.db-tikv-peer.ns.svc:20160", "Up"⟩ ⟨0⟩ ⟨"333", "Up", 50⟩
      rfl rfl (by decide) rfl rfl rfl (by decide) (by decide)).1.imp
      (fun _ h => ⟨h.1, h.2.1, h.2.2.1 rfl⟩),
    (syncTiKVClusterStatus_recorded_store_timestamp
      (sampleSyncDeps (.ok [sampleInfo "333" "Down"])) samplePrior 3 false
      [sampleInfo "333" "Down"] (sampleInfo "333" "Down")
      ⟨"333", "db-tikv-1.db-tikv-peer.ns.svc:20160", "Down"⟩ ⟨0⟩ ⟨"333", "Up", 50⟩
      rfl rfl (by decide) rfl rfl rfl (by decide) (by decide)).1.imp
      (fun _ h => ⟨h.1, h.2.1, (h.2.2.2 (by decide)).1,
        (h.2.2.2 (by decide)).2 (by decide)⟩)⟩

/-- C27. In the sync modelled from the spec, for every prior status: when the
store inventory query fails, the sync returns that error, sets the synced flag
to false, and leaves the recorded stores, peer stores and tombstone stores as
they were. -/
theorem syncTiKVClusterStatus_query_failure_keeps_stores (d : SyncDeps) (status : TiKVStatus)
    (observedReplicas : Int) (upgrading : Bool) (err : Err)
    (hup : d.isUpgrading = .ok upgrading) (hquery : d.getStores = .error err) :
    (syncTiKVClusterStatus d status observedReplicas).1 = some err
    ∧ (syncTiKVClusterStatus d status observedReplicas).2.Synced = false
    ∧ (syncTiKVClusterStatus d status observedReplicas).2.Stores = status.Stores
    ∧ (syncTiKVClusterStatus d status observedReplicas).2.PeerStores = status.PeerStores
    ∧ (syncTiKVClusterStatus d status observedReplicas).2.TombstoneStores
        = status.TombstoneStores := by
  simp [syncTiKVClusterStatus, hup, hquery]

theorem syncTiKVClusterStatus_query_failure_keeps_stores_witness :
    (syncTiKVClusterStatus (sampleSyncDeps (.error (Err.errorf "failed to get stores")))
        samplePrior 3).1 = some (Err.errorf "failed to get stores")
    ∧ (syncTiKVClusterStatus (sampleSyncDeps (.error (Err.errorf "failed to get stores")))
        samplePrior 3).2.Synced = false
    ∧ (syncTiKVClusterStatus (sampleSyncDeps (.error (Err.errorf "failed to get stores")))
        samplePrior 3).2.Stores = samplePrior.Stores :=
  ⟨(syncTiKVClusterStatus_query_failure_keeps_stores
      (sampleSyncDeps (.error (Err.errorf "failed to get stores"))) samplePrior 3 false
      (Err.errorf "failed to get stores") rfl rfl).1,
    (syncTiKVClusterStatus_query_failure_keeps_stores
      (sampleSyncDeps (.error (Err.errorf "failed to get stores"))) samplePrior 3 false
      (Err.errorf "failed to get stores") rfl rfl).2.1,
    (syncTiKVClusterStatus_query_failure_keeps_stores
      (sampleSyncDeps (.error (Err.errorf "failed to get stores"))) samplePrior 3 false
      (Err.errorf "failed to get stores") rfl rfl).2.2.1⟩

end TiKVMemberManager
